import Mathlib

/-!
# SwarmAlien / Wwise plugin: the WAAPI picker

A shallow embedding of `SWaapiPicker.cpp` (the mirror of the Wwise project
tree, the filter overlay, the push notifications and the transport session
manager) and of the asset factories of `AkAssetFactories.cpp`.

Conventions of the embedding.

* `FString` values are Lean strings.  The engine's `FString` comparisons
  (`==`, `StartsWith`, `RemoveFromEnd`) ignore case; a string of the model
  stands for the text up to that folding, so that Lean's equality is the
  comparison the code performs.
* `FGuid` values are natural numbers, `0` being the default (invalid) guid.
* `TSharedPtr<FWwiseTreeItem>` is an address into the list of all tree items
  allocated so far (`none` is the null pointer).  `TWeakPtr` is the same.
* Remote calls go through `FAkWaapiClient::Get()`, which may be null.  The
  remote side is an arbitrary function of the requests issued so far; every
  request issued is appended to the ghost field `sent`.
* An operation that dereferences a null pointer, indexes an array out of
  range or recurses without end returns `none`.
-/

namespace SwarmAlien

/-! ## Basic types -/

abbrev FGuid := Nat

/-- Validity of a guid: `FGuid::IsValid`, false exactly for the default guid. -/
def FGuid.IsValid (g : FGuid) : Bool := g != 0

/-- Address of a tree item (a non-null `TSharedPtr<FWwiseTreeItem>`). -/
abbrev Ptr := Nat

/-- Item types named in the sources; `Other` stands for the members of the enumeration
that the picker never names.  The value `EWwiseItemType::None` is `Option.none`. -/
inductive EWwiseItemType where
  | Event | AuxBus | ActorMixer | GameParameter | State | Switch | Trigger | AcousticTexture
  | Sound | BlendContainer | SwitchContainer | RandomSequenceContainer
  | PhysicalFolder | StandaloneWorkUnit | NestedWorkUnit | Project
  | Other (tag : Nat)
  deriving DecidableEq, Repr

/-- Session record `TransportInfo` stored in `ItemToTransport`. -/
structure TransportInfo where
  TransportID : Int
  SubscriptionID : Nat
  deriving DecidableEq, Repr

/-! ## `TMap` as an association list

Keys are unique in a `TMap`; `TMap.WF` states it. -/

namespace TMap

/-- Lookup: `TMap::Find` (and `operator[]` on a present key). -/
def Find {V : Type} (m : List (FGuid × V)) (k : FGuid) : Option V :=
  match m with
  | [] => none
  | (k1, v) :: rest => if k1 = k then some v else Find rest k

/-- Membership test `TMap::Contains`. -/
def Contains {V : Type} (m : List (FGuid × V)) (k : FGuid) : Bool :=
  (Find m k).isSome

/-- Insertion `TMap::Add`: the value of an existing key is replaced, a new key is appended. -/
def Add {V : Type} (m : List (FGuid × V)) (k : FGuid) (v : V) : List (FGuid × V) :=
  match m with
  | [] => [(k, v)]
  | (k1, v1) :: rest => if k1 = k then (k, v) :: rest else (k1, v1) :: Add rest k v

/-- Removal `TMap::Remove`. -/
def Remove {V : Type} (m : List (FGuid × V)) (k : FGuid) : List (FGuid × V) :=
  m.filter (fun kv => kv.1 != k)

/-- Well-formedness of a map: no key occurs twice. -/
def WF {V : Type} (m : List (FGuid × V)) : Prop := (m.map Prod.fst).Nodup

instance decidableWF {V : Type} (m : List (FGuid × V)) : Decidable (WF m) :=
  inferInstanceAs (Decidable (m.map Prod.fst).Nodup)

end TMap

/-! ## JSON payloads -/

/-- Object description as WAAPI returns it (`id`, `name`, `type`, `childrenCount`, `path`,
`workunit:type`).  A field is `none` when it is absent.  For `id` the inner option is the
result of `FGuid::ParseExact` on the text of the field. -/
structure FJsonObject where
  id : Option (Option FGuid) := none
  name : Option String := none
  type : Option String := none
  childrenCount : Option Nat := none
  path : Option String := none
  workunitType : Option String := none
  deriving DecidableEq, Repr

/-- String field read `GetStringField`: the empty string when the field is absent. -/
def GetStringField (f : Option String) : String := f.getD ""

/-- Payload of a transport `stateChanged` notification: the `state` text, the guid that
`FGuid::Parse` reads from `object` (the default guid when it does not parse) and the
`transport` number. -/
structure StateChangedJson where
  state : String
  object : FGuid
  transport : Int
  deriving DecidableEq, Repr

/-! ## The remote side -/

/-- Actions of `ak.wwise.core.transport.executeAction` that the picker issues. -/
inductive TransportAction where
  | playStop | stop
  deriving DecidableEq, Repr

/-- Requests sent to the remote application.  The three `object.get` queries are the uses of
`CallWaapiGetInfoFrom`: by path, by id with the children selected, and the name search with
its range. -/
inductive WaapiRequest where
  | transportCreate (object : FGuid)
  | transportDestroy (transport : Int)
  | executeAction (action : TransportAction) (transport : Int)
  | subscribeStateChanged (transport : Int)
  | unsubscribe (subscriptionId : Nat)
  | objectGetPath (path : String)
  | objectGetChildren (id : FGuid)
  | objectSearch (text : String) (rangeEnd : Nat)
  deriving DecidableEq, Repr

/-- Answer of the remote application to one request: whether the call succeeded, and the fields
of the result that the picker reads (`transport`, the subscription id written by `Subscribe`,
the `return` array). -/
structure WaapiReply where
  success : Bool := false
  transport : Int := 0
  subscriptionId : Nat := 0
  ret : List FJsonObject := []
  deriving DecidableEq, Repr

/-- Remote client: its answer to a request may depend on every request issued before. -/
structure FAkWaapiClient where
  respond : List WaapiRequest → WaapiRequest → WaapiReply

/-- Modelled from the spec: the top-level categories `Event .. LastWaapiDraggable` of the
enumeration `EWwiseItemType` (its header is not in the sources), in the order the spec lists
them; this is also the order of `ValidPaths` in `ConstructWwiseTreeItem`.  Category number `i`
owns `RootItems[i]`. -/
def Categories : List EWwiseItemType :=
  [.Event, .AuxBus, .ActorMixer, .GameParameter, .State, .Switch, .Trigger, .AcousticTexture]

/-- Sample folder names of the categories (the table `EWwiseItemType::FolderNames`). -/
def sampleFolderNames : EWwiseItemType → String
  | .Event => "Events"
  | .AuxBus => "Master-Mixer Hierarchy"
  | .ActorMixer => "Actor-Mixer Hierarchy"
  | .GameParameter => "Game Parameters"
  | .State => "States"
  | .Switch => "Switches"
  | .Trigger => "Triggers"
  | .AcousticTexture => "Virtual Acoustics"
  | _ => "Other"

/-- Sample item names of the categories (the table `EWwiseItemType::ItemNames`). -/
def sampleItemNames : EWwiseItemType → String
  | .Event => "Event"
  | .AuxBus => "AuxBus"
  | .ActorMixer => "ActorMixer"
  | .GameParameter => "GameParameter"
  | .State => "State"
  | .Switch => "Switch"
  | .Trigger => "Trigger"
  | .AcousticTexture => "AcousticTexture"
  | _ => "Other"

/-- Sample of `EWwiseItemType::FromString`; `none` is `EWwiseItemType::None`. -/
def sampleFromString (t : String) : Option EWwiseItemType :=
  if t = "Event" then some .Event
  else if t = "Sound" then some .Sound
  else if t = "Folder" then some (.Other 0)
  else if t = "WorkUnit" then some .StandaloneWorkUnit
  else if t = "ActorMixer" then some .ActorMixer
  else none

/-- Constants and tables of headers that are not part of the sources, and the surroundings of
the picker: the client returned by `FAkWaapiClient::Get()` (null when the connection is gone),
`FAkWaapiClient::IsProjectLoaded()`, the stream of `FGuid::NewGuid()` values, the tables
`FolderNames`, `ItemNames` and `FromString` of `EWwiseItemType`, and the order `SortLE` on
(type, display name) that `FWwiseTreeItem::SortChildren` sorts by.  The default values are
samples; the theorems hold for every world. -/
structure World where
  client : Option FAkWaapiClient := none
  IsProjectLoaded : Bool := true
  NewGuid : Nat → FGuid := fun n => n + 1000
  FolderNames : EWwiseItemType → String := sampleFolderNames
  ItemNames : EWwiseItemType → String := sampleItemNames
  FromString : String → Option EWwiseItemType := sampleFromString
  SortLE : EWwiseItemType × String → EWwiseItemType × String → Bool :=
    fun a b => decide (a.2.length ≤ b.2.length)

/-! ## Picker state (transport part) -/

/-- Tree item `FWwiseTreeItem`.  `ChildCountInWwise` holds `uint32_t` values (every value the
sources store into it is one), so arithmetic on it is modulo `2 ^ 32`.  `TreeRowExpanded`
stands for `TreeRow.IsValid() && TreeRow.Pin()->IsItemExpanded()`, owned by the tree view. -/
structure FWwiseTreeItem where
  DisplayName : String
  FolderPath : String
  ItemType : EWwiseItemType
  ItemId : FGuid
  Children : List Ptr := []
  ChildCountInWwise : Nat := 0
  Parent : Option Ptr := none
  TreeRowExpanded : Bool := false
  deriving DecidableEq, Repr

/-- State of the widget `SWaapiPicker`, with the static local `LastExpandedItemsBeforFilter` of
`ApplyFilter`, the flag `UAkSettings::bRequestRefresh`, the items that the tree view shows
expanded (`ExpandedInView`), the expansion tasks dispatched and not yet run
(`expansionTasks`), and ghost fields: `sent` (requests issued so far), `guids` (number of
`NewGuid` calls), `dispatched` (populate tasks launched).  `ConstructTreeTask` is `none` when
the task handle is invalid and `some c` when it is valid, `c` telling whether it is complete. -/
structure SWaapiPicker where
  items : List FWwiseTreeItem := []
  RootItems : List Ptr := []
  LastExpandedItems : Finset FGuid := ∅
  LastExpandedItemsBeforFilter : Finset FGuid := ∅
  pendingTreeItems : List (FGuid × Ptr) := []
  ItemToTransport : List (FGuid × TransportInfo) := []
  AllowTreeViewDelegates : Bool := true
  FilterText : String := ""
  bRequestRefresh : Bool := false
  ConstructTreeTask : Option Bool := none
  ExpandedInView : Finset Ptr := ∅
  expansionTasks : List Ptr := []
  sent : List WaapiRequest := []
  guids : Nat := 0
  dispatched : Nat := 0

/-- Remote call `waapiClient->Call` / `Subscribe` / `Unsubscribe` on a client: the request is
logged and answered. -/
def FAkWaapiClient.send (c : FAkWaapiClient) (s : SWaapiPicker) (rq : WaapiRequest) :
    WaapiReply × SWaapiPicker :=
  (c.respond s.sent rq, { s with sent := s.sent ++ [rq] })

/-- Modelled from the spec: `SWaapiPickerRow::CallWaapiExecuteUri` is not in the sources; it
issues the remote call for the given uri and reports whether it succeeded (it fails without
issuing anything when there is no client). -/
def CallWaapiExecuteUri (w : World) (s : SWaapiPicker) (rq : WaapiRequest) :
    WaapiReply × SWaapiPicker :=
  match w.client with
  | none => ({}, s)
  | some c => c.send s rq

/-- State names of the transport notification, `WwiseWaapiHelper::STOPPED`. -/
def STOPPED : String := "stopped"

/-- State names of the transport notification, `WwiseWaapiHelper::PLAYING`. -/
def PLAYING : String := "playing"

/-- Subscription to the state changes of a transport:
`SWaapiPicker::SubscribeToTransportStateChanged`. -/
def SubscribeToTransportStateChanged (w : World) (s : SWaapiPicker) (in_transportID : Int) :
    Nat × SWaapiPicker :=
  match w.client with
  | none => (0, s)
  | some c =>
    let r := c.send s (.subscribeStateChanged in_transportID)
    (r.1.subscriptionId, r.2)

/-- Session creation `SWaapiPicker::CreateTransport`. -/
def CreateTransport (w : World) (s : SWaapiPicker) (in_ItemId : FGuid) : Int × SWaapiPicker :=
  let r := CallWaapiExecuteUri w s (.transportCreate in_ItemId)
  if r.1.success then
    let transportID := r.1.transport
    let sub := SubscribeToTransportStateChanged w r.2 transportID
    (transportID,
      { sub.2 with
        ItemToTransport := TMap.Add sub.2.ItemToTransport in_ItemId ⟨transportID, sub.1⟩ })
  else
    (-1, r.2)

/-- Session destruction `SWaapiPicker::DestroyTransport`. -/
def DestroyTransport (w : World) (s : SWaapiPicker) (in_itemID : FGuid) : SWaapiPicker :=
  match w.client with
  | none => s
  | some c =>
    match TMap.Find s.ItemToTransport in_itemID with
    | none => s
    | some info =>
      let s1 := if info.SubscriptionID != 0 then (c.send s (.unsubscribe info.SubscriptionID)).2
                else s
      let r := c.send s1 (.transportDestroy info.TransportID)
      if r.1.success then
        { r.2 with ItemToTransport := TMap.Remove r.2.ItemToTransport in_itemID }
      else r.2

/-- Playback toggle `SWaapiPicker::TogglePlayStop`. -/
def TogglePlayStop (w : World) (s : SWaapiPicker) (in_transportID : Int) : SWaapiPicker :=
  match w.client with
  | none => s
  | some c => (c.send s (.executeAction .playStop in_transportID)).2

/-- Stop action `SWaapiPicker::StopTransport`. -/
def StopTransport (w : World) (s : SWaapiPicker) (in_transportID : Int) : SWaapiPicker :=
  match w.client with
  | none => s
  | some c => (c.send s (.executeAction .stop in_transportID)).2

/-- Conversion of a number to `int32`, as in the declaration `const int32 transportID = ...`:
the number itself when it is in the range of the type; for a number outside the range, where
C++ leaves the result open, the value that the conversion instruction of the processor
yields, the smallest `int32`. -/
def toInt32 (x : Int) : Int := if -2 ^ 31 ≤ x ∧ x < 2 ^ 31 then x else -2 ^ 31

/-- Notification handler `SWaapiPicker::HandleStateChanged`; the transport number of the
payload is narrowed into an `int32`. -/
def HandleStateChanged (w : World) (s : SWaapiPicker) (js : StateChangedJson) : SWaapiPicker :=
  let newState := js.state
  let itemID := js.object
  let transportID := toInt32 js.transport
  if newState = STOPPED then
    DestroyTransport w s itemID
  else if newState = PLAYING ∧ ¬ TMap.Contains s.ItemToTransport itemID then
    { s with ItemToTransport := TMap.Add s.ItemToTransport itemID ⟨transportID, 0⟩ }
  else s

/-- Teardown `SWaapiPicker::StopAndDestroyAllTransports`: the iterator visits every entry of the
table as it was on entry (destroying the visited entry does not move the others). -/
def StopAndDestroyAllTransports (w : World) (s : SWaapiPicker) : SWaapiPicker :=
  let s1 := s.ItemToTransport.foldl
    (fun acc kv => DestroyTransport w (StopTransport w acc kv.2.TransportID) kv.1) s
  { s1 with ItemToTransport := [] }

/-- Condition under which `DestroyTransport` removes a record: an entry exists for the item,
the remote client is available, and the remote answers the destroy request (issued after the
optional unsubscribe request) with success. -/
def DestroyConfirmed (w : World) (s : SWaapiPicker) (item : FGuid) : Prop :=
  ∃ c info, w.client = some c ∧ TMap.Find s.ItemToTransport item = some info ∧
    (c.respond (s.sent ++ (if info.SubscriptionID != 0 then [.unsubscribe info.SubscriptionID]
        else [])) (.transportDestroy info.TransportID)).success = true

/-- Requests that the teardown issues for one session: the stop action, the unsubscribe request
when the session has a subscription, the destroy call. -/
def teardownRequests (kv : FGuid × TransportInfo) : List WaapiRequest :=
  [.executeAction .stop kv.2.TransportID] ++
    (if kv.2.SubscriptionID != 0 then [.unsubscribe kv.2.SubscriptionID] else []) ++
    [.transportDestroy kv.2.TransportID]

/-! ## Strings and paths -/

/-- Separator `WwiseWaapiHelper::BACK_SLASH`. -/
def BACK_SLASH : String := "\\"

/-- JSON key `WwiseWaapiHelper::NAME`, also the display name of the placeholder item. -/
def NAME : String := "name"

/-- JSON key `WwiseWaapiHelper::PATH`, also the folder path of the placeholder item. -/
def PATH : String := "path"

/-- Prefix test `FString::StartsWith`; it is false for an empty prefix. -/
def StartsWith (s pre : String) : Bool :=
  !pre.data.isEmpty && pre.data.isPrefixOf s.data

/-- Suffix removal `FString::RemoveFromEnd`: the text without the suffix when it ends with the
(non-empty) suffix, the text itself otherwise. -/
def RemoveFromEnd (s suffix : String) : String :=
  if !suffix.data.isEmpty && suffix.data.isSuffixOf s.data then
    String.mk (s.data.take (s.data.length - suffix.data.length))
  else s

/-- Splitting at a separator character, the piece being read kept in reverse in `acc`. -/
def splitAtSep (sep : Char) : List Char → List Char → List (List Char)
  | [], acc => [acc.reverse]
  | c :: cs, acc =>
    if c = sep then acc.reverse :: splitAtSep sep cs [] else splitAtSep sep cs (c :: acc)

/-- Path segments: `FString::ParseIntoArray` with the back slash as delimiter; empty pieces
are culled. -/
def ParseIntoArray (s : String) : List String :=
  ((splitAtSep (Char.ofNat 92) s.data []).filter (fun piece => !piece.isEmpty)).map String.mk

/-! ## The arena of tree items -/

instance : Inhabited FWwiseTreeItem := ⟨{ DisplayName := "", FolderPath := "", ItemType := .Other 0, ItemId := 0 }⟩

/-- Item at an address.  Addresses held by the picker always denote allocated items. -/
def SWaapiPicker.deref (s : SWaapiPicker) (p : Ptr) : FWwiseTreeItem :=
  s.items.getD p default

/-- Allocation `MakeShared<FWwiseTreeItem>(...)`: the new item gets the next address. -/
def SWaapiPicker.MakeShared (s : SWaapiPicker) (it : FWwiseTreeItem) : Ptr × SWaapiPicker :=
  (s.items.length, { s with items := s.items ++ [it] })

/-- In-place update of the item at an address. -/
def SWaapiPicker.update (s : SWaapiPicker) (p : Ptr) (f : FWwiseTreeItem → FWwiseTreeItem) :
    SWaapiPicker :=
  { s with items := s.items.set p (f (s.deref p)) }

/-- Insertion of an element before the first element that is not below it. -/
def orderedInsertBy {α : Type} (le : α → α → Bool) (a : α) : List α → List α
  | [] => [a]
  | b :: rest => if le a b then a :: b :: rest else b :: orderedInsertBy le a rest

/-- Sorting by insertion. -/
def sortBy {α : Type} (le : α → α → Bool) : List α → List α
  | [] => []
  | a :: rest => orderedInsertBy le a (sortBy le rest)

/-- Sort key of the item at an address: its type and display name. -/
def SWaapiPicker.sortKey (s : SWaapiPicker) (p : Ptr) : EWwiseItemType × String :=
  ((s.deref p).ItemType, (s.deref p).DisplayName)

/-- Modelled from the spec: `FWwiseTreeItem::SortChildren` is declared in a header that is not in
the sources; the spec says that children are kept sorted by display name and type.  The children
of the item are rearranged into an order sorted by `World.SortLE` on (type, display name). -/
def SortChildren (w : World) (s : SWaapiPicker) (p : Ptr) : SWaapiPicker :=
  s.update p (fun it =>
    { it with Children := sortBy (fun a b => w.SortLE (s.sortKey a) (s.sortKey b)) it.Children })

/-- Modelled from the spec: `FWwiseTreeItem::GetChild` is declared in a header that is not in
the sources; it is the first child with the given display name, null when there is none. -/
def GetChild (s : SWaapiPicker) (p : Ptr) (InChildName : String) : Option Ptr :=
  (s.deref p).Children.find? (fun c => (s.deref c).DisplayName = InChildName)

/-- Path test `isValidPath` of `ConstructWwiseTreeItem`: the path starts with a back slash
followed by the folder name of one of the categories. -/
def isValidPath (w : World) (input : String) : Bool :=
  Categories.any (fun cat => StartsWith input (BACK_SLASH ++ w.FolderNames cat))

/-- Guid read from the `id` field of a payload into a variable holding `dflt`:
`GetStringField` followed by `FGuid::ParseExact`, which leaves the variable alone when the text
does not parse. -/
def parseIdOr (dflt : FGuid) (id : Option (Option FGuid)) : FGuid :=
  match id with
  | some (some g) => g
  | _ => dflt

/-- Item construction `SWaapiPicker::ConstructWwiseTreeItem`: the new item (null when the
payload is rejected) and the state with the item allocated. -/
def ConstructWwiseTreeItem (w : World) (s : SWaapiPicker) (ItemInfoObj : FJsonObject) :
    Option Ptr × SWaapiPicker :=
  let itemTypeString := GetStringField ItemInfoObj.type
  match w.FromString itemTypeString with
  | none => (none, s)
  | some itemType0 =>
    let itemPath := GetStringField ItemInfoObj.path
    if isValidPath w itemPath then
      let in_ItemId := parseIdOr (w.NewGuid s.guids) ItemInfoObj.id
      let s1 := { s with guids := s.guids + 1 }
      let itemName := GetStringField ItemInfoObj.name
      if itemName = "" then (none, s1)
      else
        let itemChilrenCount := ItemInfoObj.childrenCount.getD 0 % 2 ^ 32
        let itemType :=
          if itemType0 = .StandaloneWorkUnit ∧ ItemInfoObj.workunitType = some "FOLDER"
          then EWwiseItemType.PhysicalFolder else itemType0
        let treeItem : FWwiseTreeItem :=
          { DisplayName := itemName, FolderPath := itemPath, Parent := none,
            ItemType := itemType, ItemId := in_ItemId,
            ChildCountInWwise :=
              if itemType ≠ .Event ∧ itemType ≠ .Sound then itemChilrenCount else 0 }
        let r := s1.MakeShared treeItem
        (some r.1, r.2)
    else (none, s)

/-! ## Push notifications -/

/-- Payload of a child-added or child-removed notification. -/
structure FChildResponse where
  parent : Option FJsonObject := none
  child : Option FJsonObject := none
  deriving DecidableEq, Repr

/-- One pass of the inner loop of `FindTreeItemFromJsonObject` over the children of a level:
`Except.error item` is the early return of the item with the wanted id, `Except.ok acc` the last
item of the level whose folder path is `folderPath` (`none`: not found). -/
def scanLevel (s : SWaapiPicker) (id : FGuid) (folderPath : String) :
    List Ptr → Option Ptr → Except Ptr (Option Ptr)
  | [], acc => .ok acc
  | item :: rest, acc =>
    if (s.deref item).ItemId = id then .error item
    else if (s.deref item).FolderPath = folderPath then scanLevel s id folderPath rest (some item)
    else scanLevel s id folderPath rest acc

/-- Outer loop of `FindTreeItemFromJsonObject` over the path parts. -/
def walkParts (s : SWaapiPicker) (id : FGuid) :
    List String → Option Ptr → List Ptr → String → Option Ptr
  | [], treeItem, _, _ =>
    match treeItem with
    | some t => if (s.deref t).ItemId ≠ id then none else some t
    | none => none
  | part :: rest, _, children, folderPath =>
    let folderPath1 := folderPath ++ BACK_SLASH ++ part
    match scanLevel s id folderPath1 children none with
    | .error item => some item
    | .ok none => none
    | .ok (some t) => walkParts s id rest (some t) (s.deref t).Children folderPath1

/-- Lookup of the mirror node of a payload: `SWaapiPicker::FindTreeItemFromJsonObject`. -/
def FindTreeItemFromJsonObject (s : SWaapiPicker) (ObjectJson : FJsonObject)
    (OverrideLastPart : String) : Option Ptr :=
  match ObjectJson.path with
  | none => none
  | some objectPath =>
    match ObjectJson.id with
    | none => none
    | some parsed =>
      let id := parseIdOr 0 (some parsed)
      let pathParts := ParseIntoArray objectPath
      if pathParts = [] then none
      else
        let pathParts1 :=
          if OverrideLastPart ≠ "" then pathParts.dropLast ++ [OverrideLastPart] else pathParts
        walkParts s id pathParts1 none s.RootItems ""

/-- Shared part of the child handlers: `SWaapiPicker::HandleOnWaapiChildResponse`. -/
def HandleOnWaapiChildResponse (Action : SWaapiPicker → Ptr → FJsonObject → SWaapiPicker)
    (s : SWaapiPicker) (Response : FChildResponse) : SWaapiPicker :=
  match Response.parent with
  | none => s
  | some parentJson =>
    match Response.child with
    | none => s
    | some childJson =>
      let stashed : Option SWaapiPicker :=
        if childJson.name = some "" then
          let childId := parseIdOr 0 childJson.id
          match FindTreeItemFromJsonObject s parentJson "" with
          | some parentTreeItem =>
            if childId.IsValid then
              some { s with pendingTreeItems := TMap.Add s.pendingTreeItems childId parentTreeItem }
            else none
          | none => none
        else none
      match stashed with
      | some s1 => s1
      | none =>
        match FindTreeItemFromJsonObject s parentJson "" with
        | some parentTreeItem => Action s parentTreeItem childJson
        | none => s

/-- Child creation `SWaapiPicker::CreateTreeItemWaapi`. -/
def CreateTreeItemWaapi (w : World) (s : SWaapiPicker) (parentTreeItem : Option Ptr)
    (childJson : FJsonObject) : SWaapiPicker :=
  match parentTreeItem with
  | none => s
  | some parent =>
    let r := ConstructWwiseTreeItem w s childJson
    match r.1 with
    | none => r.2
    | some newChild =>
      let s1 := r.2.update newChild (fun it => { it with Parent := some parent })
      let s2 := s1.update parent (fun it => { it with Children := it.Children ++ [newChild] })
      let s3 := SortChildren w s2 parent
      let s4 := s3.update parent
        (fun it => { it with ChildCountInWwise := (it.ChildCountInWwise + 1) % 2 ^ 32 })
      if (s4.deref parent).TreeRowExpanded then
        { s4 with LastExpandedItems := insert (s4.deref parent).ItemId s4.LastExpandedItems }
      else s4

/-- Handler `SWaapiPicker::OnWaapiChildAdded`. -/
def OnWaapiChildAdded (w : World) (s : SWaapiPicker) (Response : FChildResponse) : SWaapiPicker :=
  HandleOnWaapiChildResponse
    (fun s1 parentTreeItem childJson => CreateTreeItemWaapi w s1 (some parentTreeItem) childJson)
    s Response

/-- Loop of `OnWaapiChildRemoved` from index `i` on: the index of the first child with the
given id. -/
def findChildIndex (s : SWaapiPicker) (id : FGuid) : List Ptr → Nat → Option Nat
  | [], _ => none
  | child :: rest, i =>
    if (s.deref child).ItemId = id then some i else findChildIndex s id rest (i + 1)

/-- Action of `SWaapiPicker::OnWaapiChildRemoved` on the parent found. -/
def removeChildAction (s : SWaapiPicker) (parentTreeItem : Ptr) (childJson : FJsonObject) :
    SWaapiPicker :=
  let id := parseIdOr 0 childJson.id
  match findChildIndex s id (s.deref parentTreeItem).Children 0 with
  | none => s
  | some i =>
    let s1 := s.update parentTreeItem (fun it =>
      { it with ChildCountInWwise := (it.ChildCountInWwise + 2 ^ 32 - 1) % 2 ^ 32,
                Children := it.Children.eraseIdx i })
    if (s1.deref parentTreeItem).ChildCountInWwise ≤ 0 then
      { s1 with LastExpandedItems := s1.LastExpandedItems.erase (s1.deref parentTreeItem).ItemId }
    else s1

/-- Handler `SWaapiPicker::OnWaapiChildRemoved`. -/
def OnWaapiChildRemoved (s : SWaapiPicker) (Response : FChildResponse) : SWaapiPicker :=
  HandleOnWaapiChildResponse removeChildAction s Response

/-- Payload of a rename notification: the old and the new name and the renamed object. -/
structure FRenameResponse where
  oldName : Option String := none
  newName : Option String := none
  object : Option FJsonObject := none
  deriving DecidableEq, Repr

/-- Handler `SWaapiPicker::OnWaapiRenamed`.  A notification whose old name is present and empty
finalizes a pending child; any other one renames the mirror node of the object, looked up under
its old name. -/
def OnWaapiRenamed (w : World) (s : SWaapiPicker) (Response : FRenameResponse) : SWaapiPicker :=
  if Response.oldName = some "" then
    match Response.object with
    | none => s
    | some objectJson =>
      match objectJson.id with
      | none => s
      | some parsed =>
        let id := parseIdOr 0 (some parsed)
        match TMap.Find s.pendingTreeItems id with
        | some pendingIt =>
          let s1 := CreateTreeItemWaapi w s (some pendingIt) objectJson
          { s1 with pendingTreeItems := TMap.Remove s1.pendingTreeItems id }
        | none => s
  else
    match Response.object with
    | none => s
    | some objectJson =>
      match FindTreeItemFromJsonObject s objectJson (GetStringField Response.oldName) with
      | none => s
      | some treeItem =>
        let s1 := match Response.newName with
          | some n => s.update treeItem (fun it => { it with DisplayName := n })
          | none => s
        let s2 := match objectJson.path with
          | some path => s1.update treeItem (fun it => { it with FolderPath := path })
          | none => s1
        match (s2.deref treeItem).Parent with
        | some parent => SortChildren w s2 parent
        | none => s2

/-- Payloads that `ConstructWwiseTreeItem` turns into an item: the type is known, the path is
below one of the category folders, the name is not empty. -/
def acceptsPayload (w : World) (js : FJsonObject) : Bool :=
  (w.FromString (GetStringField js.type)).isSome &&
    (isValidPath w (GetStringField js.path) && (GetStringField js.name != ""))

/-! ## Tree view callbacks -/

/-- Remote query `SWaapiPicker::CallWaapiGetInfoFrom`; the request stands for the `from` clause
and the transform fields that the caller passes. -/
def CallWaapiGetInfoFrom (w : World) (s : SWaapiPicker) (rq : WaapiRequest) :
    WaapiReply × SWaapiPicker :=
  match w.client with
  | none => ({}, s)
  | some c => c.send s rq

/-- Callback `SWaapiPicker::TreeExpansionChanged`, up to the dispatch of the task that queries
the children; the task itself is `ExpansionTask`. -/
def TreeExpansionChanged (w : World) (s : SWaapiPicker) (TreeItem : Ptr) (bIsExpanded : Bool) :
    SWaapiPicker :=
  if !s.AllowTreeViewDelegates then
    if bIsExpanded then SortChildren w s TreeItem else s
  else if !bIsExpanded then
    { s with LastExpandedItems := s.LastExpandedItems.erase (s.deref TreeItem).ItemId }
  else
    let s1 := { s with LastExpandedItems := insert (s.deref TreeItem).ItemId s.LastExpandedItems }
    if s1.FilterText ≠ "" then s1
    else { s1 with expansionTasks := s1.expansionTasks ++ [TreeItem] }

/-- Children construction loop of the expansion task: every payload that
`ConstructWwiseTreeItem` accepts becomes a child of `TreeItem`. -/
def addConstructedChildren (w : World) (TreeItem : Ptr) :
    List FJsonObject → SWaapiPicker → SWaapiPicker
  | [], s => s
  | js :: rest, s =>
    let r := ConstructWwiseTreeItem w s js
    match r.1 with
    | none => addConstructedChildren w TreeItem rest r.2
    | some NewRootChild =>
      let s1 := r.2.update TreeItem (fun it => { it with Children := it.Children ++ [NewRootChild] })
      let s2 := s1.update NewRootChild (fun it => { it with Parent := some TreeItem })
      addConstructedChildren w TreeItem rest s2

/-- Task dispatched by `TreeExpansionChanged`: the remote query for the children of the item and
the reconciliation of its child list. -/
def ExpansionTask (w : World) (s : SWaapiPicker) (TreeItem : Ptr) : SWaapiPicker :=
  let r := CallWaapiGetInfoFrom w s (.objectGetChildren (s.deref TreeItem).ItemId)
  if !r.1.success then r.2
  else
    let StructJsonArray := r.1.ret
    let n := (r.2.deref TreeItem).Children.length
    if n = 1 ∨ n ≠ StructJsonArray.length then
      let s1 := r.2.update TreeItem (fun it => { it with Children := [] })
      let s2 := addConstructedChildren w TreeItem StructJsonArray s1
      SortChildren w s2 TreeItem
    else r.2

/-- Modelled from the engine: `STreeView::SetItemExpansion(item, true)` records the item as
expanded and runs the delegate `OnExpansionChanged` when the item was not expanded before. -/
def SetItemExpansion (w : World) (s : SWaapiPicker) (item : Ptr) : SWaapiPicker :=
  if item ∈ s.ExpandedInView then s
  else TreeExpansionChanged w { s with ExpandedInView := insert item s.ExpandedInView } item true

/-- Expansion of the root items: `SWaapiPicker::ExpandFirstLevel`. -/
def ExpandFirstLevel (w : World) (s : SWaapiPicker) : SWaapiPicker :=
  s.RootItems.foldl (fun acc root => SetItemExpansion w acc root) s

/-- Recursive `SWaapiPicker::RestoreTreeExpansion`; `fuel` bounds the depth of the recursion. -/
def RestoreTreeExpansion (w : World) : Nat → List Ptr → SWaapiPicker → Option SWaapiPicker
  | 0, _, _ => none
  | fuel + 1, Items, s =>
    Items.foldlM (fun acc item =>
      let s1 := if (acc.deref item).ItemId ∈ acc.LastExpandedItems
                then SetItemExpansion w acc item else acc
      RestoreTreeExpansion w fuel (s1.deref item).Children s1) s

/-- Callback `SWaapiPicker::GetChildrenForTree`: the list handed to the view and the state. -/
def GetChildrenForTree (w : World) (s : SWaapiPicker) (TreeItem : Ptr) :
    List Ptr × SWaapiPicker :=
  let s1 :=
    if (s.deref TreeItem).ChildCountInWwise = 0 then
      { s with LastExpandedItems := s.LastExpandedItems.erase (s.deref TreeItem).ItemId }
    else if s.FilterText = "" then
      if (s.deref TreeItem).ItemId ∉ s.LastExpandedItems then
        let s2 := s.update TreeItem (fun it => { it with Children := [] })
        let r := { s2 with guids := s2.guids + 1 }.MakeShared
          { DisplayName := NAME, FolderPath := PATH, Parent := none,
            ItemType := .PhysicalFolder, ItemId := w.NewGuid s2.guids }
        r.2.update TreeItem (fun it => { it with Children := it.Children ++ [r.1] })
      else SetItemExpansion w s TreeItem
    else s
  ((s1.deref TreeItem).Children, s1)

/-- Command `SWaapiPicker::HandlePlayWwiseItemCommandExecute` on the selected items
(`GetSelectedItems()`). -/
def HandlePlayWwiseItemCommandExecute (w : World) (s : SWaapiPicker) (SelectedItems : List Ptr) :
    SWaapiPicker :=
  SelectedItems.foldl (fun acc item =>
    let ItemId := (acc.deref item).ItemId
    match TMap.Find acc.ItemToTransport ItemId with
    | some info => TogglePlayStop w acc info.TransportID
    | none =>
      let r := CreateTransport w acc ItemId
      TogglePlayStop w r.2 r.1) s

/-! ## Filter overlay and repopulation -/

/-- Loop of `FindItemFromPath` over the path segments after the first one. -/
def followNames (s : SWaapiPicker) : Ptr → List String → Option Ptr
  | PreviousItem, [] => some PreviousItem
  | PreviousItem, n :: rest =>
    match GetChild s PreviousItem n with
    | none => none
    | some ChildItem => followNames s ChildItem rest

/-- Search by display names below an item: `SWaapiPicker::FindItemFromPath`. -/
def FindItemFromPath (s : SWaapiPicker) (ParentItem : Ptr) (CurrentItemPath : String) :
    Option Ptr :=
  followNames s ParentItem ((ParseIntoArray CurrentItemPath).drop 1)

/-- Loop of `GetRootItem` over the category indices: `none` when `RootItems[i]` is out of
range, `some none` when no root item matches (the null result). -/
def getRootItemFrom (s : SWaapiPicker) (InFullPath : String) : List Nat → Option (Option Ptr)
  | [] => some none
  | i :: rest =>
    match s.RootItems[i]? with
    | none => none
    | some root =>
      if StartsWith InFullPath (s.deref root).FolderPath then some (some root)
      else getRootItemFrom s InFullPath rest

/-- Root item of a path: `SWaapiPicker::GetRootItem`. -/
def GetRootItem (s : SWaapiPicker) (InFullPath : String) : Option (Option Ptr) :=
  getRootItemFrom s InFullPath (List.range Categories.length)

/-- Attachment of a search hit and of its missing ancestors:
`SWaapiPicker::FindAndCreateItems`; `fuel` bounds the recursion. -/
def FindAndCreateItems (w : World) : Nat → SWaapiPicker → Ptr → Option SWaapiPicker
  | 0, _, _ => none
  | fuel + 1, s0, CurrentItem =>
    let s := { s0 with
      LastExpandedItems := insert (s0.deref CurrentItem).ItemId s0.LastExpandedItems }
    let LastPathVisited := RemoveFromEnd (s.deref CurrentItem).FolderPath
      (BACK_SLASH ++ (s.deref CurrentItem).DisplayName)
    match GetRootItem s (s.deref CurrentItem).FolderPath with
    | none => none
    | some none => none
    | some (some RootItem) =>
      if (s.deref CurrentItem).FolderPath = (s.deref RootItem).FolderPath then some s
      else if LastPathVisited = (s.deref RootItem).FolderPath then
        let s1 := s.update CurrentItem (fun it => { it with Parent := (s.deref RootItem).Parent })
        some (s1.update RootItem (fun it => { it with Children := it.Children ++ [CurrentItem] }))
      else
        match FindItemFromPath s RootItem LastPathVisited with
        | some ParentItem =>
          let s1 := s.update CurrentItem
            (fun it => { it with Parent := (s.deref ParentItem).Parent })
          some (s1.update ParentItem
            (fun it => { it with Children := it.Children ++ [CurrentItem] }))
        | none =>
          let r := CallWaapiGetInfoFrom w s (.objectGetPath LastPathVisited)
          if r.1.success then
            match r.1.ret with
            | [] => none
            | first :: _ =>
              let c := ConstructWwiseTreeItem w r.2 first
              match c.1 with
              | none => none
              | some NewRootItem =>
                let s1 := c.2.update CurrentItem (fun it => { it with Parent := some NewRootItem })
                let s2 := s1.update NewRootItem
                  (fun it => { it with Children := it.Children ++ [CurrentItem] })
                FindAndCreateItems w fuel s2 NewRootItem
          else some r.2

/-- Body of `SWaapiPicker::ConstructTree`, with the call of `FilterUpdated` as a parameter. -/
def ConstructTreeWith (FilterUpdated : SWaapiPicker → Option SWaapiPicker) (w : World)
    (s : SWaapiPicker) : Option SWaapiPicker :=
  if w.IsProjectLoaded then
    if s.ConstructTreeTask = some false then some { s with bRequestRefresh := true }
    else if s.FilterText ≠ "" then FilterUpdated s
    else some { s with ConstructTreeTask := some false, dispatched := s.dispatched + 1 }
  else some s

/-- First loop of `ApplyFilter`: `RootItems[i]->Children.Empty()` for every category index. -/
def emptyRootChildren : List Nat → SWaapiPicker → Option SWaapiPicker
  | [], s => some s
  | i :: rest, s =>
    match s.RootItems[i]? with
    | none => none
    | some root => emptyRootChildren rest (s.update root (fun it => { it with Children := [] }))

/-- Loop of `ApplyFilter` over the search results. -/
def searchResultLoop (w : World) (fuel : Nat) : List FJsonObject → SWaapiPicker → Option SWaapiPicker
  | [], s => some s
  | js :: rest, s =>
    let r := ConstructWwiseTreeItem w s js
    match r.1 with
    | none => searchResultLoop w fuel rest r.2
    | some NewRootChild =>
      match FindAndCreateItems w fuel r.2 NewRootChild with
      | none => none
      | some s1 => searchResultLoop w fuel rest s1

/-- Filter application `SWaapiPicker::ApplyFilter`.  In the branch of the empty filter text the
call `OnPopulateClicked()` is `ConstructTree`, which cannot come back to `FilterUpdated` since
the text is empty. -/
def ApplyFilter (w : World) (fuel : Nat) (s : SWaapiPicker) : Option SWaapiPicker :=
  match emptyRootChildren (List.range Categories.length) s with
  | none => none
  | some s1 =>
    let s2 := { s1 with AllowTreeViewDelegates := false }
    let CurrentFilterText := s2.FilterText
    if CurrentFilterText = "" then
      ConstructTreeWith (fun t => some t) w
        { s2 with LastExpandedItems := s2.LastExpandedItemsBeforFilter,
                  LastExpandedItemsBeforFilter := ∅,
                  AllowTreeViewDelegates := true }
    else
      let s3 :=
        if s2.LastExpandedItemsBeforFilter.card = 0 then
          { s2 with LastExpandedItemsBeforFilter := s2.LastExpandedItems, LastExpandedItems := ∅ }
        else s2
      let r := CallWaapiGetInfoFrom w s3
        (.objectSearch CurrentFilterText (2000 * CurrentFilterText.length))
      let s4 := if r.1.success then searchResultLoop w fuel r.1.ret r.2 else some r.2
      match s4 with
      | none => none
      | some s5 =>
        match RestoreTreeExpansion w fuel s5.RootItems s5 with
        | none => none
        | some s6 => some { s6 with AllowTreeViewDelegates := true }

/-- Filter callback `SWaapiPicker::FilterUpdated`. -/
def FilterUpdated (w : World) (fuel : Nat) (s : SWaapiPicker) : Option SWaapiPicker :=
  if s.RootItems.length ≠ 0 then ApplyFilter w fuel s else some s

/-- Repopulation request `SWaapiPicker::ConstructTree` (also `OnPopulateClicked`). -/
def ConstructTree (w : World) (fuel : Nat) (s : SWaapiPicker) : Option SWaapiPicker :=
  ConstructTreeWith (FilterUpdated w fuel) w s

/-- Per-frame callback `SWaapiPicker::Tick`. -/
def Tick (w : World) (fuel : Nat) (s : SWaapiPicker) : Option SWaapiPicker :=
  if s.bRequestRefresh then
    match ConstructTree w fuel s with
    | none => none
    | some s1 => some { s1 with bRequestRefresh := false }
  else some s

/-- Loop of the populate task of `ConstructTree` over the categories. -/
def populateTask (w : World) : List EWwiseItemType → SWaapiPicker → Option SWaapiPicker
  | [], s => some s
  | cat :: rest, s =>
    let fresh := w.NewGuid s.guids
    let s1 := { s with guids := s.guids + 1 }
    let path := BACK_SLASH ++ w.FolderNames cat
    let r := CallWaapiGetInfoFrom w s1 (.objectGetPath path)
    if r.1.success then
      match r.1.ret with
      | [] => none
      | ItemInfoObj :: _ =>
        let in_ItemId := parseIdOr fresh ItemInfoObj.id
        let a := r.2.MakeShared
          { DisplayName := w.ItemNames cat, FolderPath := GetStringField ItemInfoObj.path,
            Parent := none, ItemType := .PhysicalFolder, ItemId := in_ItemId,
            ChildCountInWwise := ItemInfoObj.childrenCount.getD 0 % 2 ^ 32 }
        populateTask w rest { a.2 with RootItems := a.2.RootItems ++ [a.1] }
    else some { r.2 with bRequestRefresh := true }

/-- Task dispatched by `ConstructTree`, run to completion: the root items are emptied and
populated, the task becomes complete. -/
def ConstructTreeTaskBody (w : World) (s : SWaapiPicker) : Option SWaapiPicker :=
  match populateTask w Categories { s with RootItems := [] } with
  | none => none
  | some s1 => some { s1 with ConstructTreeTask := some true }

/-- Game-thread task dispatched at the end of the `ConstructTree` task. -/
def ConstructTreeFinish (w : World) (fuel : Nat) (s : SWaapiPicker) : Option SWaapiPicker :=
  let s1 := ExpandFirstLevel w { s with AllowTreeViewDelegates := true }
  RestoreTreeExpansion w fuel s1.RootItems s1

/-! ## Step model of repopulation -/

/-- Events of the repopulation model: a call of `ConstructTree`, a frame (`Tick`), the
completion of the populate task in flight. -/
inductive PickerEvent where
  | constructTree | tick | taskCompletes
  deriving DecidableEq, Repr

/-- Effect of one event. -/
def PickerEvent.apply (w : World) (fuel : Nat) (s : SWaapiPicker) : PickerEvent → Option SWaapiPicker
  | .constructTree => ConstructTree w fuel s
  | .tick => Tick w fuel s
  | .taskCompletes =>
    if s.ConstructTreeTask = some false then ConstructTreeTaskBody w s else some s

/-- Effect of a sequence of events. -/
def runEvents (w : World) (fuel : Nat) : List PickerEvent → SWaapiPicker → Option SWaapiPicker
  | [], s => some s
  | e :: rest, s =>
    match e.apply w fuel s with
    | none => none
    | some s1 => runEvents w fuel rest s1

/-- Sequence of filter queries: for each text in turn the filter box holds the text and
`ApplyFilter` runs. -/
def runQueries (w : World) (fuel : Nat) : List String → SWaapiPicker → Option SWaapiPicker
  | [], s => some s
  | text :: rest, s =>
    match ApplyFilter w fuel { s with FilterText := text } with
    | none => none
    | some s1 => runQueries w fuel rest s1

/-! ## Path invariant of the mirror -/

/-- Path equation of the spec between a containing item and one of its children, with the
placeholder of `GetChildrenForTree` (folder path `PATH`, display name `NAME`) as the exception. -/
def PathGood (container child : FWwiseTreeItem) : Prop :=
  (child.FolderPath = PATH ∧ child.DisplayName = NAME) ∨
  child.FolderPath = container.FolderPath ++ BACK_SLASH ++ child.DisplayName

/-- Every entry of a `Children` list is an allocated item and satisfies `PathGood`. -/
def PathInvariant (s : SWaapiPicker) : Prop :=
  ∀ p, p < s.items.length → ∀ c ∈ (s.deref p).Children,
    c < s.items.length ∧ PathGood (s.deref p) (s.deref c)

/-- Every root item is an allocated item. -/
def RootsAllocated (s : SWaapiPicker) : Prop := ∀ r ∈ s.RootItems, r < s.items.length

/-- Folder paths of the root items. -/
def SWaapiPicker.rootPaths (s : SWaapiPicker) : List String :=
  s.RootItems.map (fun r => (s.deref r).FolderPath)

/-- Path made of segments, each preceded by a back slash. -/
def joinPath : List String → String
  | [] => ""
  | seg :: rest => BACK_SLASH ++ seg ++ joinPath rest

/-- Path consistency of a folder path `F` and a display name `N`, relative to the folder paths
of the root items.  With `L` the path `F` without the ending back slash and name: the path
ends with a back slash and the name; `L` is made of its segments; no segment of `L` is the
display name of the placeholder; and a root folder path that `F` starts with, other than `F`
itself and `L`, is the back slash followed by the first segment of `L`. -/
def PathNameOK (rootPaths : List String) (F N : String) : Prop :=
  F = RemoveFromEnd F (BACK_SLASH ++ N) ++ BACK_SLASH ++ N ∧
  RemoveFromEnd F (BACK_SLASH ++ N) =
    joinPath (ParseIntoArray (RemoveFromEnd F (BACK_SLASH ++ N))) ∧
  (∀ seg ∈ ParseIntoArray (RemoveFromEnd F (BACK_SLASH ++ N)), seg ≠ NAME) ∧
  (∀ rootPath ∈ rootPaths, StartsWith F rootPath = true → F ≠ rootPath →
    RemoveFromEnd F (BACK_SLASH ++ N) ≠ rootPath →
    (ParseIntoArray (RemoveFromEnd F (BACK_SLASH ++ N))).head?.map (fun seg => BACK_SLASH ++ seg)
      = some rootPath)

instance decidablePathNameOK (rootPaths : List String) (F N : String) :
    Decidable (PathNameOK rootPaths F N) := by
  unfold PathNameOK
  infer_instance

/-- Path consistency of a payload that the remote returns to a search or a path query. -/
def HitOK (rootPaths : List String) (js : FJsonObject) : Prop :=
  PathNameOK rootPaths (GetStringField js.path) (GetStringField js.name)

instance decidableHitOK (rootPaths : List String) (js : FJsonObject) :
    Decidable (HitOK rootPaths js) := by
  unfold HitOK
  infer_instance

/-- Path consistency of the remote during a filter query: every payload it returns satisfies
`HitOK`, and a path query is answered with objects at the path asked for. -/
def FilterRemoteOK (w : World) (rootPaths : List String) : Prop :=
  ∀ c, w.client = some c → ∀ h rq, ∀ js ∈ (c.respond h rq).ret,
    HitOK rootPaths js ∧ ∀ L, rq = .objectGetPath L → GetStringField js.path = L

/-- Events that build and change the mirror: a repopulation (the task of `ConstructTree` and its
game-thread epilogue), the tree view asking for the children of an item, the tree view
reporting an expansion change, the run of an expansion task, a filter query, a child-added and
a child-removed notification. -/
inductive MirrorEvent where
  | repopulate
  | getChildren (item : Ptr)
  | expansionChanged (item : Ptr) (bIsExpanded : Bool)
  | expansionTask (item : Ptr)
  | filter (text : String)
  | childAdded (Response : FChildResponse)
  | childRemoved (Response : FChildResponse)

/-- Effect of a mirror event. -/
def MirrorEvent.apply (w : World) (fuel : Nat) (s : SWaapiPicker) :
    MirrorEvent → Option SWaapiPicker
  | .repopulate =>
    match ConstructTreeTaskBody w s with
    | none => none
    | some s1 => ConstructTreeFinish w fuel s1
  | .getChildren item => some (GetChildrenForTree w s item).2
  | .expansionChanged item b => some (TreeExpansionChanged w s item b)
  | .expansionTask item => some (ExpansionTask w s item)
  | .filter text => ApplyFilter w fuel { s with FilterText := text }
  | .childAdded r => some (OnWaapiChildAdded w s r)
  | .childRemoved r => some (OnWaapiChildRemoved s r)

/-- Path consistency of what the remote supplies for an event: the children returned for an
expanded item and the child of a child-added notification carry as path the folder path of
the item they go under, a back slash and their name; the payloads returned during a filter
query satisfy `HitOK` and a path query is answered with an object at that path.  The item of
an expansion task is an item of the arena. -/
def MirrorEvent.Consistent (w : World) (s : SWaapiPicker) : MirrorEvent → Prop
  | .repopulate => True
  | .getChildren _ => True
  | .expansionChanged _ _ => True
  | .expansionTask item =>
    item < s.items.length ∧
    ∀ js ∈ (CallWaapiGetInfoFrom w s (.objectGetChildren (s.deref item).ItemId)).1.ret,
      GetStringField js.path =
        (s.deref item).FolderPath ++ BACK_SLASH ++ GetStringField js.name
  | .filter _ => FilterRemoteOK w s.rootPaths
  | .childAdded r =>
    ∀ parentJson childJson parent, r.parent = some parentJson → r.child = some childJson →
      FindTreeItemFromJsonObject s parentJson "" = some parent →
      GetStringField childJson.path =
        (s.deref parent).FolderPath ++ BACK_SLASH ++ GetStringField childJson.name
  | .childRemoved _ => True

/-- States reachable from the empty picker through path-consistent mirror events. -/
inductive Reachable (w : World) (fuel : Nat) : SWaapiPicker → Prop where
  | init : Reachable w fuel {}
  | step (s s1 : SWaapiPicker) (e : MirrorEvent) :
      Reachable w fuel s → e.Consistent w s → e.apply w fuel s = some s1 → Reachable w fuel s1

/-- An update function that keeps the folder path and the display name of an item. -/
def KeepsPath (f : FWwiseTreeItem → FWwiseTreeItem) : Prop :=
  ∀ it, (f it).FolderPath = it.FolderPath ∧ (f it).DisplayName = it.DisplayName

/-- The state `t` extends `s`: no item is dropped, the root items are the same, and the items
of `s` keep their folder path and display name. -/
def Grows (s t : SWaapiPicker) : Prop :=
  s.items.length ≤ t.items.length ∧ t.RootItems = s.RootItems ∧
  ∀ q, q < s.items.length →
    (t.deref q).FolderPath = (s.deref q).FolderPath ∧
    (t.deref q).DisplayName = (s.deref q).DisplayName

/-- Effect of a sequence of mirror events. -/
def runMirror (w : World) (fuel : Nat) : List MirrorEvent → SWaapiPicker → Option SWaapiPicker
  | [], s => some s
  | e :: rest, s =>
    match e.apply w fuel s with
    | none => none
    | some s1 => runMirror w fuel rest s1

/-- Every event of a sequence is path-consistent in the state in which it happens. -/
def ConsistentRun (w : World) (fuel : Nat) : List MirrorEvent → SWaapiPicker → Prop
  | [], _ => True
  | e :: rest, s => e.Consistent w s ∧ ∀ s1, e.apply w fuel s = some s1 → ConsistentRun w fuel rest s1

/-! ## Asset factories (`AkAssetFactories.cpp`) -/

/-- Asset classes that the factories of the file create through `AkAssetFactory_Helper` or,
for the sound bank, through `UAkAudioBankFactory`. -/
inductive AkAssetType where
  | UAkAcousticTexture | UAkAudioBank | UAkAudioEvent | UAkAuxBus | UAkRtpc | UAkTrigger
  | UAkStateValue | UAkSwitchValue
  deriving DecidableEq, Repr

/-- Template parameter `WwiseSync` of `FactoryCreateNew`. -/
inductive WwiseSync where
  | Enabled | Disabled
  deriving DecidableEq, Repr

/-- Settings object `UAkSettings`: the two fields that the factories read. -/
structure UAkSettings where
  UseEventBasedPackaging : Bool
  EnableAutomaticAssetSynchronization : Bool
  deriving DecidableEq, Repr

/-- Arguments of the remote call `ak::wwise::core::object::create`. -/
structure CreateArgs where
  name : String
  parent : String
  notes : String
  type : String
  deriving DecidableEq, Repr

/-- Asset object made by `NewObject<AkAssetType>(InParent, Name, Flags)`; `dirty` records the
call of `MarkPackageDirty`. -/
structure AkAssetObject where
  assetClass : AkAssetType
  Outer : String
  Name : String
  Flags : Nat
  ID : FGuid := 0
  dirty : Bool := false
  deriving DecidableEq, Repr

/-- Surroundings of the factories, all from headers that are not part of the sources:
`GetDefault<UAkSettings>()` (`none` when the settings are unavailable),
`FAkWaapiClient::IsProjectLoaded()`, `AkUnrealHelper::IsUsingEventBased()`, the client returned
by `FAkWaapiClient::Get()` with its answer to a create call (`none`: the call fails; otherwise
the guid parsed from the `id` field of the result, if any),
`AkToolBehavior::Get()->AkAssetFactory_ValidNewAssetPath` on the name, the containing path and
the class name, `AkUnrealHelper::GetBaseAssetPackagePath()`, `AkAssetTraits<T>::Name()` and
the value of `FGuid::NewGuid()`. -/
structure FactoryWorld where
  akSettings : Option UAkSettings := none
  IsProjectLoaded : Bool := false
  IsUsingEventBased : Bool := false
  waapiClient : Option (CreateArgs → Option (Option FGuid)) := none
  ValidNewAssetPath : String → String → String → Bool := fun _ _ _ => true
  BasePath : String := "/Game/WwiseAudio"
  TraitName : AkAssetType → String := fun _ => "Event"
  NewGuid : FGuid := 1000

/-- What a call of a factory leaves behind: the object returned (`none` is `nullptr`; the
object returned is the only one the call creates), the remote create calls issued, and the
number of modal messages opened with `FMessageDialog::Open`. -/
structure FactoryOutcome where
  object : Option AkAssetObject := none
  calls : List CreateArgs := []
  dialogs : Nat := 0
  deriving DecidableEq, Repr

/-- Test `!assetName.IsEmpty() && FChar::IsDigit(assetName[0])` of the factories. -/
def startsWithDigit (assetName : String) : Bool :=
  match assetName.data with
  | [] => false
  | c :: _ => c.isDigit

/-- Prefix removal `FString::RemoveFromStart`. -/
def RemoveFromStart (s pre : String) : String :=
  if !pre.data.isEmpty && pre.data.isPrefixOf s.data then
    String.mk (s.data.drop pre.data.length)
  else s

/-- Path conversion `AkAssetFactory_Helper::ConvertAssetPathToWwisePath`: the base path and the
ending "/name" are removed, slashes become back slashes and underscores become blanks. -/
def AkAssetFactory_Helper.ConvertAssetPathToWwisePath (ContainingPath AssetName BasePath : String) :
    String :=
  let p1 := RemoveFromStart ContainingPath BasePath
  let p2 := RemoveFromEnd p1 ("/" ++ AssetName)
  (p2.map (fun c => if c = Char.ofNat 47 then Char.ofNat 92 else c)).map
    (fun c => if c = Char.ofNat 95 then Char.ofNat 32 else c)

/-- Part of `AkAssetFactory_Helper::FactoryCreateNew` that follows the auto-sync check: the
digit test, the path validation, the remote create call when the asset is pushed to Wwise,
and the creation of the object. -/
def AkAssetFactory_Helper.createChecked (w : FactoryWorld) (T : AkAssetType)
    (DoWwiseSync : WwiseSync) (UsingAutoSync WAAPIAvailable : Bool)
    (Class InParent Name : String) (Flags : Nat) (AssetID : FGuid) : FactoryOutcome :=
  let ContainingPath := InParent
  let assetName := Name
  if startsWithDigit assetName then { object := none, dialogs := 1 }
  else if !w.ValidNewAssetPath Name ContainingPath Class then { object := none }
  else
    let ObjectNeedsDirtying := AssetID.IsValid
    if DoWwiseSync = .Enabled ∧ UsingAutoSync = true ∧ WAAPIAvailable = true then
      match w.waapiClient with
      | some Call =>
        let args : CreateArgs :=
          { name := assetName,
            parent := AkAssetFactory_Helper.ConvertAssetPathToWwisePath ContainingPath assetName
              w.BasePath,
            notes := "Created in Unreal Engine 4 via WAAPI", type := w.TraitName T }
        match Call args with
        | none => { object := none, calls := [args], dialogs := 1 }
        | some result =>
          let NewObjectID := parseIdOr AssetID (some result)
          let dirty := ObjectNeedsDirtying || result.isSome
          { object := some { assetClass := T, Outer := InParent, Name := Name, Flags := Flags,
                             ID := if dirty then NewObjectID else 0, dirty := dirty },
            calls := [args] }
      | none => { object := none, dialogs := 1 }
    else
      { object := some { assetClass := T, Outer := InParent, Name := Name, Flags := Flags,
                         ID := if ObjectNeedsDirtying then AssetID else 0,
                         dirty := ObjectNeedsDirtying } }

/-- Template `AkAssetFactory_Helper::FactoryCreateNew<AkAssetType, DoWwiseSync>`; the result is
`none` when the null settings object is dereferenced. -/
def AkAssetFactory_Helper.FactoryCreateNew (w : FactoryWorld) (T : AkAssetType)
    (DoWwiseSync : WwiseSync) (Class InParent Name : String) (Flags : Nat) (AssetID : FGuid) :
    Option FactoryOutcome :=
  let WAAPIAvailable := w.IsProjectLoaded
  let isUsingEventBased := w.IsUsingEventBased
  let UsingAutoSync : Option Bool :=
    if isUsingEventBased then w.akSettings.map (fun st => st.EnableAutomaticAssetSynchronization)
    else some false
  match UsingAutoSync with
  | none => none
  | some UsingAutoSync =>
    if UsingAutoSync && !WAAPIAvailable then
      if T ≠ .UAkAudioBank then some { object := none, dialogs := 1 }
      else some (AkAssetFactory_Helper.createChecked w T DoWwiseSync UsingAutoSync WAAPIAvailable
        Class InParent Name Flags AssetID)
    else some (AkAssetFactory_Helper.createChecked w T DoWwiseSync UsingAutoSync WAAPIAvailable
      Class InParent Name Flags AssetID)

/-- Template `AkAssetFactory_Helper::CanCreateNew<AkAssetType>`. -/
def AkAssetFactory_Helper.CanCreateNew (w : FactoryWorld) (T : AkAssetType) : Bool :=
  match w.akSettings with
  | some akSettings =>
    if !akSettings.UseEventBasedPackaging then
      T = .UAkAcousticTexture || T = .UAkAudioBank || T = .UAkAuxBus || T = .UAkAudioEvent
    else true
  | none => false

/-- Sound bank factory `UAkAudioBankFactory::FactoryCreateNew`. -/
def UAkAudioBankFactory.FactoryCreateNew (w : FactoryWorld) (Class InParent Name : String)
    (Flags : Nat) : FactoryOutcome :=
  if !w.ValidNewAssetPath Name InParent Class then { object := none }
  else
    let assetName := Name
    if startsWithDigit assetName then { object := none, dialogs := 1 }
    else
      { object := some { assetClass := .UAkAudioBank, Outer := InParent, Name := Name,
                         Flags := Flags, ID := w.NewGuid } }


/-! ## Delete command, path walk and audio types -/

/-- Modelled from the spec: `FWwiseTreeItem::IsOfType` is declared in a header that is not in
the sources; the type of the item (the spec's `type` field of a TreeItem) is one of the listed
types. -/
def IsOfType (s : SWaapiPicker) (item : Ptr) (types : List EWwiseItemType) : Bool :=
  decide ((s.deref item).ItemType ∈ types)

/-- Disjunction `IsItemSelected(RootItems[i]) || ...` of the delete command over the listed
category indices, evaluated from left to right: `none` when `RootItems[i]` is out of range.
The items that the tree view reports as selected are those of `GetSelectedItems()`. -/
def anyRootSelected (s : SWaapiPicker) (SelectedItems : List Ptr) : List Nat → Option Bool
  | [] => some false
  | i :: rest =>
    match s.RootItems[i]? with
    | none => none
    | some root =>
      if root ∈ SelectedItems then some true else anyRootSelected s SelectedItems rest

/-- Command test `SWaapiPicker::HandleDeleteWwiseItemCommandCanExecute` on the selected items;
`none` when a root slot it reads does not exist. -/
def HandleDeleteWwiseItemCommandCanExecute (s : SWaapiPicker) (SelectedItems : List Ptr) :
    Option Bool :=
  if SelectedItems.length > 0 then
    match anyRootSelected s SelectedItems
        [Categories.indexOf .Event, Categories.indexOf .AuxBus, Categories.indexOf .ActorMixer,
          Categories.indexOf .AcousticTexture] with
    | none => none
    | some true => some false
    | some false =>
      some (!SelectedItems.any (fun item =>
        IsOfType s item [.PhysicalFolder, .StandaloneWorkUnit, .NestedWorkUnit]))
  else some false

/-- Path parts that `FindTreeItemFromJsonObject` walks along: the segments of the path of the
payload, the last one replaced by `OverrideLastPart` when that is not empty. -/
def walkedParts (objectPath OverrideLastPart : String) : List String :=
  if OverrideLastPart ≠ "" then (ParseIntoArray objectPath).dropLast ++ [OverrideLastPart]
  else ParseIntoArray objectPath

/-- Items that the walk of `FindTreeItemFromJsonObject` looks at: the items of every level it
reaches (the root items, then the children of the item matched at each level). -/
def walkVisited (s : SWaapiPicker) (id : FGuid) : List String → List Ptr → String → List Ptr
  | [], _, _ => []
  | part :: rest, children, folderPath =>
    children ++
      match scanLevel s id (folderPath ++ BACK_SLASH ++ part) children none with
      | .ok (some t) =>
        walkVisited s id rest (s.deref t).Children (folderPath ++ BACK_SLASH ++ part)
      | _ => []

/-- Strict extension of a folder path: the path starts with the other path and is longer. -/
def StrictExtension (path parentPath : String) : Bool :=
  StartsWith path parentPath && decide (parentPath.length < path.length)

/-- Audio device `FAkAudioDevice`: the short id it derives from a name
(`GetIDFromString`, a `uint32`). -/
structure FAkAudioDevice where
  GetIDFromString : String → Nat

/-- Object `UAkAudioType`: its name, its `ShortID` (a `uint32`), whether it is a
`UAkGroupValue` (`IsA<UAkGroupValue>()`), and two ghost fields: the number of error messages
logged and whether `MarkPackageDirty` was requested. -/
structure UAkAudioType where
  Name : String
  ShortID : Nat := 0
  IsGroupValue : Bool := false
  errors : Nat := 0
  dirty : Bool := false
  deriving DecidableEq, Repr

/-- Load hook `UAkAudioType::PostLoad`; the argument is `FAkAudioDevice::Get()` (null when
there is no audio device). -/
def UAkAudioType.PostLoad (AudioDevice : Option FAkAudioDevice) (o : UAkAudioType) :
    UAkAudioType :=
  match AudioDevice with
  | some dev =>
    let idFromName := dev.GetIDFromString o.Name % 2 ^ 32
    if o.ShortID = 0 then { o with ShortID := idFromName }
    else if !o.IsGroupValue ∧ o.ShortID ≠ 0 ∧ o.ShortID ≠ idFromName then
      { o with errors := o.errors + 1 }
    else o
  | none => o

/-- Editor operation `UAkAudioType::Reset`. -/
def UAkAudioType.Reset (o : UAkAudioType) : UAkAudioType :=
  { o with ShortID := 0, dirty := true }


/-! ## Attachment under a root item -/

/-- The item is reached from the item `ancestor` through `Children` lists, in one step or
more. -/
inductive AttachedUnder (s : SWaapiPicker) (ancestor : Ptr) : Ptr → Prop where
  | child (c : Ptr) : c ∈ (s.deref ancestor).Children → AttachedUnder s ancestor c
  | step (p c : Ptr) : AttachedUnder s ancestor p → c ∈ (s.deref p).Children →
      AttachedUnder s ancestor c

/-- Every entry of a `Children` list is an allocated item (no shared pointer dangles). -/
def ChildrenAllocated (s : SWaapiPicker) : Prop :=
  ∀ p, p < s.items.length → ∀ c ∈ (s.deref p).Children, c < s.items.length

/-- The remote answers the path queries for the ancestors of a hit: below the folder path
`rootPath` of a root item, for every non-empty initial part of the segments `ancestors`, the
query for the path made of that part succeeds whatever was requested before, and its first
object is a payload that `ConstructWwiseTreeItem` accepts, lies at the path asked for and is
named as the last segment of that path. -/
def AnswersAncestors (w : World) (c : FAkWaapiClient) (rootPath : String)
    (ancestors : List String) : Prop :=
  ∀ pre y, pre ++ [y] <+: ancestors → ∀ h,
    (c.respond h (.objectGetPath (rootPath ++ joinPath (pre ++ [y])))).success = true ∧
    ∃ first rest,
      (c.respond h (.objectGetPath (rootPath ++ joinPath (pre ++ [y])))).ret = first :: rest ∧
      GetStringField first.path = rootPath ++ joinPath (pre ++ [y]) ∧
      GetStringField first.name = y ∧ acceptsPayload w first = true


/-! ### Sample remotes and states used to instantiate the theorems -/

/-- Remote that accepts every request; it hands out transport 7 and subscription 3. -/
def acceptingClient : FAkWaapiClient :=
  ⟨fun _ _ => { success := true, transport := 7, subscriptionId := 3 }⟩

/-- Remote that accepts every request but the destroy-transport call. -/
def keepingClient : FAkWaapiClient :=
  ⟨fun _ rq => match rq with
    | .transportDestroy _ => { success := false }
    | _ => { success := true, transport := 7, subscriptionId := 3 }⟩

/-- Remote that refuses every request. -/
def refusingClient : FAkWaapiClient := ⟨fun _ _ => { success := false }⟩

/-- Folder paths of the eight categories in the sample project. -/
def samplePaths : List String :=
  Categories.map (fun cat => BACK_SLASH ++ sampleFolderNames cat)

/-- Remote holding a project: a path query for one of the eight category folders is answered
with the folder (a fresh id, three children), any other path query fails, every other request
is accepted. -/
def projectClient : FAkWaapiClient :=
  ⟨fun h rq => match rq with
    | .objectGetPath path =>
      if path ∈ samplePaths then
        { success := true,
          ret := [{ id := some (some (h.length + 1)),
                    name := some ((ParseIntoArray path).getLast?.getD ""),
                    type := some "Folder", childrenCount := some 3, path := some path }] }
      else { success := false }
    | _ => { success := true, transport := 7, subscriptionId := 3 }⟩

/-- World with a loaded project. -/
def projectWorld : World := { client := some projectClient }

/-- Remote holding a project in which every search finds the event "Play" (id 42) of the
work unit "Default Work Unit" (id 30) of the Events folder. -/
def searchClient : FAkWaapiClient :=
  ⟨fun h rq => match rq with
    | .objectSearch _ _ =>
      { success := true,
        ret := [{ id := some (some 42), name := some "Play", type := some "Event",
                  childrenCount := some 0,
                  path := some "\\Events\\Default Work Unit\\Play" }] }
    | .objectGetPath path =>
      if path = "\\Events\\Default Work Unit" then
        { success := true,
          ret := [{ id := some (some 30), name := some "Default Work Unit",
                    type := some "WorkUnit", childrenCount := some 1, path := some path }] }
      else projectClient.respond h rq
    | _ => projectClient.respond h rq⟩

/-- World with a loaded project and the searchable event. -/
def searchWorld : World := { client := some searchClient }

/-- Mirror after a repopulation, the collapse of the Events folder (address 0) and the tree
view asking for the children of that folder: the folder holds the placeholder (address 8). -/
def placeholderMirror : SWaapiPicker :=
  (runMirror projectWorld 4 [.repopulate, .expansionChanged 0 false, .getChildren 0] {}).getD {}

/-- Mirror after a repopulation and the filter query "a" on the searchable project: the Events
folder (address 0) holds the work unit (address 9), which holds the event (address 8). -/
def filteredMirror : SWaapiPicker :=
  (runMirror searchWorld 4 [.repopulate, .filter "a"] {}).getD {}

/-- Picker after one repopulation of `projectWorld`: the eight root items, nothing expanded. -/
def populatedPicker : SWaapiPicker := (ConstructTreeTaskBody projectWorld {}).getD {}

/-- World whose remote accepts everything. -/
def acceptingWorld : World := { client := some acceptingClient }

/-- World whose remote refuses the destroy-transport call. -/
def keepingWorld : World := { client := some keepingClient }

/-- World whose remote refuses everything. -/
def refusingWorld : World := { client := some refusingClient }

/-- World without a remote client. -/
def offlineWorld : World := { client := none }

/-- Picker mirroring the Events folder (address 0, id 1) with one child, the event "Zebra!"
(address 1, id 20); the folder is expanded. -/
def eventsPicker : SWaapiPicker :=
  { items :=
      [{ DisplayName := "Event", FolderPath := "\\Events", ItemType := .PhysicalFolder, ItemId := 1,
         Children := [1], ChildCountInWwise := 1 },
       { DisplayName := "Zebra!", FolderPath := "\\Events\\Zebra!", ItemType := .Event,
         ItemId := 20, Parent := some 0 }],
    RootItems := [0],
    LastExpandedItems := {1} }

/-- Payload describing the Events folder. -/
def eventsJson : FJsonObject := { id := some (some 1), path := some "\\Events" }

/-- Picker with one recorded session: item 5 on transport 7 with subscription 3. -/
def oneSession : SWaapiPicker := { ItemToTransport := [(5, ⟨7, 3⟩)] }

/-- Picker with two recorded sessions, the second one without a subscription. -/
def twoSessions : SWaapiPicker := { ItemToTransport := [(5, ⟨7, 3⟩), (6, ⟨8, 0⟩)] }

/-- Remote whose query for the children of an object returns the events "Wasp" (id 21) and
"Ant" (id 22) of the Events folder and an object of an unknown type. -/
def childrenClient : FAkWaapiClient :=
  ⟨fun _ rq => match rq with
    | .objectGetChildren _ =>
      { success := true,
        ret := [{ id := some (some 21), name := some "Wasp", type := some "Event",
                  path := some "\\Events\\Wasp" },
                { id := some (some 23), name := some "Glow", type := some "Mystery",
                  path := some "\\Events\\Glow" },
                { id := some (some 22), name := some "Ant", type := some "Event",
                  path := some "\\Events\\Ant" }] }
    | _ => { success := false }⟩

/-- World of `childrenClient`. -/
def childrenWorld : World := { client := some childrenClient }


/-- Sample picker in which the child id 50 is pending under the Events folder (address 0). -/
def pendingPicker : SWaapiPicker := { eventsPicker with pendingTreeItems := [(50, 0)] }


/-- Remote that answers every path query with success and an empty `return` array. -/
def emptyReplyClient : FAkWaapiClient :=
  ⟨fun _ rq => match rq with
    | .objectGetPath _ => { success := true, ret := [] }
    | _ => { success := false }⟩

/-- World of `emptyReplyClient`. -/
def emptyReplyWorld : World := { client := some emptyReplyClient }

/-- Remote holding a project of which only the Events folder can be queried: the path query for
that folder is answered with the folder (id 1, three children), every other path query fails,
every other request is accepted. -/
def flakyClient : FAkWaapiClient :=
  ⟨fun _ rq => match rq with
    | .objectGetPath path =>
      if path = "\\Events" then
        { success := true,
          ret := [{ id := some (some 1), name := some "Events", type := some "Folder",
                    childrenCount := some 3, path := some path }] }
      else { success := false }
    | _ => { success := true, transport := 7, subscriptionId := 3 }⟩

/-- World of `flakyClient`. -/
def flakyWorld : World := { client := some flakyClient }


/-- Factory surroundings with automatic asset synchronization in use and no project loaded. -/
def autoSyncOffline : FactoryWorld :=
  { akSettings := some { UseEventBasedPackaging := true,
                         EnableAutomaticAssetSynchronization := true },
    IsUsingEventBased := true, IsProjectLoaded := false }

/-- Factory surroundings with automatic asset synchronization in use, a project loaded and a
remote that accepts every create call and answers with the id 77. -/
def autoSyncOnline : FactoryWorld :=
  { akSettings := some { UseEventBasedPackaging := true,
                         EnableAutomaticAssetSynchronization := true },
    IsUsingEventBased := true, IsProjectLoaded := true,
    waapiClient := some (fun _ => some (some 77)) }

/-- Factory surroundings with event-based packaging off. -/
def legacyPackaging : FactoryWorld :=
  { akSettings := some { UseEventBasedPackaging := false,
                         EnableAutomaticAssetSynchronization := false } }


/-- Audio device of the samples: the short id of a name is its length plus one hundred. -/
def lengthDevice : FAkAudioDevice := ⟨fun name => name.length + 100⟩


/-- Remote holding the searchable project in which every search finds the event "Play"
(id 42) and, after it, the work unit "Default Work Unit" (id 30) that holds it. -/
def ancestorHitClient : FAkWaapiClient :=
  ⟨fun h rq => match rq with
    | .objectSearch _ _ =>
      { success := true,
        ret := [{ id := some (some 42), name := some "Play", type := some "Event",
                  childrenCount := some 0,
                  path := some "\\Events\\Default Work Unit\\Play" },
                { id := some (some 30), name := some "Default Work Unit",
                  type := some "WorkUnit", childrenCount := some 1,
                  path := some "\\Events\\Default Work Unit" }] }
    | _ => searchClient.respond h rq⟩

/-- World of `ancestorHitClient`. -/
def ancestorHitWorld : World := { client := some ancestorHitClient }

/-- Remote holding the searchable project in which every search finds the events "Play"
(id 42) and "Stop" (id 43) of the work unit "Default Work Unit". -/
def siblingHitClient : FAkWaapiClient :=
  ⟨fun h rq => match rq with
    | .objectSearch _ _ =>
      { success := true,
        ret := [{ id := some (some 42), name := some "Play", type := some "Event",
                  childrenCount := some 0,
                  path := some "\\Events\\Default Work Unit\\Play" },
                { id := some (some 43), name := some "Stop", type := some "Event",
                  childrenCount := some 0,
                  path := some "\\Events\\Default Work Unit\\Stop" }] }
    | _ => searchClient.respond h rq⟩

/-- World of `siblingHitClient`. -/
def siblingHitWorld : World := { client := some siblingHitClient }


/-- Picker mirroring the Events folder (address 0) with the folder "Amb" (address 1, id 10),
which holds the folder "Night" (address 2, id 30), which holds the event "Rain" (address 3,
id 40). -/
def nestedPicker : SWaapiPicker :=
  { items :=
      [{ DisplayName := "Event", FolderPath := "\\Events", ItemType := .PhysicalFolder, ItemId := 1,
         Children := [1], ChildCountInWwise := 1 },
       { DisplayName := "Amb", FolderPath := "\\Events\\Amb", ItemType := .Other 0,
         ItemId := 10, Children := [2], ChildCountInWwise := 1, Parent := some 0 },
       { DisplayName := "Night", FolderPath := "\\Events\\Amb\\Night", ItemType := .Other 0,
         ItemId := 30, Children := [3], ChildCountInWwise := 1, Parent := some 1 },
       { DisplayName := "Rain", FolderPath := "\\Events\\Amb\\Night\\Rain", ItemType := .Event,
         ItemId := 40, Parent := some 2 }],
    RootItems := [0],
    LastExpandedItems := {1, 10, 30} }

/-- Rename notification of the sample: the folder "Amb" (id 10) becomes "Ambience". -/
def renameAmb : FRenameResponse :=
  { oldName := some "Amb", newName := some "Ambience",
    object := some { id := some (some 10), name := some "Ambience",
                     path := some "\\Events\\Ambience" } }


/-- Remote holding the searchable project with the folder "Ambience" (id 31) in the work unit
"Default Work Unit": the path queries for the work unit and for the folder are answered with
them. -/
def nestedHitClient : FAkWaapiClient :=
  ⟨fun h rq => match rq with
    | .objectGetPath path =>
      if path = "\\Events\\Default Work Unit\\Ambience" then
        { success := true,
          ret := [{ id := some (some 31), name := some "Ambience", type := some "Folder",
                    childrenCount := some 1, path := some path }] }
      else searchClient.respond h rq
    | _ => searchClient.respond h rq⟩

/-- World of `nestedHitClient`. -/
def nestedHitWorld : World := { client := some nestedHitClient }

/-- Populated picker in which the item of the search hit "Rain", an event of the folder
"Ambience", has been constructed (address 8) and is not attached yet. -/
def hitPicker : SWaapiPicker :=
  (ConstructWwiseTreeItem nestedHitWorld populatedPicker
    { id := some (some 40), name := some "Rain", type := some "Event",
      childrenCount := some 0, path := some "\\Events\\Default Work Unit\\Ambience\\Rain" }).2


/-- Remote holding the searchable project in which the work unit that holds the event "Play"
is reported with a type that `EWwiseItemType::FromString` does not know. -/
def unknownAncestorClient : FAkWaapiClient :=
  ⟨fun h rq => match rq with
    | .objectGetPath path =>
      if path = "\\Events\\Default Work Unit" then
        { success := true,
          ret := [{ id := some (some 30), name := some "Default Work Unit",
                    type := some "Mystery", childrenCount := some 1, path := some path }] }
      else searchClient.respond h rq
    | _ => searchClient.respond h rq⟩

/-- World of `unknownAncestorClient`. -/
def unknownAncestorWorld : World := { client := some unknownAncestorClient }

/-- Populated picker in which the item of the search hit "Play", an event of the work unit
"Default Work Unit", has been constructed (address 8) and is not attached yet. -/
def playHitPicker : SWaapiPicker :=
  (ConstructWwiseTreeItem unknownAncestorWorld populatedPicker
    { id := some (some 42), name := some "Play", type := some "Event",
      childrenCount := some 0, path := some "\\Events\\Default Work Unit\\Play" }).2

/-- Remote holding a project of which only the Events folder can be queried (as
`flakyClient`), whose query for the children of an object returns the event "Play" (id 42). -/
def partialProjectClient : FAkWaapiClient :=
  ⟨fun h rq => match rq with
    | .objectGetChildren _ =>
      { success := true,
        ret := [{ id := some (some 42), name := some "Play", type := some "Event",
                  path := some "\\Events\\Play" }] }
    | _ => flakyClient.respond h rq⟩

/-- World of `partialProjectClient`. -/
def partialProjectWorld : World := { client := some partialProjectClient }

/-- Picker after a repopulation that the remote failed at the second category and after the
expansion task of the Events folder: one root item (address 0), which holds the event "Play"
(address 1). -/
def partialPicker : SWaapiPicker :=
  (runMirror partialProjectWorld 4 [.repopulate, .expansionTask 0] {}).getD {}


/-! ## Theorems -/

/-! ### Association lists -/

theorem TMap.Remove_cons {V : Type} (kv : FGuid × V) (rest : List (FGuid × V)) (k : FGuid) :
    TMap.Remove (kv :: rest) k =
      if kv.1 = k then TMap.Remove rest k else kv :: TMap.Remove rest k := by
  by_cases h : kv.1 = k <;> simp [TMap.Remove, List.filter_cons, h]

theorem TMap.Find_Remove_self {V : Type} (m : List (FGuid × V)) (k : FGuid) :
    TMap.Find (TMap.Remove m k) k = none := by
  induction m with
  | nil => rfl
  | cons kv rest ih =>
    rw [TMap.Remove_cons]
    by_cases h : kv.1 = k
    · simp [h, ih]
    · simp [h, TMap.Find, ih]

theorem TMap.Find_Remove_ne {V : Type} (m : List (FGuid × V)) (k k2 : FGuid) (h : k2 ≠ k) :
    TMap.Find (TMap.Remove m k) k2 = TMap.Find m k2 := by
  induction m with
  | nil => rfl
  | cons kv rest ih =>
    rw [TMap.Remove_cons]
    obtain ⟨k1, v⟩ := kv
    by_cases h1 : k1 = k
    · subst h1
      have h3 : ¬ k1 = k2 := fun e => h e.symm
      simp [TMap.Find, ih, h3]
    · by_cases h2 : k1 = k2
      · subst h2
        simp [h1, TMap.Find]
      · simp [h1, h2, TMap.Find, ih]

theorem TMap.Add_of_Find_none {V : Type} (m : List (FGuid × V)) (k : FGuid) (v : V)
    (h : TMap.Find m k = none) : TMap.Add m k v = m ++ [(k, v)] := by
  induction m with
  | nil => rfl
  | cons kv rest ih =>
    obtain ⟨k1, v1⟩ := kv
    by_cases h1 : k1 = k
    · simp [TMap.Find, h1] at h
    · simp [TMap.Find, h1] at h
      simp [TMap.Add, h1, ih h]

theorem TMap.Find_Add_self {V : Type} (m : List (FGuid × V)) (k : FGuid) (v : V) :
    TMap.Find (TMap.Add m k v) k = some v := by
  induction m with
  | nil => simp [TMap.Add, TMap.Find]
  | cons kv rest ih =>
    obtain ⟨k1, v1⟩ := kv
    by_cases h1 : k1 = k <;> simp [TMap.Add, TMap.Find, h1, ih]

theorem TMap.Find_Add_ne {V : Type} (m : List (FGuid × V)) (k k2 : FGuid) (v : V)
    (h : k2 ≠ k) : TMap.Find (TMap.Add m k v) k2 = TMap.Find m k2 := by
  induction m with
  | nil =>
    have : ¬ k = k2 := fun e => h e.symm
    simp [TMap.Add, TMap.Find, this]
  | cons kv rest ih =>
    obtain ⟨k1, v1⟩ := kv
    by_cases h1 : k1 = k
    · subst h1
      have : ¬ k1 = k2 := fun e => h e.symm
      simp [TMap.Add, TMap.Find, this]
    · by_cases h2 : k1 = k2
      · subst h2
        simp [TMap.Add, TMap.Find, h1]
      · simp [TMap.Add, TMap.Find, h1, h2, ih]

/-! ### The arena -/

theorem deref_update_same (s : SWaapiPicker) (p : Ptr) (f : FWwiseTreeItem → FWwiseTreeItem)
    (h : p < s.items.length) : (s.update p f).deref p = f (s.deref p) := by
  simp [SWaapiPicker.update, SWaapiPicker.deref, List.getD_eq_getElem?_getD, List.getElem?_set, h]

theorem deref_update_ne (s : SWaapiPicker) (p q : Ptr) (f : FWwiseTreeItem → FWwiseTreeItem)
    (h : q ≠ p) : (s.update p f).deref q = s.deref q := by
  have h2 : ¬ p = q := fun e => h e.symm
  simp [SWaapiPicker.update, SWaapiPicker.deref, List.getD_eq_getElem?_getD, List.getElem?_set, h2]

theorem length_update (s : SWaapiPicker) (p : Ptr) (f : FWwiseTreeItem → FWwiseTreeItem) :
    (s.update p f).items.length = s.items.length := by
  simp [SWaapiPicker.update]

theorem deref_MakeShared_new (s : SWaapiPicker) (it : FWwiseTreeItem) :
    (s.MakeShared it).2.deref s.items.length = it := by
  simp [SWaapiPicker.MakeShared, SWaapiPicker.deref, List.getD_eq_getElem?_getD]

theorem deref_MakeShared_old (s : SWaapiPicker) (it : FWwiseTreeItem) (q : Ptr)
    (h : q < s.items.length) : (s.MakeShared it).2.deref q = s.deref q := by
  simp [SWaapiPicker.MakeShared, SWaapiPicker.deref, List.getD_eq_getElem?_getD,
    List.getElem?_append_left h]

theorem length_MakeShared (s : SWaapiPicker) (it : FWwiseTreeItem) :
    (s.MakeShared it).2.items.length = s.items.length + 1 := by
  simp [SWaapiPicker.MakeShared]

theorem sortKey_update (s : SWaapiPicker) (p q : Ptr) (f : FWwiseTreeItem → FWwiseTreeItem)
    (hf : ∀ it, (f it).ItemType = it.ItemType ∧ (f it).DisplayName = it.DisplayName) :
    (s.update p f).sortKey q = s.sortKey q := by
  unfold SWaapiPicker.sortKey
  by_cases hq : q = p
  · subst hq
    by_cases hlt : q < s.items.length
    · rw [deref_update_same s q f hlt, (hf _).1, (hf _).2]
    · have : s.update q f = s := by
        simp only [SWaapiPicker.update]
        rw [List.set_eq_of_length_le (Nat.le_of_not_lt hlt)]
      rw [this]
  · rw [deref_update_ne s p q f hq]

theorem ConstructWwiseTreeItem_some (w : World) (s : SWaapiPicker) (js : FJsonObject) (c : Ptr)
    (h : (ConstructWwiseTreeItem w s js).1 = some c) :
    c = s.items.length ∧
    ∃ it : FWwiseTreeItem,
      (ConstructWwiseTreeItem w s js).2 = ({ s with guids := s.guids + 1 }.MakeShared it).2 ∧
      it.DisplayName = GetStringField js.name ∧ it.FolderPath = GetStringField js.path ∧
      it.Parent = none ∧ it.Children = [] ∧ it.DisplayName ≠ "" ∧
      isValidPath w it.FolderPath = true := by
  unfold ConstructWwiseTreeItem at h ⊢
  cases ht : w.FromString (GetStringField js.type) with
  | none => simp [ht] at h
  | some t0 =>
    simp only [ht] at h ⊢
    by_cases hv : isValidPath w (GetStringField js.path) = true
    · simp only [hv, if_true] at h ⊢
      by_cases hn : GetStringField js.name = ""
      · simp [hn] at h
      · simp only [hn, if_false] at h ⊢
        simp only [SWaapiPicker.MakeShared, Option.some.injEq] at h
        exact ⟨h.symm, _, rfl, rfl, rfl, rfl, rfl, hn, hv⟩
    · simp [hv] at h

theorem ConstructWwiseTreeItem_none (w : World) (s : SWaapiPicker) (js : FJsonObject)
    (h : (ConstructWwiseTreeItem w s js).1 = none) :
    (ConstructWwiseTreeItem w s js).2.items = s.items ∧
    (ConstructWwiseTreeItem w s js).2.LastExpandedItems = s.LastExpandedItems := by
  unfold ConstructWwiseTreeItem at h ⊢
  cases ht : w.FromString (GetStringField js.type) with
  | none => simp [ht]
  | some t0 =>
    simp only [ht] at h ⊢
    by_cases hv : isValidPath w (GetStringField js.path) = true
    · simp only [hv, if_true] at h ⊢
      by_cases hn : GetStringField js.name = ""
      · simp [hn]
      · simp [hn, SWaapiPicker.MakeShared] at h
    · simp [hv]

/-! ### Sorting -/

theorem orderedInsertBy_perm {α : Type} (le : α → α → Bool) (a : α) (l : List α) :
    (orderedInsertBy le a l).Perm (a :: l) := by
  induction l with
  | nil => exact List.Perm.refl _
  | cons b rest ih =>
    unfold orderedInsertBy
    by_cases h : le a b = true
    · simp [h]
    · simp only [h]
      exact (List.Perm.cons b ih).trans (List.Perm.swap a b rest)

theorem sortBy_perm {α : Type} (le : α → α → Bool) (l : List α) : (sortBy le l).Perm l := by
  induction l with
  | nil => exact List.Perm.refl _
  | cons a rest ih =>
    exact (orderedInsertBy_perm le a (sortBy le rest)).trans (List.Perm.cons a ih)

theorem orderedInsertBy_sorted {α : Type} (le : α → α → Bool)
    (htotal : ∀ a b, le a b = true ∨ le b a = true)
    (htrans : ∀ a b c, le a b = true → le b c = true → le a c = true)
    (a : α) (l : List α) (h : l.Pairwise (fun x y => le x y = true)) :
    (orderedInsertBy le a l).Pairwise (fun x y => le x y = true) := by
  induction l with
  | nil => simp [orderedInsertBy]
  | cons b rest ih =>
    unfold orderedInsertBy
    rw [List.pairwise_cons] at h
    by_cases hab : le a b = true
    · simp only [hab, if_true]
      refine List.pairwise_cons.2 ⟨?_, List.pairwise_cons.2 h⟩
      intro y hy
      rcases List.mem_cons.1 hy with e | hmem
      · rw [e]; exact hab
      · exact htrans a b y hab (h.1 y hmem)
    · simp only [hab]
      have hba : le b a = true := (htotal a b).resolve_left hab
      refine List.pairwise_cons.2 ⟨?_, ih h.2⟩
      intro y hy
      rcases List.mem_cons.1 ((orderedInsertBy_perm le a rest).subset hy) with e | hmem
      · rw [e]; exact hba
      · exact h.1 y hmem

theorem sortBy_sorted {α : Type} (le : α → α → Bool)
    (htotal : ∀ a b, le a b = true ∨ le b a = true)
    (htrans : ∀ a b c, le a b = true → le b c = true → le a c = true) (l : List α) :
    (sortBy le l).Pairwise (fun x y => le x y = true) := by
  induction l with
  | nil => exact List.Pairwise.nil
  | cons a rest ih => exact orderedInsertBy_sorted le htotal htrans a _ ih

/-! ### Transport session manager -/

theorem DestroyTransport_of_confirmed (w : World) (s : SWaapiPicker) (item : FGuid)
    (h : DestroyConfirmed w s item) :
    (DestroyTransport w s item).ItemToTransport = TMap.Remove s.ItemToTransport item := by
  obtain ⟨c, info, hc, hf, hs⟩ := h
  unfold DestroyTransport
  simp only [hc, hf]
  by_cases hsub : info.SubscriptionID = 0
  · simp [hsub, FAkWaapiClient.send] at hs ⊢
    simp [hs]
  · simp [hsub, FAkWaapiClient.send] at hs ⊢
    simp [hs]

theorem DestroyTransport_of_not_confirmed (w : World) (s : SWaapiPicker) (item : FGuid)
    (h : ¬ DestroyConfirmed w s item) :
    (DestroyTransport w s item).ItemToTransport = s.ItemToTransport := by
  unfold DestroyTransport
  cases hc : w.client with
  | none => rfl
  | some c =>
    cases hf : TMap.Find s.ItemToTransport item with
    | none => rfl
    | some info =>
      have hs : ¬ (c.respond (s.sent ++ (if info.SubscriptionID != 0
          then [.unsubscribe info.SubscriptionID] else []))
          (.transportDestroy info.TransportID)).success = true :=
        fun hs => h ⟨c, info, hc, hf, hs⟩
      by_cases hsub : info.SubscriptionID = 0
      · simp [hsub, FAkWaapiClient.send] at hs ⊢
        simp [hs]
      · simp [hsub, FAkWaapiClient.send] at hs ⊢
        simp [hs]

/-- C7: `DestroyTransport(item)` removes the entry of `item` from `ItemToTransport` exactly when
an entry exists, the remote client is available and the remote destroy call succeeds; in every
other case the table is unchanged; the entries of other items are never changed. -/
theorem DestroyTransport_removes_iff_confirmed (w : World) (s : SWaapiPicker) (item : FGuid) :
    (DestroyConfirmed w s item →
      TMap.Find s.ItemToTransport item ≠ none ∧
      (DestroyTransport w s item).ItemToTransport = TMap.Remove s.ItemToTransport item ∧
      TMap.Find (DestroyTransport w s item).ItemToTransport item = none) ∧
    (¬ DestroyConfirmed w s item →
      (DestroyTransport w s item).ItemToTransport = s.ItemToTransport) ∧
    (∀ k, k ≠ item →
      TMap.Find (DestroyTransport w s item).ItemToTransport k = TMap.Find s.ItemToTransport k) := by
  refine ⟨fun h => ⟨?_, DestroyTransport_of_confirmed w s item h, ?_⟩,
    DestroyTransport_of_not_confirmed w s item, fun k hk => ?_⟩
  · obtain ⟨c, info, _, hf, _⟩ := h
    simp [hf]
  · rw [DestroyTransport_of_confirmed w s item h]
    exact TMap.Find_Remove_self _ _
  · by_cases h : DestroyConfirmed w s item
    · rw [DestroyTransport_of_confirmed w s item h]
      exact TMap.Find_Remove_ne _ _ _ hk
    · rw [DestroyTransport_of_not_confirmed w s item h]

theorem DestroyConfirmed_oneSession : DestroyConfirmed acceptingWorld oneSession 5 :=
  ⟨acceptingClient, ⟨7, 3⟩, rfl, rfl, rfl⟩

theorem not_DestroyConfirmed_keeping : ¬ DestroyConfirmed keepingWorld oneSession 5 := by
  rintro ⟨c, info, hc, hf, hs⟩
  have hc2 : c = keepingClient := (Option.some.inj hc).symm
  subst hc2
  simp [keepingClient] at hs

/-- Witness of C7: with an accepting remote the session of item 5 is removed and the other
session stays; with a remote that refuses the destroy call the table stays as it was. -/
theorem DestroyTransport_removes_iff_confirmed_witness :
    (DestroyConfirmed acceptingWorld oneSession 5 ∧
      TMap.Find (DestroyTransport acceptingWorld oneSession 5).ItemToTransport 5
        = none) ∧
    (¬ DestroyConfirmed keepingWorld oneSession 5 ∧
      (DestroyTransport keepingWorld oneSession 5).ItemToTransport
        = oneSession.ItemToTransport) ∧
    TMap.Find (DestroyTransport acceptingWorld twoSessions 5).ItemToTransport 6
      = TMap.Find twoSessions.ItemToTransport 6 :=
  ⟨⟨DestroyConfirmed_oneSession,
      ((DestroyTransport_removes_iff_confirmed _ oneSession 5).1 DestroyConfirmed_oneSession).2.2⟩,
    ⟨not_DestroyConfirmed_keeping,
      (DestroyTransport_removes_iff_confirmed _ oneSession 5).2.1 not_DestroyConfirmed_keeping⟩,
    (DestroyTransport_removes_iff_confirmed acceptingWorld twoSessions 5).2.2 6
      (by decide)⟩

theorem CreateTransport_Find_of_success (w : World) (s : SWaapiPicker) (item : FGuid)
    (h : (CallWaapiExecuteUri w s (.transportCreate item)).1.success = true) :
    TMap.Find (CreateTransport w s item).2.ItemToTransport item =
      some ⟨(CallWaapiExecuteUri w s (.transportCreate item)).1.transport,
        (SubscribeToTransportStateChanged w (CallWaapiExecuteUri w s (.transportCreate item)).2
          (CallWaapiExecuteUri w s (.transportCreate item)).1.transport).1⟩ := by
  simp only [CreateTransport, h, if_true]
  exact TMap.Find_Add_self _ _ _

/-- C8: when the remote create-transport call succeeds, `CreateTransport(item)` returns the
transport id of the response and `ItemToTransport` maps `item` to a session with that transport
id and the subscription id returned by `SubscribeToTransportStateChanged`; when the call fails
it returns -1, issues no subscription (nothing is sent after the create request) and leaves
`ItemToTransport` unchanged. -/
theorem CreateTransport_spec (w : World) (s : SWaapiPicker) (item : FGuid) :
    ((CallWaapiExecuteUri w s (.transportCreate item)).1.success = true →
      (CreateTransport w s item).1 = (CallWaapiExecuteUri w s (.transportCreate item)).1.transport ∧
      TMap.Find (CreateTransport w s item).2.ItemToTransport item =
        some ⟨(CallWaapiExecuteUri w s (.transportCreate item)).1.transport,
          (SubscribeToTransportStateChanged w (CallWaapiExecuteUri w s (.transportCreate item)).2
            (CallWaapiExecuteUri w s (.transportCreate item)).1.transport).1⟩) ∧
    ((CallWaapiExecuteUri w s (.transportCreate item)).1.success = false →
      (CreateTransport w s item).1 = -1 ∧
      (CreateTransport w s item).2.ItemToTransport = s.ItemToTransport ∧
      (CreateTransport w s item).2.sent = (CallWaapiExecuteUri w s (.transportCreate item)).2.sent ∧
      ∀ t, WaapiRequest.subscribeStateChanged t ∉
        (CreateTransport w s item).2.sent.drop s.sent.length) := by
  constructor
  · intro h
    refine ⟨?_, CreateTransport_Find_of_success w s item h⟩
    simp only [CreateTransport, h, if_true]
  · intro h
    simp only [CreateTransport, h]
    refine ⟨by simp, ?_, by simp, ?_⟩
    · cases hc : w.client <;> simp [CallWaapiExecuteUri, hc, FAkWaapiClient.send]
    · intro t
      cases hc : w.client <;> simp [CallWaapiExecuteUri, hc, FAkWaapiClient.send]

/-- Witness of C8: an accepting remote records item 5 on transport 7 with subscription 3; a
refusing remote yields -1 and leaves the table alone. -/
theorem CreateTransport_spec_witness :
    ((CallWaapiExecuteUri acceptingWorld {} (.transportCreate 5)).1.success = true ∧
      (CreateTransport acceptingWorld {} 5).1 = 7 ∧
      TMap.Find (CreateTransport acceptingWorld {} 5).2.ItemToTransport 5 =
        some ⟨7, 3⟩) ∧
    ((CallWaapiExecuteUri refusingWorld oneSession (.transportCreate 6)).1.success
        = false ∧
      (CreateTransport refusingWorld oneSession 6).1 = -1 ∧
      (CreateTransport refusingWorld oneSession 6).2.ItemToTransport
        = [(5, ⟨7, 3⟩)]) :=
  ⟨⟨rfl, (CreateTransport_spec acceptingWorld {} 5).1 rfl⟩,
    ⟨rfl, ((CreateTransport_spec refusingWorld oneSession 6).2 rfl).1,
      ((CreateTransport_spec refusingWorld oneSession 6).2 rfl).2.1⟩⟩

/-- Counterexample to C9 as stated: the "playing" notification for the item 6 carries the
transport number 2147483648, which is not an `int32` value; the entry recorded for the item
carries -2147483648. -/
theorem playing_notification_narrows_transport :
    (HandleStateChanged offlineWorld {} ⟨"playing", 6, 2147483648⟩).ItemToTransport =
      [(6, ⟨-2147483648, 0⟩)] := by
  decide

/-- C9 (amended): on state "playing", `HandleStateChanged` appends exactly one entry when the
table has no entry for the notified item, with subscription id 0 and with an `int32`
transport id, which is the notified transport id whenever that is an `int32` value; it leaves
the table unchanged when the table has an entry for the item; on every state other than
"stopped" and "playing" the table is unchanged. -/
theorem HandleStateChanged_playing (w : World) (s : SWaapiPicker) (js : StateChangedJson) :
    (js.state = "playing" → TMap.Find s.ItemToTransport js.object = none →
      ∃ t : Int, (HandleStateChanged w s js).ItemToTransport =
          s.ItemToTransport ++ [(js.object, ⟨t, 0⟩)] ∧
        -2 ^ 31 ≤ t ∧ t < 2 ^ 31 ∧
        (-2 ^ 31 ≤ js.transport → js.transport < 2 ^ 31 → t = js.transport)) ∧
    (js.state = "playing" → TMap.Find s.ItemToTransport js.object ≠ none →
      (HandleStateChanged w s js).ItemToTransport = s.ItemToTransport) ∧
    (js.state ≠ "stopped" → js.state ≠ "playing" →
      (HandleStateChanged w s js).ItemToTransport = s.ItemToTransport) := by
  refine ⟨fun h1 h2 => ?_, fun h1 h2 => ?_, fun h1 h2 => ?_⟩
  · have hne : ¬ PLAYING = STOPPED := by decide
    have hp : js.state = PLAYING := h1
    refine ⟨toInt32 js.transport, ?_, ?_, ?_, ?_⟩
    · simp [HandleStateChanged, hne, hp, TMap.Contains, h2, TMap.Add_of_Find_none _ _ _ h2]
    · unfold toInt32
      split <;> omega
    · unfold toInt32
      split <;> omega
    · intro ha hb
      unfold toInt32
      rw [if_pos ⟨ha, hb⟩]
  · have hne : ¬ PLAYING = STOPPED := by decide
    have hp : js.state = PLAYING := h1
    have h3 : (TMap.Find s.ItemToTransport js.object).isSome = true := by
      cases h : TMap.Find s.ItemToTransport js.object with
      | none => exact absurd h h2
      | some v => rfl
    simp [HandleStateChanged, hne, hp, TMap.Contains, h3]
  · have hne : ¬ js.state = STOPPED := h1
    have hne2 : ¬ js.state = PLAYING := h2
    simp [HandleStateChanged, hne, hne2]

/-- Witness of C9 (amended) on the one-session table: "playing" for the new item 6 with the
transport 9 appends the entry carrying 9, "playing" for the recorded item 5 and a "paused"
notification change nothing. -/
theorem HandleStateChanged_playing_witness :
    (HandleStateChanged offlineWorld oneSession ⟨"playing", 6, 9⟩).ItemToTransport =
        [(5, ⟨7, 3⟩), (6, ⟨9, 0⟩)] ∧
    (HandleStateChanged offlineWorld oneSession ⟨"playing", 5, 9⟩).ItemToTransport =
        [(5, ⟨7, 3⟩)] ∧
    (HandleStateChanged offlineWorld oneSession ⟨"paused", 5, 9⟩).ItemToTransport =
        [(5, ⟨7, 3⟩)] := by
  refine ⟨?_, (HandleStateChanged_playing offlineWorld oneSession ⟨"playing", 5, 9⟩).2.1 rfl
      (by decide),
    (HandleStateChanged_playing offlineWorld oneSession ⟨"paused", 5, 9⟩).2.2
      (by decide) (by decide)⟩
  obtain ⟨t, h, _, _, ht⟩ :=
    (HandleStateChanged_playing offlineWorld oneSession ⟨"playing", 6, 9⟩).1 rfl rfl
  rw [h, ht (by decide) (by decide)]
  rfl

/-- Counterexample to C5 as stated: the remote hands out transport 7 for item 5, then refuses
the destroy call; after the "stopped" notification the session of item 5 is still recorded. -/
theorem stopped_notification_keeps_session :
    TMap.Find (CreateTransport keepingWorld {} 5).2.ItemToTransport 5
      = some ⟨7, 3⟩ ∧
    TMap.Find (HandleStateChanged keepingWorld
      (CreateTransport keepingWorld {} 5).2 ⟨"stopped", 5, 7⟩).ItemToTransport 5
      = some ⟨7, 3⟩ := by
  decide

/-- C5 (amended): after `CreateTransport(item)` has recorded a session, a "stopped" notification
for that item leaves no entry for the item provided the remote client is available and the
remote confirms the destroy call; otherwise the recorded session stays in the table. -/
theorem stopped_after_create (w : World) (s : SWaapiPicker) (item : FGuid)
    (js : StateChangedJson) (hstate : js.state = "stopped") (hobj : js.object = item)
    (hrec : (CallWaapiExecuteUri w s (.transportCreate item)).1.success = true) :
    TMap.Find (CreateTransport w s item).2.ItemToTransport item ≠ none ∧
    (DestroyConfirmed w (CreateTransport w s item).2 item →
      TMap.Find (HandleStateChanged w (CreateTransport w s item).2 js).ItemToTransport item
        = none) ∧
    (¬ DestroyConfirmed w (CreateTransport w s item).2 item →
      (HandleStateChanged w (CreateTransport w s item).2 js).ItemToTransport
        = (CreateTransport w s item).2.ItemToTransport) := by
  have hs : js.state = STOPPED := hstate
  have hh : HandleStateChanged w (CreateTransport w s item).2 js =
      DestroyTransport w (CreateTransport w s item).2 item := by
    simp [HandleStateChanged, hs, hobj]
  rw [hh]
  refine ⟨?_, fun h => ?_, fun h => DestroyTransport_of_not_confirmed _ _ _ h⟩
  · rw [CreateTransport_Find_of_success w s item hrec]
    simp
  · rw [DestroyTransport_of_confirmed _ _ _ h]
    exact TMap.Find_Remove_self _ _

theorem DestroyConfirmed_after_create :
    DestroyConfirmed acceptingWorld
      (CreateTransport acceptingWorld {} 5).2 5 :=
  ⟨acceptingClient, ⟨7, 3⟩, rfl, rfl, rfl⟩

/-- Witness of C5 (amended): with an accepting remote, creating a session for item 5 and then
notifying "stopped" leaves no entry for item 5. -/
theorem stopped_after_create_witness :
    (CallWaapiExecuteUri acceptingWorld {} (.transportCreate 5)).1.success = true ∧
    DestroyConfirmed acceptingWorld
      (CreateTransport acceptingWorld {} 5).2 5 ∧
    TMap.Find (HandleStateChanged acceptingWorld
      (CreateTransport acceptingWorld {} 5).2 ⟨"stopped", 5, 7⟩).ItemToTransport 5
      = none :=
  ⟨rfl, DestroyConfirmed_after_create,
    (stopped_after_create acceptingWorld {} 5 ⟨"stopped", 5, 7⟩ rfl rfl rfl).2.1
      DestroyConfirmed_after_create⟩

/-! ### Teardown -/

theorem StopTransport_ItemToTransport (w : World) (s : SWaapiPicker) (t : Int) :
    (StopTransport w s t).ItemToTransport = s.ItemToTransport := by
  unfold StopTransport
  cases w.client <;> rfl

theorem StopTransport_sent (c : FAkWaapiClient) (w : World) (hc : w.client = some c)
    (s : SWaapiPicker) (t : Int) :
    (StopTransport w s t).sent = s.sent ++ [.executeAction .stop t] := by
  simp [StopTransport, hc, FAkWaapiClient.send]

theorem DestroyTransport_sent (c : FAkWaapiClient) (w : World) (hc : w.client = some c)
    (s : SWaapiPicker) (k : FGuid) (info : TransportInfo)
    (hf : TMap.Find s.ItemToTransport k = some info) :
    (DestroyTransport w s k).sent = s.sent ++
      ((if info.SubscriptionID != 0 then [.unsubscribe info.SubscriptionID] else []) ++
        [.transportDestroy info.TransportID]) := by
  unfold DestroyTransport
  simp only [hc, hf]
  by_cases hsub : info.SubscriptionID = 0
  · by_cases hs : (c.respond s.sent (.transportDestroy info.TransportID)).success = true <;>
      simp [hsub, FAkWaapiClient.send, hs]
  · by_cases hs : (c.respond (s.sent ++ [.unsubscribe info.SubscriptionID])
        (.transportDestroy info.TransportID)).success = true <;>
      simp [hsub, FAkWaapiClient.send, hs]

theorem DestroyTransport_Find_ne (w : World) (s : SWaapiPicker) (item k : FGuid) (hk : k ≠ item) :
    TMap.Find (DestroyTransport w s item).ItemToTransport k = TMap.Find s.ItemToTransport k := by
  by_cases h : DestroyConfirmed w s item
  · rw [DestroyTransport_of_confirmed w s item h]
    exact TMap.Find_Remove_ne _ _ _ hk
  · rw [DestroyTransport_of_not_confirmed w s item h]

theorem teardown_fold_sent (c : FAkWaapiClient) (w : World) (hc : w.client = some c)
    (l : List (FGuid × TransportInfo)) :
    ∀ acc : SWaapiPicker, (l.map Prod.fst).Nodup →
      (∀ kv ∈ l, TMap.Find acc.ItemToTransport kv.1 = some kv.2) →
      (l.foldl (fun a kv => DestroyTransport w (StopTransport w a kv.2.TransportID) kv.1) acc).sent
        = acc.sent ++ l.flatMap teardownRequests := by
  induction l with
  | nil => intro acc _ _; simp
  | cons kv rest ih =>
    intro acc hnd hall
    have hkv : TMap.Find (StopTransport w acc kv.2.TransportID).ItemToTransport kv.1 = some kv.2 := by
      rw [StopTransport_ItemToTransport]
      exact hall kv (List.mem_cons_self _ _)
    simp only [List.map_cons, List.nodup_cons] at hnd
    rw [List.foldl_cons, ih _ hnd.2, DestroyTransport_sent c w hc _ _ _ hkv,
      StopTransport_sent c w hc, List.flatMap_cons]
    · simp [teardownRequests, List.append_assoc]
    · intro kv2 hmem
      have hne : kv2.1 ≠ kv.1 := by
        intro e
        exact hnd.1 (e ▸ List.mem_map_of_mem Prod.fst hmem)
      rw [DestroyTransport_Find_ne _ _ _ _ hne, StopTransport_ItemToTransport]
      exact hall kv2 (List.mem_cons_of_mem _ hmem)

theorem Find_of_mem_of_WF {V : Type} (m : List (FGuid × V)) (h : TMap.WF m) :
    ∀ kv ∈ m, TMap.Find m kv.1 = some kv.2 := by
  induction m with
  | nil => intro kv hkv; cases hkv
  | cons a rest ih =>
    intro kv hkv
    obtain ⟨k1, v1⟩ := a
    simp only [TMap.WF, List.map_cons, List.nodup_cons] at h
    rcases List.mem_cons.1 hkv with e | hmem
    · subst e
      simp [TMap.Find]
    · have hne : ¬ k1 = kv.1 := by
        intro e
        exact h.1 (e ▸ List.mem_map_of_mem Prod.fst hmem)
      simp only [TMap.Find, hne, if_false]
      exact ih h.2 kv hmem

/-- Counterexample to C10 as stated: without a remote client the teardown of a table holding
the session of item 5 issues neither a stop action nor a destroy call. -/
theorem teardown_without_client_issues_nothing :
    TMap.Find oneSession.ItemToTransport 5 = some ⟨7, 3⟩ ∧
    (StopAndDestroyAllTransports offlineWorld oneSession).sent = [] := by
  decide

/-- C10 (amended): `StopAndDestroyAllTransports` leaves `ItemToTransport` empty in every case
(whatever the remote answers and whether or not a client is available); when the remote client
is available, the requests it issues are, for every session of the table in turn and nothing
else, the stop action, the unsubscribe request if the session has a subscription, and the
destroy call, so each session gets one stop and then one destroy. -/
theorem StopAndDestroyAllTransports_spec (w : World) (s : SWaapiPicker) :
    (StopAndDestroyAllTransports w s).ItemToTransport = [] ∧
    (∀ c, w.client = some c → TMap.WF s.ItemToTransport →
      (StopAndDestroyAllTransports w s).sent =
        s.sent ++ s.ItemToTransport.flatMap teardownRequests) := by
  refine ⟨rfl, fun c hc hwf => ?_⟩
  exact teardown_fold_sent c w hc s.ItemToTransport s hwf (Find_of_mem_of_WF _ hwf)

/-- Witness of C10 (amended) on the table with two sessions and an accepting remote. -/
theorem StopAndDestroyAllTransports_spec_witness :
    TMap.WF twoSessions.ItemToTransport ∧
    (StopAndDestroyAllTransports acceptingWorld twoSessions).sent =
      [.executeAction .stop 7, .unsubscribe 3, .transportDestroy 7,
       .executeAction .stop 8, .transportDestroy 8] :=
  ⟨by decide,
    (StopAndDestroyAllTransports_spec acceptingWorld twoSessions).2
      acceptingClient rfl (by decide)⟩

/-! ### Repopulation -/

theorem runEvents_append (w : World) (fuel : Nat) (a b : List PickerEvent) :
    ∀ s, runEvents w fuel (a ++ b) s = (runEvents w fuel a s).bind (runEvents w fuel b) := by
  induction a with
  | nil => intro s; rfl
  | cons e rest ih =>
    intro s
    simp only [List.cons_append, runEvents]
    cases e.apply w fuel s with
    | none => rfl
    | some s1 => exact ih s1

theorem runEvents_ticks_idle (w : World) (fuel : Nat) (n : Nat) (s : SWaapiPicker)
    (h : s.bRequestRefresh = false) :
    runEvents w fuel (List.replicate n .tick) s = some s := by
  induction n with
  | zero => rfl
  | succ k ih => simp [List.replicate, runEvents, PickerEvent.apply, Tick, h, ih]

/-- A call of `ConstructTree` made while the populate task is incomplete launches nothing: it
only sets the flag `bRequestRefresh`. -/
theorem ConstructTree_in_flight (w : World) (fuel : Nat) (s : SWaapiPicker)
    (hl : w.IsProjectLoaded = true) (h : s.ConstructTreeTask = some false) :
    ConstructTree w fuel s = some { s with bRequestRefresh := true } := by
  simp [ConstructTree, ConstructTreeWith, hl, h]

theorem retry_prefix_state :
    (runEvents projectWorld 4 [.constructTree, .constructTree, .tick, .taskCompletes] {}).map
      (fun s => (s.dispatched, s.bRequestRefresh, s.ConstructTreeTask)) =
      some (1, false, some true) := by
  decide

/-- When the task completes before the next frame, the deferred repopulation is launched once:
two populate tasks are dispatched in all, however many frames follow. -/
theorem retry_launched_when_task_completes_first :
    (runEvents projectWorld 4
      [.constructTree, .constructTree, .taskCompletes, .tick, .tick, .tick] {}).map
      (fun s => (s.dispatched, s.bRequestRefresh)) = some (2, false) := by
  decide

/-- C2 (evaluation at the failing input): with a loaded project, a second `ConstructTree` call
arrives while the first populate task is in flight and a frame ticks before the task completes;
`Tick` clears `bRequestRefresh` again, so that after the completion no number of further
frames launches the deferred repopulation: one populate task was dispatched in all. -/
theorem deferred_retry_is_lost (n : Nat) :
    (runEvents projectWorld 4
      ([.constructTree, .constructTree, .tick, .taskCompletes] ++ List.replicate n .tick) {}).map
      (fun s => (s.dispatched, s.bRequestRefresh, s.ConstructTreeTask)) =
      some (1, false, some true) := by
  have h := retry_prefix_state
  rw [runEvents_append]
  cases hs : runEvents projectWorld 4 [.constructTree, .constructTree, .tick, .taskCompletes] {} with
  | none => rw [hs] at h; cases h
  | some s4 =>
    rw [hs] at h
    simp only [Option.map_some', Option.some.injEq, Prod.mk.injEq] at h
    simp only [Option.some_bind]
    rw [runEvents_ticks_idle _ _ _ _ h.2.1]
    simp [h]

/-! ### Filter overlay -/

/-- C1 (evaluation at the failing input): the expansion set is empty before the first query;
the queries "a" and "ab" both find the event with id 42 in the work unit with id 30, then the
filter is cleared.  The second query takes `LastExpandedItemsBeforFilter` for unset (it is
empty) and snapshots the set left by the first query, so the empty query restores the set of
the ids 30 and 42, not the empty set.  After a single query the empty set is restored. -/
theorem empty_expansion_set_not_restored :
    populatedPicker.RootItems.length = 8 ∧
    populatedPicker.LastExpandedItems = ∅ ∧
    populatedPicker.LastExpandedItemsBeforFilter = ∅ ∧
    (runQueries searchWorld 4 ["a", "ab", ""] populatedPicker).map (fun s => s.LastExpandedItems)
      = some {30, 42} ∧
    (runQueries searchWorld 4 ["a", ""] populatedPicker).map (fun s => s.LastExpandedItems)
      = some ∅ := by
  decide

/-! ### Push notifications -/

theorem deref_congr (s t : SWaapiPicker) (h : s.items = t.items) (q : Ptr) :
    s.deref q = t.deref q := by
  simp [SWaapiPicker.deref, h]

theorem sortKey_congr (s t : SWaapiPicker) (h : s.items = t.items) (q : Ptr) :
    s.sortKey q = t.sortKey q := by
  simp [SWaapiPicker.sortKey, deref_congr s t h]

theorem CreateTreeItemWaapi_accept (w : World) (s : SWaapiPicker) (parent newChild : Ptr)
    (childJson : FJsonObject) (hexists : parent < s.items.length)
    (haccept : (ConstructWwiseTreeItem w s childJson).1 = some newChild)
    (htotal : ∀ a b, w.SortLE a b = true ∨ w.SortLE b a = true)
    (htrans : ∀ a b c, w.SortLE a b = true → w.SortLE b c = true → w.SortLE a c = true) :
    newChild = s.items.length ∧
    ((CreateTreeItemWaapi w s (some parent) childJson).deref parent).ChildCountInWwise =
      ((s.deref parent).ChildCountInWwise + 1) % 2 ^ 32 ∧
    ((CreateTreeItemWaapi w s (some parent) childJson).deref parent).Children.Perm
      ((s.deref parent).Children ++ [newChild]) ∧
    ((CreateTreeItemWaapi w s (some parent) childJson).deref parent).Children.Pairwise
      (fun a b => w.SortLE ((CreateTreeItemWaapi w s (some parent) childJson).sortKey a)
        ((CreateTreeItemWaapi w s (some parent) childJson).sortKey b) = true) ∧
    ((CreateTreeItemWaapi w s (some parent) childJson).deref newChild).Parent = some parent ∧
    ((CreateTreeItemWaapi w s (some parent) childJson).deref newChild).DisplayName =
      GetStringField childJson.name ∧
    ((CreateTreeItemWaapi w s (some parent) childJson).deref newChild).FolderPath =
      GetStringField childJson.path := by
  obtain ⟨hnew, it, hr2, hname, hpath, _, _, _, _⟩ :=
    ConstructWwiseTreeItem_some w s childJson newChild haccept
  have hne : parent ≠ newChild := by
    intro e
    rw [e, hnew] at hexists
    exact Nat.lt_irrefl _ hexists
  have hlt : ∀ n : Nat, n = s.items.length + 1 → parent < n ∧ newChild < n := by
    intro n hn
    rw [hn, hnew]
    exact ⟨Nat.lt_succ_of_lt hexists, Nat.lt_succ_self _⟩
  -- the state after construction
  have hlen0 : (ConstructWwiseTreeItem w s childJson).2.items.length = s.items.length + 1 := by
    rw [hr2]; simp [SWaapiPicker.MakeShared]
  have hd0p : (ConstructWwiseTreeItem w s childJson).2.deref parent = s.deref parent := by
    rw [hr2]; exact deref_MakeShared_old _ _ _ hexists
  have hd0c : (ConstructWwiseTreeItem w s childJson).2.deref newChild = it := by
    rw [hr2, hnew]; exact deref_MakeShared_new _ _
  -- the stages of `CreateTreeItemWaapi`
  set s1 := (ConstructWwiseTreeItem w s childJson).2.update newChild
    (fun it => { it with Parent := some parent }) with hs1
  set s2 := s1.update parent (fun it => { it with Children := it.Children ++ [newChild] })
    with hs2
  set s3 := SortChildren w s2 parent with hs3
  set s4 := s3.update parent
    (fun it => { it with ChildCountInWwise := (it.ChildCountInWwise + 1) % 2 ^ 32 }) with hs4
  have hitems : (CreateTreeItemWaapi w s (some parent) childJson).items = s4.items := by
    simp only [CreateTreeItemWaapi, haccept]
    split <;> rfl
  have hl1 : s1.items.length = s.items.length + 1 := by rw [hs1, length_update, hlen0]
  have hl2 : s2.items.length = s.items.length + 1 := by rw [hs2, length_update, hl1]
  have hl3 : s3.items.length = s.items.length + 1 := by
    rw [hs3, SortChildren, length_update, hl2]
  have h1p : s1.deref parent = s.deref parent := by
    rw [hs1, deref_update_ne _ _ _ _ hne, hd0p]
  have h1c : s1.deref newChild = { it with Parent := some parent } := by
    rw [hs1, deref_update_same _ _ _ (hlt _ hlen0).2, hd0c]
  have h2p : s2.deref parent =
      { s.deref parent with Children := (s.deref parent).Children ++ [newChild] } := by
    rw [hs2, deref_update_same _ _ _ (hlt _ hl1).1, h1p]
  have h2c : s2.deref newChild = { it with Parent := some parent } := by
    rw [hs2, deref_update_ne _ _ _ _ hne.symm, h1c]
  have h3p : s3.deref parent =
      { s.deref parent with
        Children := sortBy (fun a b => w.SortLE (s2.sortKey a) (s2.sortKey b))
          ((s.deref parent).Children ++ [newChild]) } := by
    rw [hs3, SortChildren, deref_update_same _ _ _ (hlt _ hl2).1, h2p]
  have h3c : s3.deref newChild = { it with Parent := some parent } := by
    rw [hs3, SortChildren, deref_update_ne _ _ _ _ hne.symm, h2c]
  have h4p : s4.deref parent =
      { s.deref parent with
        Children := sortBy (fun a b => w.SortLE (s2.sortKey a) (s2.sortKey b))
          ((s.deref parent).Children ++ [newChild]),
        ChildCountInWwise := ((s.deref parent).ChildCountInWwise + 1) % 2 ^ 32 } := by
    rw [hs4, deref_update_same _ _ _ (hlt _ hl3).1, h3p]
  have h4c : s4.deref newChild = { it with Parent := some parent } := by
    rw [hs4, deref_update_ne _ _ _ _ hne.symm, h3c]
  have hkey : ∀ q, (CreateTreeItemWaapi w s (some parent) childJson).sortKey q = s2.sortKey q := by
    intro q
    have e4 : s4.sortKey q = s3.sortKey q := sortKey_update s3 parent q _ (fun _ => ⟨rfl, rfl⟩)
    have e3 : s3.sortKey q = s2.sortKey q := sortKey_update s2 parent q _ (fun _ => ⟨rfl, rfl⟩)
    rw [sortKey_congr _ _ hitems, e4, e3]
  rw [deref_congr _ _ hitems parent, deref_congr _ _ hitems newChild, h4p, h4c]
  refine ⟨hnew, rfl, sortBy_perm _ _, ?_, rfl, hname, hpath⟩
  simp only [hkey]
  exact sortBy_sorted (fun a b => w.SortLE (s2.sortKey a) (s2.sortKey b))
    (fun a b => htotal _ _) (fun a b c => htrans _ _ _) _

theorem OnWaapiChildAdded_resolved (w : World) (s : SWaapiPicker) (Response : FChildResponse)
    (parentJson childJson : FJsonObject) (parent : Ptr)
    (hp : Response.parent = some parentJson) (hc : Response.child = some childJson)
    (hname : childJson.name ≠ some "")
    (hfind : FindTreeItemFromJsonObject s parentJson "" = some parent) :
    OnWaapiChildAdded w s Response = CreateTreeItemWaapi w s (some parent) childJson := by
  simp [OnWaapiChildAdded, HandleOnWaapiChildResponse, hp, hc, hname, hfind]

/-- Counterexample to C3 as stated: the parent payload resolves to the Events folder and the
child has the finalized name "Ant", but its type is unknown to `EWwiseItemType::FromString`;
`ConstructWwiseTreeItem` rejects it, the count stays 1 and nothing is inserted. -/
theorem child_added_with_unknown_type_is_dropped :
    FindTreeItemFromJsonObject eventsPicker eventsJson "" = some 0 ∧
    ((OnWaapiChildAdded offlineWorld eventsPicker
      { parent := some eventsJson,
        child := some { id := some (some 50), name := some "Ant", type := some "Mystery",
                        path := some "\\Events\\Ant" } }).deref 0).ChildCountInWwise = 1 ∧
    ((OnWaapiChildAdded offlineWorld eventsPicker
      { parent := some eventsJson,
        child := some { id := some (some 50), name := some "Ant", type := some "Mystery",
                        path := some "\\Events\\Ant" } }).deref 0).Children = [1] := by
  decide

/-- C3 (amended): for every child-added notification whose parent payload resolves to an
existing mirror node, whose child has a finalized (non-empty) name and whose child payload
`ConstructWwiseTreeItem` accepts, `OnWaapiChildAdded` increases the parent's
`ChildCountInWwise` by exactly one (the count being below its 32-bit maximum) and inserts the
new child into the parent's `Children` at its sorted position: the new list holds the old
children and the new child and nothing else, it is sorted by the order of `SortChildren` (a
total and transitive order), and the new child, a fresh item with the name and path of the
payload, has the node as `Parent`. -/
theorem OnWaapiChildAdded_spec (w : World) (s : SWaapiPicker) (Response : FChildResponse)
    (parentJson childJson : FJsonObject) (parent newChild : Ptr)
    (hp : Response.parent = some parentJson) (hc : Response.child = some childJson)
    (hname : childJson.name ≠ some "")
    (hfind : FindTreeItemFromJsonObject s parentJson "" = some parent)
    (hexists : parent < s.items.length)
    (haccept : (ConstructWwiseTreeItem w s childJson).1 = some newChild)
    (hcount : (s.deref parent).ChildCountInWwise + 1 < 2 ^ 32)
    (htotal : ∀ a b, w.SortLE a b = true ∨ w.SortLE b a = true)
    (htrans : ∀ a b c, w.SortLE a b = true → w.SortLE b c = true → w.SortLE a c = true) :
    ((OnWaapiChildAdded w s Response).deref parent).ChildCountInWwise =
      (s.deref parent).ChildCountInWwise + 1 ∧
    ((OnWaapiChildAdded w s Response).deref parent).Children.Perm
      ((s.deref parent).Children ++ [newChild]) ∧
    newChild ∈ ((OnWaapiChildAdded w s Response).deref parent).Children ∧
    ((OnWaapiChildAdded w s Response).deref parent).Children.Pairwise
      (fun a b => w.SortLE ((OnWaapiChildAdded w s Response).sortKey a)
        ((OnWaapiChildAdded w s Response).sortKey b) = true) ∧
    newChild = s.items.length ∧
    ((OnWaapiChildAdded w s Response).deref newChild).Parent = some parent ∧
    ((OnWaapiChildAdded w s Response).deref newChild).DisplayName = GetStringField childJson.name ∧
    ((OnWaapiChildAdded w s Response).deref newChild).FolderPath = GetStringField childJson.path := by
  rw [OnWaapiChildAdded_resolved w s Response parentJson childJson parent hp hc hname hfind]
  obtain ⟨h1, h2, h3, h4, h5, h6, h7⟩ :=
    CreateTreeItemWaapi_accept w s parent newChild childJson hexists haccept htotal htrans
  refine ⟨?_, h3, h3.symm.subset (by simp), h4, h1, h5, h6, h7⟩
  rw [h2, Nat.mod_eq_of_lt hcount]

theorem sampleSortLE_total (w : World) (h : w.SortLE = fun a b => decide (a.2.length ≤ b.2.length)) :
    ∀ a b, w.SortLE a b = true ∨ w.SortLE b a = true := by
  intro a b
  simp only [h, decide_eq_true_eq]
  exact Nat.le_total _ _

theorem sampleSortLE_trans (w : World) (h : w.SortLE = fun a b => decide (a.2.length ≤ b.2.length)) :
    ∀ a b c, w.SortLE a b = true → w.SortLE b c = true → w.SortLE a c = true := by
  intro a b c
  simp only [h, decide_eq_true_eq]
  exact Nat.le_trans

/-- Witness of C3 (amended): the event "Ant" is added under the Events folder of the sample
picker; the count goes from 1 to 2 and the new child (address 2) is placed before "Zebra!". -/
theorem OnWaapiChildAdded_spec_witness :
    FindTreeItemFromJsonObject eventsPicker eventsJson "" = some 0 ∧
    (ConstructWwiseTreeItem offlineWorld eventsPicker
      { id := some (some 50), name := some "Ant", type := some "Event",
        path := some "\\Events\\Ant" }).1 = some 2 ∧
    ((OnWaapiChildAdded offlineWorld eventsPicker
      { parent := some eventsJson,
        child := some { id := some (some 50), name := some "Ant", type := some "Event",
                        path := some "\\Events\\Ant" } }).deref 0).ChildCountInWwise = 1 + 1 ∧
    ((OnWaapiChildAdded offlineWorld eventsPicker
      { parent := some eventsJson,
        child := some { id := some (some 50), name := some "Ant", type := some "Event",
                        path := some "\\Events\\Ant" } }).deref 0).Children = [2, 1] :=
  ⟨by decide, by decide,
    (OnWaapiChildAdded_spec offlineWorld eventsPicker _ eventsJson
      { id := some (some 50), name := some "Ant", type := some "Event",
        path := some "\\Events\\Ant" } 0 2 rfl rfl (by decide) (by decide) (by decide)
      (by decide) (by decide) (sampleSortLE_total _ rfl) (sampleSortLE_trans _ rfl)).1,
    by decide⟩

theorem OnWaapiChildRemoved_resolved (s : SWaapiPicker) (Response : FChildResponse)
    (parentJson childJson : FJsonObject) (parent : Ptr)
    (hp : Response.parent = some parentJson) (hc : Response.child = some childJson)
    (hname : childJson.name ≠ some "")
    (hfind : FindTreeItemFromJsonObject s parentJson "" = some parent) :
    OnWaapiChildRemoved s Response = removeChildAction s parent childJson := by
  simp [OnWaapiChildRemoved, HandleOnWaapiChildResponse, hp, hc, hname, hfind]

theorem findChildIndex_none (s : SWaapiPicker) (id : FGuid) (l : List Ptr) :
    ∀ k, (∀ c ∈ l, (s.deref c).ItemId ≠ id) → findChildIndex s id l k = none := by
  induction l with
  | nil => intro k _; rfl
  | cons c rest ih =>
    intro k h
    have hc : ¬ (s.deref c).ItemId = id := h c (List.mem_cons_self _ _)
    simp only [findChildIndex, hc, if_false]
    exact ih (k + 1) (fun d hd => h d (List.mem_cons_of_mem _ hd))

theorem findChildIndex_some (s : SWaapiPicker) (id : FGuid) (l : List Ptr) :
    ∀ k, (∃ c ∈ l, (s.deref c).ItemId = id) →
      ∃ i, findChildIndex s id l k = some (k + i) ∧ i < l.length ∧
        (∃ c, l[i]? = some c ∧ (s.deref c).ItemId = id) ∧
        ∀ j c, j < i → l[j]? = some c → (s.deref c).ItemId ≠ id := by
  induction l with
  | nil => intro k h; obtain ⟨c, hc, _⟩ := h; cases hc
  | cons c rest ih =>
    intro k h
    by_cases hc : (s.deref c).ItemId = id
    · refine ⟨0, by simp [findChildIndex, hc], by simp, ⟨c, by simp, hc⟩, ?_⟩
      intro j d hj
      exact absurd hj (Nat.not_lt_zero _)
    · have h2 : ∃ d ∈ rest, (s.deref d).ItemId = id := by
        obtain ⟨d, hd, hid⟩ := h
        rcases List.mem_cons.1 hd with e | hmem
        · exact absurd (e ▸ hid) hc
        · exact ⟨d, hmem, hid⟩
      obtain ⟨i, hi, hlt, hat, hbefore⟩ := ih (k + 1) h2
      refine ⟨i + 1, ?_, by simpa using hlt, by simpa using hat, ?_⟩
      · simp only [findChildIndex, hc, if_false, hi]
        congr 1
        omega
      · intro j d hj hjd
        cases j with
        | zero =>
          simp only [List.getElem?_cons_zero, Option.some.injEq] at hjd
          rw [← hjd]; exact hc
        | succ j2 =>
          simp only [List.getElem?_cons_succ] at hjd
          exact hbefore j2 d (by omega) hjd

/-- Counterexample to C4 as stated: the parent payload resolves to the Events folder, whose
child "Zebra!" has the notified id 20, but the notification carries an empty child name; the
handler stashes the id in `pendingTreeItems` and removes nothing. -/
theorem child_removed_with_empty_name_is_stashed :
    FindTreeItemFromJsonObject eventsPicker eventsJson "" = some 0 ∧
    (eventsPicker.deref 1).ItemId = 20 ∧
    ((OnWaapiChildRemoved eventsPicker
      { parent := some eventsJson,
        child := some { id := some (some 20), name := some "" } }).deref 0).Children = [1] ∧
    ((OnWaapiChildRemoved eventsPicker
      { parent := some eventsJson,
        child := some { id := some (some 20), name := some "" } }).deref 0).ChildCountInWwise = 1 ∧
    (OnWaapiChildRemoved eventsPicker
      { parent := some eventsJson,
        child := some { id := some (some 20), name := some "" } }).pendingTreeItems = [(20, 0)] := by
  decide

/-- C4 (amended): for every child-removed notification whose parent payload resolves to an
existing mirror node: if the child name of the notification is not the empty text, a child of
that parent has the notified id and `ChildCountInWwise` is at least one, then exactly one
child, the first one with that id, is removed from `Children`, `ChildCountInWwise` decreases by
exactly one, and `LastExpandedItems` loses the parent's id if the count has reached zero and is
unchanged otherwise; if no child has the notified id, then `Children`, `ChildCountInWwise` and
`LastExpandedItems` are all unchanged. -/
theorem OnWaapiChildRemoved_spec (s : SWaapiPicker) (Response : FChildResponse)
    (parentJson childJson : FJsonObject) (parent : Ptr)
    (hp : Response.parent = some parentJson) (hc : Response.child = some childJson)
    (hfind : FindTreeItemFromJsonObject s parentJson "" = some parent)
    (hexists : parent < s.items.length) :
    (childJson.name ≠ some "" →
      (∃ c ∈ (s.deref parent).Children, (s.deref c).ItemId = parseIdOr 0 childJson.id) →
      0 < (s.deref parent).ChildCountInWwise → (s.deref parent).ChildCountInWwise < 2 ^ 32 →
      ∃ i, i < (s.deref parent).Children.length ∧
        (∃ c, (s.deref parent).Children[i]? = some c ∧
          (s.deref c).ItemId = parseIdOr 0 childJson.id) ∧
        (∀ j c, j < i → (s.deref parent).Children[j]? = some c →
          (s.deref c).ItemId ≠ parseIdOr 0 childJson.id) ∧
        ((OnWaapiChildRemoved s Response).deref parent).Children =
          (s.deref parent).Children.eraseIdx i ∧
        ((OnWaapiChildRemoved s Response).deref parent).ChildCountInWwise =
          (s.deref parent).ChildCountInWwise - 1 ∧
        (((OnWaapiChildRemoved s Response).deref parent).ChildCountInWwise = 0 →
          (OnWaapiChildRemoved s Response).LastExpandedItems =
            s.LastExpandedItems.erase (s.deref parent).ItemId) ∧
        (((OnWaapiChildRemoved s Response).deref parent).ChildCountInWwise ≠ 0 →
          (OnWaapiChildRemoved s Response).LastExpandedItems = s.LastExpandedItems)) ∧
    ((∀ c ∈ (s.deref parent).Children, (s.deref c).ItemId ≠ parseIdOr 0 childJson.id) →
      ((OnWaapiChildRemoved s Response).deref parent).Children = (s.deref parent).Children ∧
      ((OnWaapiChildRemoved s Response).deref parent).ChildCountInWwise =
        (s.deref parent).ChildCountInWwise ∧
      (OnWaapiChildRemoved s Response).LastExpandedItems = s.LastExpandedItems) := by
  constructor
  · intro hname hex hpos hlt
    rw [OnWaapiChildRemoved_resolved s Response parentJson childJson parent hp hc hname hfind]
    obtain ⟨i, hi, hilt, hat, hbefore⟩ :=
      findChildIndex_some s (parseIdOr 0 childJson.id) (s.deref parent).Children 0 hex
    rw [Nat.zero_add] at hi
    refine ⟨i, hilt, hat, hbefore, ?_⟩
    have hd : (s.update parent (fun it =>
        { it with ChildCountInWwise := (it.ChildCountInWwise + 2 ^ 32 - 1) % 2 ^ 32,
                  Children := it.Children.eraseIdx i })).deref parent =
        { s.deref parent with
          ChildCountInWwise := ((s.deref parent).ChildCountInWwise + 2 ^ 32 - 1) % 2 ^ 32,
          Children := (s.deref parent).Children.eraseIdx i } :=
      deref_update_same s parent _ hexists
    have hcnt : ((s.deref parent).ChildCountInWwise + 2 ^ 32 - 1) % 2 ^ 32 =
        (s.deref parent).ChildCountInWwise - 1 := by
      omega
    simp only [removeChildAction, hi]
    by_cases hz : (s.deref parent).ChildCountInWwise - 1 = 0
    · have hle : ((s.update parent (fun it =>
          { it with ChildCountInWwise := (it.ChildCountInWwise + 2 ^ 32 - 1) % 2 ^ 32,
                    Children := it.Children.eraseIdx i })).deref parent).ChildCountInWwise ≤ 0 := by
        rw [hd]; simp only [hcnt, hz]; exact Nat.le_refl _
      rw [if_pos hle]
      refine ⟨?_, ?_, ?_, ?_⟩
      · exact (congrArg FWwiseTreeItem.Children hd)
      · exact (congrArg FWwiseTreeItem.ChildCountInWwise hd).trans hcnt
      · intro _
        show s.LastExpandedItems.erase _ = _
        rw [hd]
      · intro hne
        exact absurd ((congrArg FWwiseTreeItem.ChildCountInWwise hd).trans (hcnt.trans hz)) hne
    · have hle : ¬ ((s.update parent (fun it =>
          { it with ChildCountInWwise := (it.ChildCountInWwise + 2 ^ 32 - 1) % 2 ^ 32,
                    Children := it.Children.eraseIdx i })).deref parent).ChildCountInWwise ≤ 0 := by
        rw [hd]; simp only [hcnt]; omega
      rw [if_neg hle]
      refine ⟨congrArg FWwiseTreeItem.Children hd,
        (congrArg FWwiseTreeItem.ChildCountInWwise hd).trans hcnt, ?_, fun _ => rfl⟩
      intro h0
      exact absurd ((congrArg FWwiseTreeItem.ChildCountInWwise hd).symm.trans h0 ▸ hcnt.symm) hz
  · intro hno
    have hact : removeChildAction s parent childJson = s := by
      simp only [removeChildAction, findChildIndex_none s _ _ 0 hno]
    by_cases hname : childJson.name = some ""
    · by_cases hv : (parseIdOr 0 childJson.id).IsValid = true
      · have hst : OnWaapiChildRemoved s Response =
            { s with pendingTreeItems :=
                TMap.Add s.pendingTreeItems (parseIdOr 0 childJson.id) parent } := by
          simp [OnWaapiChildRemoved, HandleOnWaapiChildResponse, hp, hc, hname, hfind, hv]
        rw [hst]
        exact ⟨rfl, rfl, rfl⟩
      · have hst : OnWaapiChildRemoved s Response = removeChildAction s parent childJson := by
          simp [OnWaapiChildRemoved, HandleOnWaapiChildResponse, hp, hc, hname, hfind, hv]
        rw [hst, hact]
        exact ⟨rfl, rfl, rfl⟩
    · rw [OnWaapiChildRemoved_resolved s Response parentJson childJson parent hp hc hname hfind,
        hact]
      exact ⟨rfl, rfl, rfl⟩

/-- Witness of C4 (amended): the removal of the event with id 20 from the Events folder of the
sample picker takes the count from 1 to 0 and the folder out of `LastExpandedItems`; a
notification for the unknown id 99 changes nothing. -/
theorem OnWaapiChildRemoved_spec_witness :
    FindTreeItemFromJsonObject eventsPicker eventsJson "" = some 0 ∧
    ((OnWaapiChildRemoved eventsPicker
      { parent := some eventsJson,
        child := some { id := some (some 20), name := some "Zebra!" } }).deref 0).ChildCountInWwise
      = 0 ∧
    (OnWaapiChildRemoved eventsPicker
      { parent := some eventsJson,
        child := some { id := some (some 20), name := some "Zebra!" } }).LastExpandedItems
      = ({1} : Finset FGuid).erase 1 ∧
    ((OnWaapiChildRemoved eventsPicker
      { parent := some eventsJson,
        child := some { id := some (some 99), name := some "Zebra!" } }).deref 0).Children
      = [1] := by
  have h := (OnWaapiChildRemoved_spec eventsPicker
    { parent := some eventsJson,
      child := some { id := some (some 20), name := some "Zebra!" } }
    eventsJson { id := some (some 20), name := some "Zebra!" } 0 rfl rfl (by decide)
    (by decide)).1 (by decide) ⟨1, by decide, by decide⟩ (by decide) (by decide)
  obtain ⟨i, _, _, _, _, hcount, hzero, _⟩ := h
  have hc0 : ((OnWaapiChildRemoved eventsPicker
      { parent := some eventsJson,
        child := some { id := some (some 20), name := some "Zebra!" } }).deref 0).ChildCountInWwise
      = 0 := hcount
  refine ⟨by decide, hc0, hzero hc0, ?_⟩
  exact ((OnWaapiChildRemoved_spec eventsPicker
    { parent := some eventsJson,
      child := some { id := some (some 99), name := some "Zebra!" } }
    eventsJson { id := some (some 99), name := some "Zebra!" } 0 rfl rfl (by decide)
    (by decide)).2 (by decide)).1

/-! ### Path invariant -/

theorem update_of_not_lt (s : SWaapiPicker) (p : Ptr) (f : FWwiseTreeItem → FWwiseTreeItem)
    (h : ¬ p < s.items.length) : s.update p f = s := by
  simp only [SWaapiPicker.update]
  rw [List.set_eq_of_length_le (Nat.le_of_not_lt h)]

theorem path_update (s : SWaapiPicker) (p q : Ptr) (f : FWwiseTreeItem → FWwiseTreeItem)
    (hf : KeepsPath f) :
    ((s.update p f).deref q).FolderPath = (s.deref q).FolderPath ∧
    ((s.update p f).deref q).DisplayName = (s.deref q).DisplayName := by
  by_cases hq : q = p
  · subst hq
    by_cases hlt : q < s.items.length
    · rw [deref_update_same s q f hlt]
      exact hf _
    · rw [update_of_not_lt s q f hlt]
      exact ⟨rfl, rfl⟩
  · rw [deref_update_ne s p q f hq]
    exact ⟨rfl, rfl⟩

theorem PathGood_congr (P C P1 C1 : FWwiseTreeItem) (h : PathGood P C)
    (hP : P1.FolderPath = P.FolderPath) (hC : C1.FolderPath = C.FolderPath)
    (hN : C1.DisplayName = C.DisplayName) : PathGood P1 C1 := by
  unfold PathGood at h ⊢
  rw [hP, hC, hN]
  exact h

theorem PathInvariant_congr (s t : SWaapiPicker) (h : t.items = s.items)
    (hs : PathInvariant s) : PathInvariant t := by
  intro p hp c hc
  have hd : ∀ q, t.deref q = s.deref q := deref_congr t s h
  rw [hd] at hc
  rw [h] at hp
  rw [hd, hd, h]
  exact hs p hp c hc

theorem PathInvariant_update (s : SWaapiPicker) (p : Ptr) (f : FWwiseTreeItem → FWwiseTreeItem)
    (hs : PathInvariant s) (hf : KeepsPath f)
    (hch : p < s.items.length → ∀ c ∈ (f (s.deref p)).Children,
      c ∈ (s.deref p).Children ∨ (c < s.items.length ∧ PathGood (s.deref p) (s.deref c))) :
    PathInvariant (s.update p f) := by
  intro q hq c hc
  rw [length_update] at hq ⊢
  have hgood : c < s.items.length ∧ PathGood (s.deref q) (s.deref c) := by
    by_cases hqp : q = p
    · subst hqp
      rw [deref_update_same s q f hq] at hc
      rcases hch hq c hc with hold | hnew
      · exact hs q hq c hold
      · exact hnew
    · rw [deref_update_ne s p q f hqp] at hc
      exact hs q hq c hc
  exact ⟨hgood.1, PathGood_congr _ _ _ _ hgood.2 (path_update s p q f hf).1
    (path_update s p c f hf).1 (path_update s p c f hf).2⟩

theorem PathInvariant_MakeShared (s : SWaapiPicker) (it : FWwiseTreeItem)
    (hs : PathInvariant s) (hch : it.Children = []) : PathInvariant (s.MakeShared it).2 := by
  intro q hq c hc
  rw [length_MakeShared] at hq ⊢
  by_cases hlt : q < s.items.length
  · rw [deref_MakeShared_old s it q hlt] at hc ⊢
    have h := hs q hlt c hc
    rw [deref_MakeShared_old s it c h.1]
    exact ⟨Nat.lt_succ_of_lt h.1, h.2⟩
  · have hq2 : q = s.items.length := Nat.le_antisymm (Nat.lt_succ_iff.1 hq) (Nat.le_of_not_lt hlt)
    rw [hq2, deref_MakeShared_new, hch] at hc
    cases hc

theorem Grows_refl (s : SWaapiPicker) : Grows s s :=
  ⟨Nat.le_refl _, rfl, fun _ _ => ⟨rfl, rfl⟩⟩

theorem Grows_trans (s t u : SWaapiPicker) (h1 : Grows s t) (h2 : Grows t u) : Grows s u := by
  refine ⟨Nat.le_trans h1.1 h2.1, h2.2.1.trans h1.2.1, fun q hq => ?_⟩
  have a := h1.2.2 q hq
  have b := h2.2.2 q (Nat.lt_of_lt_of_le hq h1.1)
  exact ⟨b.1.trans a.1, b.2.trans a.2⟩

theorem Grows_update (s : SWaapiPicker) (p : Ptr) (f : FWwiseTreeItem → FWwiseTreeItem)
    (hf : KeepsPath f) : Grows s (s.update p f) :=
  ⟨Nat.le_of_eq (length_update s p f).symm, rfl, fun q _ => path_update s p q f hf⟩

theorem Grows_MakeShared (s : SWaapiPicker) (it : FWwiseTreeItem) : Grows s (s.MakeShared it).2 := by
  refine ⟨?_, rfl, fun q hq => ?_⟩
  · rw [length_MakeShared]; exact Nat.le_succ _
  · rw [deref_MakeShared_old s it q hq]; exact ⟨rfl, rfl⟩

theorem Grows_of_items (s t : SWaapiPicker) (h : t.items = s.items)
    (hr : t.RootItems = s.RootItems) : Grows s t := by
  refine ⟨Nat.le_of_eq (by rw [h]), hr, fun q _ => ?_⟩
  rw [deref_congr t s h]; exact ⟨rfl, rfl⟩

theorem RootsAllocated_of_Grows (s t : SWaapiPicker) (hs : RootsAllocated s) (h : Grows s t) :
    RootsAllocated t := by
  intro r hr
  rw [h.2.1] at hr
  exact Nat.lt_of_lt_of_le (hs r hr) h.1

theorem rootPaths_of_Grows (s t : SWaapiPicker) (hs : RootsAllocated s) (h : Grows s t) :
    t.rootPaths = s.rootPaths := by
  unfold SWaapiPicker.rootPaths
  rw [h.2.1]
  apply List.map_congr_left
  intro r hr
  exact (h.2.2 r (hs r hr)).1

theorem ConstructWwiseTreeItem_cases (w : World) (s : SWaapiPicker) (js : FJsonObject) :
    ((ConstructWwiseTreeItem w s js).1 = none ∧
      (ConstructWwiseTreeItem w s js).2.items = s.items ∧
      (ConstructWwiseTreeItem w s js).2.RootItems = s.RootItems) ∨
    (∃ it : FWwiseTreeItem,
      (ConstructWwiseTreeItem w s js).1 = some s.items.length ∧
      (ConstructWwiseTreeItem w s js).2 = ({ s with guids := s.guids + 1 }.MakeShared it).2 ∧
      it.DisplayName = GetStringField js.name ∧ it.FolderPath = GetStringField js.path ∧
      it.Children = []) := by
  cases h : (ConstructWwiseTreeItem w s js).1 with
  | none =>
    left
    refine ⟨rfl, (ConstructWwiseTreeItem_none w s js h).1, ?_⟩
    unfold ConstructWwiseTreeItem at h ⊢
    cases ht : w.FromString (GetStringField js.type) with
    | none => simp [ht]
    | some t0 =>
      simp only [ht] at h ⊢
      by_cases hv : isValidPath w (GetStringField js.path) = true
      · simp only [hv, if_true] at h ⊢
        by_cases hn : GetStringField js.name = ""
        · simp [hn]
        · simp [hn, SWaapiPicker.MakeShared] at h
      · simp [hv]
  | some c =>
    right
    obtain ⟨hc, it, h2, h3, h4, _, h6, _, _⟩ := ConstructWwiseTreeItem_some w s js c h
    exact ⟨it, by rw [hc], h2, h3, h4, h6⟩

theorem ConstructWwiseTreeItem_inv (w : World) (s : SWaapiPicker) (js : FJsonObject)
    (hs : PathInvariant s) :
    PathInvariant (ConstructWwiseTreeItem w s js).2 ∧ Grows s (ConstructWwiseTreeItem w s js).2 ∧
    ∀ c, (ConstructWwiseTreeItem w s js).1 = some c →
      c = s.items.length ∧
      (ConstructWwiseTreeItem w s js).2.items.length = s.items.length + 1 ∧
      ((ConstructWwiseTreeItem w s js).2.deref c).FolderPath = GetStringField js.path ∧
      ((ConstructWwiseTreeItem w s js).2.deref c).DisplayName = GetStringField js.name ∧
      ((ConstructWwiseTreeItem w s js).2.deref c).Children = [] := by
  rcases ConstructWwiseTreeItem_cases w s js with ⟨h1, h2, h3⟩ | ⟨it, h1, h2, h3, h4, h5⟩
  · refine ⟨PathInvariant_congr s _ h2 hs, Grows_of_items s _ h2 h3, fun c hc => ?_⟩
    rw [h1] at hc
    cases hc
  · rw [h2]
    have hs1 : PathInvariant { s with guids := s.guids + 1 } := PathInvariant_congr s _ rfl hs
    refine ⟨PathInvariant_MakeShared _ it hs1 h5,
      Grows_trans s { s with guids := s.guids + 1 } _ (Grows_of_items s _ rfl rfl)
        (Grows_MakeShared _ it), fun c hc => ?_⟩
    rw [h1] at hc
    have hc2 : c = s.items.length := (Option.some.inj hc).symm
    subst hc2
    have hd : ({ s with guids := s.guids + 1 }.MakeShared it).2.deref s.items.length = it :=
      deref_MakeShared_new { s with guids := s.guids + 1 } it
    exact ⟨rfl, length_MakeShared _ it, by rw [hd, h4], by rw [hd, h3], by rw [hd, h5]⟩

theorem SortChildren_inv (w : World) (s : SWaapiPicker) (p : Ptr) (hs : PathInvariant s) :
    PathInvariant (SortChildren w s p) ∧ Grows s (SortChildren w s p) := by
  unfold SortChildren
  refine ⟨PathInvariant_update s p _ hs (fun _ => ⟨rfl, rfl⟩) (fun _ c hc => ?_),
    Grows_update s p _ (fun _ => ⟨rfl, rfl⟩)⟩
  left
  exact (sortBy_perm _ _).subset hc

theorem TreeExpansionChanged_cases (w : World) (s : SWaapiPicker) (item : Ptr) (b : Bool) :
    TreeExpansionChanged w s item b = SortChildren w s item ∨
    ((TreeExpansionChanged w s item b).items = s.items ∧
      (TreeExpansionChanged w s item b).RootItems = s.RootItems) := by
  unfold TreeExpansionChanged
  by_cases h1 : s.AllowTreeViewDelegates = true
  · right
    by_cases h2 : b = true
    · by_cases h3 : s.FilterText = "" <;> simp [h1, h2, h3]
    · simp [h1, h2]
  · by_cases h2 : b = true
    · left; simp [h1, h2]
    · right; simp [h1, h2]

theorem TreeExpansionChanged_inv (w : World) (s : SWaapiPicker) (item : Ptr) (b : Bool)
    (hs : PathInvariant s) :
    PathInvariant (TreeExpansionChanged w s item b) ∧ Grows s (TreeExpansionChanged w s item b) := by
  rcases TreeExpansionChanged_cases w s item b with h | ⟨h1, h2⟩
  · rw [h]; exact SortChildren_inv w s item hs
  · exact ⟨PathInvariant_congr s _ h1 hs, Grows_of_items s _ h1 h2⟩

theorem SetItemExpansion_inv (w : World) (s : SWaapiPicker) (item : Ptr) (hs : PathInvariant s) :
    PathInvariant (SetItemExpansion w s item) ∧ Grows s (SetItemExpansion w s item) := by
  unfold SetItemExpansion
  split
  · exact ⟨hs, Grows_refl s⟩
  · have h := TreeExpansionChanged_inv w { s with ExpandedInView := insert item s.ExpandedInView }
      item true (PathInvariant_congr s _ rfl hs)
    exact ⟨h.1, Grows_trans s _ _ (Grows_of_items s _ rfl rfl) h.2⟩

theorem foldl_inv {α : Type} (f : SWaapiPicker → α → SWaapiPicker)
    (hf : ∀ s a, PathInvariant s → PathInvariant (f s a) ∧ Grows s (f s a)) (l : List α) :
    ∀ s, PathInvariant s → PathInvariant (l.foldl f s) ∧ Grows s (l.foldl f s) := by
  induction l with
  | nil => intro s hs; exact ⟨hs, Grows_refl s⟩
  | cons a rest ih =>
    intro s hs
    have h1 := hf s a hs
    have h2 := ih (f s a) h1.1
    exact ⟨h2.1, Grows_trans _ _ _ h1.2 h2.2⟩

theorem ExpandFirstLevel_inv (w : World) (s : SWaapiPicker) (hs : PathInvariant s) :
    PathInvariant (ExpandFirstLevel w s) ∧ Grows s (ExpandFirstLevel w s) :=
  foldl_inv _ (fun t r ht => SetItemExpansion_inv w t r ht) s.RootItems s hs

theorem foldlM_inv {α : Type} (f : SWaapiPicker → α → Option SWaapiPicker)
    (hf : ∀ s a t, f s a = some t → PathInvariant s → PathInvariant t ∧ Grows s t) (l : List α) :
    ∀ s t, l.foldlM f s = some t → PathInvariant s → PathInvariant t ∧ Grows s t := by
  induction l with
  | nil =>
    intro s t h hs
    simp only [List.foldlM, pure, Option.some.injEq] at h
    subst h
    exact ⟨hs, Grows_refl s⟩
  | cons a rest ih =>
    intro s t h hs
    simp only [List.foldlM, bind, Option.bind] at h
    cases h1 : f s a with
    | none => simp [h1] at h
    | some s1 =>
      simp only [h1] at h
      have a1 := hf s a s1 h1 hs
      have a2 := ih s1 t h a1.1
      exact ⟨a2.1, Grows_trans _ _ _ a1.2 a2.2⟩

theorem RestoreTreeExpansion_inv (w : World) :
    ∀ fuel Items s t, RestoreTreeExpansion w fuel Items s = some t → PathInvariant s →
      PathInvariant t ∧ Grows s t := by
  intro fuel
  induction fuel with
  | zero => intro Items s t h; simp [RestoreTreeExpansion] at h
  | succ k ih =>
    intro Items s t h hs
    simp only [RestoreTreeExpansion] at h
    refine foldlM_inv _ ?_ Items s t h hs
    intro acc item u hu hacc
    by_cases hm : (acc.deref item).ItemId ∈ acc.LastExpandedItems
    · simp only [hm, if_true] at hu
      have a1 := SetItemExpansion_inv w acc item hacc
      have a2 := ih _ _ _ hu a1.1
      exact ⟨a2.1, Grows_trans _ _ _ a1.2 a2.2⟩
    · simp only [hm, if_false] at hu
      exact ih _ _ _ hu hacc

theorem GetChildrenForTree_inv (w : World) (s : SWaapiPicker) (item : Ptr)
    (hs : PathInvariant s) :
    PathInvariant (GetChildrenForTree w s item).2 ∧ Grows s (GetChildrenForTree w s item).2 := by
  unfold GetChildrenForTree
  simp only []
  by_cases h1 : (s.deref item).ChildCountInWwise = 0
  · simp only [h1, if_true]
    exact ⟨PathInvariant_congr s _ rfl hs, Grows_of_items s _ rfl rfl⟩
  · simp only [h1, if_false]
    by_cases h2 : s.FilterText = ""
    · simp only [h2, if_true]
      by_cases h3 : (s.deref item).ItemId ∈ s.LastExpandedItems
      · simp only [h3, not_true_eq_false, if_false]
        exact SetItemExpansion_inv w s item hs
      · simp only [h3, not_false_eq_true, if_true]
        -- the children are emptied, the placeholder is allocated and added
        have a1 : PathInvariant (s.update item (fun it => { it with Children := [] })) :=
          PathInvariant_update s item _ hs (fun _ => ⟨rfl, rfl⟩)
            (fun _ c hc => (List.not_mem_nil c hc).elim)
        have g1 := Grows_update s item (fun it => { it with Children := [] }) (fun _ => ⟨rfl, rfl⟩)
        generalize s.update item (fun it => { it with Children := [] }) = s2 at a1 g1 ⊢
        have a2 : PathInvariant { s2 with guids := s2.guids + 1 } := PathInvariant_congr s2 _ rfl a1
        have g2 : Grows s2 { s2 with guids := s2.guids + 1 } := Grows_of_items s2 _ rfl rfl
        obtain ⟨ph, hph⟩ : ∃ ph : FWwiseTreeItem, ph =
          { DisplayName := NAME, FolderPath := PATH, Parent := none,
            ItemType := EWwiseItemType.PhysicalFolder, ItemId := w.NewGuid s2.guids } := ⟨_, rfl⟩
        rw [← hph]
        have hphc : ph.Children = [] := by rw [hph]
        have hphp : ph.FolderPath = PATH ∧ ph.DisplayName = NAME := by rw [hph]; exact ⟨rfl, rfl⟩
        clear hph
        have a3 := PathInvariant_MakeShared { s2 with guids := s2.guids + 1 } ph a2 hphc
        have g3 := Grows_MakeShared { s2 with guids := s2.guids + 1 } ph
        have hnew : ({ s2 with guids := s2.guids + 1 }.MakeShared ph).2.deref
            ({ s2 with guids := s2.guids + 1 }.MakeShared ph).1 = ph :=
          deref_MakeShared_new { s2 with guids := s2.guids + 1 } ph
        have hlen : ({ s2 with guids := s2.guids + 1 }.MakeShared ph).1 <
            ({ s2 with guids := s2.guids + 1 }.MakeShared ph).2.items.length := by
          rw [length_MakeShared]; exact Nat.lt_succ_self _
        generalize ({ s2 with guids := s2.guids + 1 }.MakeShared ph) = r at a3 g3 hnew hlen ⊢
        refine ⟨PathInvariant_update r.2 item _ a3 (fun _ => ⟨rfl, rfl⟩) ?_,
          Grows_trans _ _ _ g1 (Grows_trans _ _ _ g2 (Grows_trans _ _ _ g3
            (Grows_update r.2 item _ (fun _ => ⟨rfl, rfl⟩))))⟩
        intro _ c hc
        rcases List.mem_append.1 hc with hold | hnew2
        · exact Or.inl hold
        · right
          have hc2 : c = r.1 := by simpa using hnew2
          rw [hc2]
          refine ⟨hlen, Or.inl ?_⟩
          rw [hnew]
          exact hphp
    · simp only [h2, if_false]
      exact ⟨hs, Grows_refl s⟩

theorem removeChildAction_inv (s : SWaapiPicker) (parent : Ptr) (childJson : FJsonObject)
    (hs : PathInvariant s) :
    PathInvariant (removeChildAction s parent childJson) ∧
    Grows s (removeChildAction s parent childJson) := by
  unfold removeChildAction
  simp only []
  cases findChildIndex s (parseIdOr 0 childJson.id) (s.deref parent).Children 0 with
  | none => exact ⟨hs, Grows_refl s⟩
  | some i =>
    simp only []
    have a1 : PathInvariant (s.update parent (fun it =>
        { it with ChildCountInWwise := (it.ChildCountInWwise + 2 ^ 32 - 1) % 2 ^ 32,
                  Children := it.Children.eraseIdx i })) :=
      PathInvariant_update s parent _ hs (fun _ => ⟨rfl, rfl⟩)
        (fun _ c hc => Or.inl ((List.eraseIdx_sublist _ _).subset hc))
    have g1 := Grows_update s parent (fun it =>
        { it with ChildCountInWwise := (it.ChildCountInWwise + 2 ^ 32 - 1) % 2 ^ 32,
                  Children := it.Children.eraseIdx i }) (fun _ => ⟨rfl, rfl⟩)
    split
    · exact ⟨PathInvariant_congr _ _ rfl a1, Grows_trans _ _ _ g1 (Grows_of_items _ _ rfl rfl)⟩
    · exact ⟨a1, g1⟩

theorem attach_inv (s : SWaapiPicker) (parent c : Ptr) (hs : PathInvariant s)
    (hc : c < s.items.length)
    (hgood : parent < s.items.length → PathGood (s.deref parent) (s.deref c)) :
    PathInvariant (s.update parent (fun it => { it with Children := it.Children ++ [c] })) ∧
    Grows s (s.update parent (fun it => { it with Children := it.Children ++ [c] })) := by
  refine ⟨PathInvariant_update s parent _ hs (fun _ => ⟨rfl, rfl⟩) ?_,
    Grows_update s parent _ (fun _ => ⟨rfl, rfl⟩)⟩
  intro hlt d hd
  rcases List.mem_append.1 hd with hold | hnew
  · exact Or.inl hold
  · have hd2 : d = c := by simpa using hnew
    rw [hd2]
    exact Or.inr ⟨hc, hgood hlt⟩

theorem setParent_inv (s : SWaapiPicker) (c : Ptr) (x : Option Ptr) (hs : PathInvariant s) :
    PathInvariant (s.update c (fun it => { it with Parent := x })) ∧
    Grows s (s.update c (fun it => { it with Parent := x })) :=
  ⟨PathInvariant_update s c _ hs (fun _ => ⟨rfl, rfl⟩) (fun _ _ hd => Or.inl hd),
    Grows_update s c _ (fun _ => ⟨rfl, rfl⟩)⟩

theorem CreateTreeItemWaapi_inv (w : World) (s : SWaapiPicker) (parent : Ptr)
    (childJson : FJsonObject) (hs : PathInvariant s) (hp : parent < s.items.length)
    (hpath : GetStringField childJson.path =
      (s.deref parent).FolderPath ++ BACK_SLASH ++ GetStringField childJson.name) :
    PathInvariant (CreateTreeItemWaapi w s (some parent) childJson) ∧
    Grows s (CreateTreeItemWaapi w s (some parent) childJson) := by
  obtain ⟨a0, g0, hnew⟩ := ConstructWwiseTreeItem_inv w s childJson hs
  unfold CreateTreeItemWaapi
  simp only []
  cases hc : (ConstructWwiseTreeItem w s childJson).1 with
  | none => exact ⟨a0, g0⟩
  | some c =>
    simp only []
    obtain ⟨hc1, hlen, hF, hN, _⟩ := hnew c hc
    generalize (ConstructWwiseTreeItem w s childJson).2 = s0 at a0 g0 hlen hF hN ⊢
    have hc0 : c < s0.items.length := by rw [hlen, hc1]; exact Nat.lt_succ_self _
    have hp0 : parent < s0.items.length := Nat.lt_of_lt_of_le hp g0.1
    obtain ⟨a1, g1⟩ := setParent_inv s0 c (some parent) a0
    generalize s0.update c (fun it => { it with Parent := some parent }) = s1 at a1 g1 ⊢
    have hc1l : c < s1.items.length := Nat.lt_of_lt_of_le hc0 g1.1
    have hgood : PathGood (s1.deref parent) (s1.deref c) := by
      right
      rw [(g1.2.2 c hc0).1, (g1.2.2 c hc0).2, (g1.2.2 parent hp0).1, (g0.2.2 parent hp).1, hF, hN]
      exact hpath
    obtain ⟨a2, g2⟩ := attach_inv s1 parent c a1 hc1l (fun _ => hgood)
    generalize s1.update parent (fun it => { it with Children := it.Children ++ [c] }) = s2
      at a2 g2 ⊢
    obtain ⟨a3, g3⟩ := SortChildren_inv w s2 parent a2
    generalize SortChildren w s2 parent = s3 at a3 g3 ⊢
    have a4 : PathInvariant (s3.update parent
        (fun it => { it with ChildCountInWwise := (it.ChildCountInWwise + 1) % 2 ^ 32 })) :=
      PathInvariant_update s3 parent _ a3 (fun _ => ⟨rfl, rfl⟩) (fun _ _ hd => Or.inl hd)
    have g4 := Grows_update s3 parent
        (fun it => { it with ChildCountInWwise := (it.ChildCountInWwise + 1) % 2 ^ 32 })
        (fun _ => ⟨rfl, rfl⟩)
    have g04 := Grows_trans _ _ _ g0 (Grows_trans _ _ _ g1 (Grows_trans _ _ _ g2
      (Grows_trans _ _ _ g3 g4)))
    split
    · exact ⟨PathInvariant_congr _ _ rfl a4, Grows_trans _ _ _ g04 (Grows_of_items _ _ rfl rfl)⟩
    · exact ⟨a4, g04⟩

theorem scanLevel_allocated (s : SWaapiPicker) (id : FGuid) (folderPath : String) (n : Nat) :
    ∀ (children : List Ptr) (acc : Option Ptr), (∀ c ∈ children, c < n) →
      (∀ a, acc = some a → a < n) →
      (∀ item, scanLevel s id folderPath children acc = .error item → item < n) ∧
      (∀ t, scanLevel s id folderPath children acc = .ok (some t) → t < n) := by
  intro children
  induction children with
  | nil =>
    intro acc _ hacc
    refine ⟨fun item h => ?_, fun t h => ?_⟩
    · simp [scanLevel] at h
    · simp only [scanLevel, Except.ok.injEq] at h
      exact hacc t h
  | cons c rest ih =>
    intro acc hch hacc
    have hc : c < n := hch c (List.mem_cons_self _ _)
    have hrest : ∀ d ∈ rest, d < n := fun d hd => hch d (List.mem_cons_of_mem _ hd)
    unfold scanLevel
    by_cases h1 : (s.deref c).ItemId = id
    · simp only [h1, if_true]
      refine ⟨fun item h => ?_, fun t h => ?_⟩
      · simp only [Except.error.injEq] at h
        rw [← h]; exact hc
      · simp at h
    · simp only [h1, if_false]
      by_cases h2 : (s.deref c).FolderPath = folderPath
      · simp only [h2, if_true]
        exact ih (some c) hrest (fun a ha => by rw [← Option.some.inj ha]; exact hc)
      · simp only [h2, if_false]
        exact ih acc hrest hacc

theorem walkParts_allocated (s : SWaapiPicker) (id : FGuid) (hs : PathInvariant s) :
    ∀ (parts : List String) (treeItem : Option Ptr) (children : List Ptr) (folderPath : String)
      (p : Ptr), (∀ c ∈ children, c < s.items.length) →
      (∀ t, treeItem = some t → t < s.items.length) →
      walkParts s id parts treeItem children folderPath = some p → p < s.items.length := by
  intro parts
  induction parts with
  | nil =>
    intro treeItem children folderPath p _ ht h
    cases treeItem with
    | none => simp [walkParts] at h
    | some t =>
      simp only [walkParts] at h
      by_cases hid : (s.deref t).ItemId = id
      · simp only [hid, ne_eq, not_true_eq_false, if_false, Option.some.injEq] at h
        rw [← h]; exact ht t rfl
      · simp [hid] at h
  | cons part rest ih =>
    intro treeItem children folderPath p hch _ h
    simp only [walkParts] at h
    have hscan := scanLevel_allocated s id (folderPath ++ BACK_SLASH ++ part) s.items.length
      children none hch (fun a ha => by cases ha)
    cases hsc : scanLevel s id (folderPath ++ BACK_SLASH ++ part) children none with
    | error item =>
      simp only [hsc, Option.some.injEq] at h
      rw [← h]; exact hscan.1 item hsc
    | ok r =>
      cases r with
      | none => simp [hsc] at h
      | some t =>
        simp only [hsc] at h
        have ht : t < s.items.length := hscan.2 t hsc
        exact ih (some t) (s.deref t).Children _ p (fun c hc => (hs t ht c hc).1)
          (fun u hu => by rw [← Option.some.inj hu]; exact ht) h

theorem FindTreeItemFromJsonObject_allocated (s : SWaapiPicker) (js : FJsonObject)
    (over : String) (p : Ptr) (hs : PathInvariant s) (hr : RootsAllocated s)
    (h : FindTreeItemFromJsonObject s js over = some p) : p < s.items.length := by
  unfold FindTreeItemFromJsonObject at h
  cases hpath : js.path with
  | none => simp [hpath] at h
  | some objectPath =>
    cases hid : js.id with
    | none => simp [hpath, hid] at h
    | some parsed =>
      simp only [hpath, hid] at h
      by_cases he : ParseIntoArray objectPath = []
      · simp [he] at h
      · simp only [he, if_false] at h
        exact walkParts_allocated s _ hs _ none s.RootItems "" p hr (fun t ht => by cases ht) h

theorem HandleOnWaapiChildResponse_inv
    (Action : SWaapiPicker → Ptr → FJsonObject → SWaapiPicker) (s : SWaapiPicker)
    (r : FChildResponse) (hs : PathInvariant s) (hr : RootsAllocated s)
    (hA : ∀ parentJson childJson parent, r.parent = some parentJson → r.child = some childJson →
      FindTreeItemFromJsonObject s parentJson "" = some parent → parent < s.items.length →
      PathInvariant (Action s parent childJson) ∧ Grows s (Action s parent childJson)) :
    PathInvariant (HandleOnWaapiChildResponse Action s r) ∧
    Grows s (HandleOnWaapiChildResponse Action s r) := by
  unfold HandleOnWaapiChildResponse
  cases hp : r.parent with
  | none => exact ⟨hs, Grows_refl s⟩
  | some parentJson =>
    cases hc : r.child with
    | none => exact ⟨hs, Grows_refl s⟩
    | some childJson =>
      simp only []
      cases hf : FindTreeItemFromJsonObject s parentJson "" with
      | none =>
        have : (if childJson.name = some "" then (none : Option SWaapiPicker) else none) = none := by
          split <;> rfl
        simp only [this]
        exact ⟨hs, Grows_refl s⟩
      | some parent =>
        have hal := FindTreeItemFromJsonObject_allocated s parentJson "" parent hs hr hf
        simp only []
        by_cases hn : childJson.name = some ""
        · by_cases hv : (parseIdOr 0 childJson.id).IsValid = true
          · simp only [hn, hv, if_true]
            exact ⟨PathInvariant_congr s _ rfl hs, Grows_of_items s _ rfl rfl⟩
          · simp only [hn, hv, if_true, if_false]
            exact hA parentJson childJson parent hp hc hf hal
        · simp only [hn, if_false]
          exact hA parentJson childJson parent hp hc hf hal

theorem OnWaapiChildAdded_inv (w : World) (s : SWaapiPicker) (r : FChildResponse)
    (hs : PathInvariant s) (hr : RootsAllocated s)
    (hcons : MirrorEvent.Consistent w s (.childAdded r)) :
    PathInvariant (OnWaapiChildAdded w s r) ∧ Grows s (OnWaapiChildAdded w s r) := by
  unfold OnWaapiChildAdded
  refine HandleOnWaapiChildResponse_inv _ s r hs hr ?_
  intro parentJson childJson parent hp hc hf hal
  exact CreateTreeItemWaapi_inv w s parent childJson hs hal (hcons parentJson childJson parent hp hc hf)

theorem OnWaapiChildRemoved_inv (s : SWaapiPicker) (r : FChildResponse)
    (hs : PathInvariant s) (hr : RootsAllocated s) :
    PathInvariant (OnWaapiChildRemoved s r) ∧ Grows s (OnWaapiChildRemoved s r) := by
  unfold OnWaapiChildRemoved
  refine HandleOnWaapiChildResponse_inv _ s r hs hr ?_
  intro parentJson childJson parent _ _ _ _
  exact removeChildAction_inv s parent childJson hs

theorem addConstructedChildren_inv (w : World) (item : Ptr) (F0 : String) :
    ∀ (l : List FJsonObject) (s : SWaapiPicker), PathInvariant s → item < s.items.length →
      (s.deref item).FolderPath = F0 →
      (∀ js ∈ l, GetStringField js.path = F0 ++ BACK_SLASH ++ GetStringField js.name) →
      PathInvariant (addConstructedChildren w item l s) ∧
      Grows s (addConstructedChildren w item l s) := by
  intro l
  induction l with
  | nil => intro s hs _ _ _; exact ⟨hs, Grows_refl s⟩
  | cons js rest ih =>
    intro s hs hitem hF hall
    obtain ⟨a0, g0, hnew⟩ := ConstructWwiseTreeItem_inv w s js hs
    have hrest : ∀ j ∈ rest, GetStringField j.path = F0 ++ BACK_SLASH ++ GetStringField j.name :=
      fun j hj => hall j (List.mem_cons_of_mem _ hj)
    unfold addConstructedChildren
    simp only []
    cases hc : (ConstructWwiseTreeItem w s js).1 with
    | none =>
      simp only []
      have h := ih _ a0 (Nat.lt_of_lt_of_le hitem g0.1) ((g0.2.2 item hitem).1.trans hF) hrest
      exact ⟨h.1, Grows_trans _ _ _ g0 h.2⟩
    | some c =>
      simp only []
      obtain ⟨hc1, hlen, hFc, hNc, _⟩ := hnew c hc
      generalize (ConstructWwiseTreeItem w s js).2 = s0 at a0 g0 hlen hFc hNc ⊢
      have hc0 : c < s0.items.length := by rw [hlen, hc1]; exact Nat.lt_succ_self _
      have hi0 : item < s0.items.length := Nat.lt_of_lt_of_le hitem g0.1
      have hgood : PathGood (s0.deref item) (s0.deref c) := by
        right
        rw [hFc, hNc, (g0.2.2 item hitem).1, hF]
        exact hall js (List.mem_cons_self _ _)
      obtain ⟨a1, g1⟩ := attach_inv s0 item c a0 hc0 (fun _ => hgood)
      generalize s0.update item (fun it => { it with Children := it.Children ++ [c] }) = s1
        at a1 g1 ⊢
      obtain ⟨a2, g2⟩ := setParent_inv s1 c (some item) a1
      generalize s1.update c (fun it => { it with Parent := some item }) = s2 at a2 g2 ⊢
      have g02 := Grows_trans _ _ _ g0 (Grows_trans _ _ _ g1 g2)
      have h := ih s2 a2 (Nat.lt_of_lt_of_le hitem g02.1) ((g02.2.2 item hitem).1.trans hF) hrest
      exact ⟨h.1, Grows_trans _ _ _ g02 h.2⟩

theorem CallWaapiGetInfoFrom_items (w : World) (s : SWaapiPicker) (rq : WaapiRequest) :
    (CallWaapiGetInfoFrom w s rq).2.items = s.items ∧
    (CallWaapiGetInfoFrom w s rq).2.RootItems = s.RootItems := by
  unfold CallWaapiGetInfoFrom
  cases w.client <;> exact ⟨rfl, rfl⟩

theorem ExpansionTask_inv (w : World) (s : SWaapiPicker) (item : Ptr) (hs : PathInvariant s)
    (hitem : item < s.items.length)
    (hcons : ∀ js ∈ (CallWaapiGetInfoFrom w s (.objectGetChildren (s.deref item).ItemId)).1.ret,
      GetStringField js.path = (s.deref item).FolderPath ++ BACK_SLASH ++ GetStringField js.name) :
    PathInvariant (ExpansionTask w s item) ∧ Grows s (ExpansionTask w s item) := by
  obtain ⟨hi, hri⟩ := CallWaapiGetInfoFrom_items w s (.objectGetChildren (s.deref item).ItemId)
  have a0 := PathInvariant_congr s _ hi hs
  have g0 := Grows_of_items s _ hi hri
  unfold ExpansionTask
  simp only []
  generalize CallWaapiGetInfoFrom w s (.objectGetChildren (s.deref item).ItemId) = r
    at hcons a0 g0 ⊢
  split
  · exact ⟨a0, g0⟩
  · split
    · have a1 : PathInvariant (r.2.update item (fun it => { it with Children := [] })) :=
        PathInvariant_update r.2 item _ a0 (fun _ => ⟨rfl, rfl⟩)
          (fun _ c hc => (List.not_mem_nil c hc).elim)
      have g1 := Grows_update r.2 item (fun it => { it with Children := [] }) (fun _ => ⟨rfl, rfl⟩)
      generalize r.2.update item (fun it => { it with Children := [] }) = s1 at a1 g1 ⊢
      have g01 := Grows_trans _ _ _ g0 g1
      obtain ⟨a2, g2⟩ := addConstructedChildren_inv w item (s.deref item).FolderPath r.1.ret s1 a1
        (Nat.lt_of_lt_of_le hitem g01.1) (g01.2.2 item hitem).1 hcons
      obtain ⟨a3, g3⟩ := SortChildren_inv w _ item a2
      exact ⟨a3, Grows_trans _ _ _ g01 (Grows_trans _ _ _ g2 g3)⟩
    · exact ⟨a0, g0⟩

theorem populateTask_inv (w : World) :
    ∀ (cats : List EWwiseItemType) (s t : SWaapiPicker), populateTask w cats s = some t →
      PathInvariant s → RootsAllocated s → PathInvariant t ∧ RootsAllocated t := by
  intro cats
  induction cats with
  | nil =>
    intro s t h hs hr
    simp only [populateTask, Option.some.injEq] at h
    subst h
    exact ⟨hs, hr⟩
  | cons cat rest ih =>
    intro s t h hs hr
    unfold populateTask at h
    simp only [] at h
    obtain ⟨hi, hri⟩ := CallWaapiGetInfoFrom_items w { s with guids := s.guids + 1 }
      (.objectGetPath (BACK_SLASH ++ w.FolderNames cat))
    generalize CallWaapiGetInfoFrom w { s with guids := s.guids + 1 }
      (.objectGetPath (BACK_SLASH ++ w.FolderNames cat)) = r at h hi hri
    have a0 : PathInvariant r.2 := PathInvariant_congr s _ hi hs
    have r0 : RootsAllocated r.2 := by
      intro x hx
      rw [hri] at hx
      rw [hi]
      exact hr x hx
    by_cases hsucc : r.1.success = true
    · simp only [hsucc, if_true] at h
      cases hret : r.1.ret with
      | nil => simp [hret] at h
      | cons ItemInfoObj others =>
        simp only [hret] at h
        refine ih _ t h ?_ ?_
        · exact PathInvariant_congr _ _ rfl (PathInvariant_MakeShared r.2 _ a0 rfl)
        · intro x hx
          have hlen : (r.2.MakeShared
              { DisplayName := w.ItemNames cat, FolderPath := GetStringField ItemInfoObj.path,
                Parent := none, ItemType := EWwiseItemType.PhysicalFolder,
                ItemId := parseIdOr (w.NewGuid s.guids) ItemInfoObj.id,
                ChildCountInWwise := ItemInfoObj.childrenCount.getD 0 % 2 ^ 32 }).2.items.length
              = r.2.items.length + 1 := length_MakeShared _ _
          show x < _
          rw [hlen]
          rcases List.mem_append.1 hx with hold | hnew
          · exact Nat.lt_succ_of_lt (r0 x hold)
          · have hx2 : x = r.2.items.length := by simpa [SWaapiPicker.MakeShared] using hnew
            rw [hx2]; exact Nat.lt_succ_self _
    · simp only [hsucc] at h
      simp only [Bool.false_eq_true, if_false, Option.some.injEq] at h
      subst h
      exact ⟨PathInvariant_congr r.2 _ rfl a0, r0⟩

/-! ### Path invariant: the filter overlay -/

theorem attachWithParent_inv (s : SWaapiPicker) (cur P : Ptr) (x : Option Ptr)
    (hs : PathInvariant s) (hcur : cur < s.items.length)
    (hgood : P < s.items.length → PathGood (s.deref P) (s.deref cur)) :
    PathInvariant ((s.update cur (fun it => { it with Parent := x })).update P
      (fun it => { it with Children := it.Children ++ [cur] })) ∧
    Grows s ((s.update cur (fun it => { it with Parent := x })).update P
      (fun it => { it with Children := it.Children ++ [cur] })) := by
  obtain ⟨a1, g1⟩ := setParent_inv s cur x hs
  have hp := fun q => path_update s cur q (fun it => { it with Parent := x }) (fun _ => ⟨rfl, rfl⟩)
  have hl := length_update s cur (fun it => { it with Parent := x })
  generalize s.update cur (fun it => { it with Parent := x }) = s1 at a1 g1 hp hl ⊢
  obtain ⟨a2, g2⟩ := attach_inv s1 P cur a1 (by rw [hl]; exact hcur)
    (fun hlt => PathGood_congr _ _ _ _ (hgood (by rw [← hl]; exact hlt)) (hp P).1 (hp cur).1 (hp cur).2)
  exact ⟨a2, Grows_trans _ _ _ g1 g2⟩

theorem followNames_path (s : SWaapiPicker) (hs : PathInvariant s) :
    ∀ (names : List String) (R P : Ptr), R < s.items.length →
      (∀ n ∈ names, n ≠ NAME) → followNames s R names = some P →
      P < s.items.length ∧ (s.deref P).FolderPath = (s.deref R).FolderPath ++ joinPath names := by
  intro names
  induction names with
  | nil =>
    intro R P hR _ h
    simp only [followNames, Option.some.injEq] at h
    subst h
    exact ⟨hR, by simp [joinPath]⟩
  | cons n rest ih =>
    intro R P hR hne h
    simp only [followNames] at h
    cases hg : GetChild s R n with
    | none => simp [hg] at h
    | some c =>
      simp only [hg] at h
      unfold GetChild at hg
      have hmem : c ∈ (s.deref R).Children := List.mem_of_find?_eq_some hg
      have hname : (s.deref c).DisplayName = n := by
        have := List.find?_some hg
        simpa using this
      obtain ⟨hc, hgood⟩ := hs R hR c hmem
      have hFc : (s.deref c).FolderPath = (s.deref R).FolderPath ++ BACK_SLASH ++ n := by
        rcases hgood with ⟨_, hph⟩ | hok
        · exact absurd (hname.symm.trans hph) (hne n (List.mem_cons_self _ _))
        · rw [hok, hname]
      obtain ⟨hP, hFP⟩ := ih c P hc (fun m hm => hne m (List.mem_cons_of_mem _ hm)) h
      refine ⟨hP, ?_⟩
      rw [hFP, hFc]
      simp only [joinPath, String.append_assoc]

theorem getRootItemFrom_some (s : SWaapiPicker) (F : String) (R : Ptr) :
    ∀ idxs : List Nat, getRootItemFrom s F idxs = some (some R) →
      R ∈ s.RootItems ∧ StartsWith F (s.deref R).FolderPath = true := by
  intro idxs
  induction idxs with
  | nil => intro h; simp [getRootItemFrom] at h
  | cons i rest ih =>
    intro h
    simp only [getRootItemFrom] at h
    cases hi : s.RootItems[i]? with
    | none => simp [hi] at h
    | some root =>
      simp only [hi] at h
      by_cases hst : StartsWith F (s.deref root).FolderPath = true
      · simp only [hst, if_true, Option.some.injEq] at h
        subst h
        exact ⟨List.getElem?_mem hi, hst⟩
      · simp only [hst] at h
        exact ih h

theorem FindAndCreateItems_inv (w : World) (rp : List String) (hG : FilterRemoteOK w rp) :
    ∀ (fuel : Nat) (s0 : SWaapiPicker) (cur : Ptr) (t : SWaapiPicker),
      FindAndCreateItems w fuel s0 cur = some t → PathInvariant s0 → RootsAllocated s0 →
      s0.rootPaths = rp → cur < s0.items.length →
      PathNameOK rp (s0.deref cur).FolderPath (s0.deref cur).DisplayName →
      PathInvariant t ∧ Grows s0 t := by
  intro fuel
  induction fuel with
  | zero => intro s0 cur t h; simp [FindAndCreateItems] at h
  | succ k ih =>
    intro s0 cur t h hs0 hr0 hrp0 hcur0 hok0
    simp only [FindAndCreateItems] at h
    -- the state with the id of the current item recorded as expanded
    obtain ⟨s, hsdef⟩ : ∃ s : SWaapiPicker, s = { s0 with
        LastExpandedItems := insert (s0.deref cur).ItemId s0.LastExpandedItems } := ⟨_, rfl⟩
    rw [← hsdef] at h
    have hitems : s.items = s0.items := by rw [hsdef]
    have hroots : s.RootItems = s0.RootItems := by rw [hsdef]
    have g0 : Grows s0 s := Grows_of_items s0 s hitems hroots
    have hs : PathInvariant s := PathInvariant_congr s0 s hitems hs0
    have hr : RootsAllocated s := RootsAllocated_of_Grows s0 s hr0 g0
    have hrp : s.rootPaths = rp := (rootPaths_of_Grows s0 s hr0 g0).trans hrp0
    have hcur : cur < s.items.length := by rw [hitems]; exact hcur0
    have hok : PathNameOK rp (s.deref cur).FolderPath (s.deref cur).DisplayName := by
      rw [deref_congr s s0 hitems]; exact hok0
    clear hsdef hitems hroots hs0 hr0 hrp0 hcur0 hok0
    suffices hmain : PathInvariant t ∧ Grows s t from ⟨hmain.1, Grows_trans _ _ _ g0 hmain.2⟩
    clear g0
    obtain ⟨hG1, hG2, hG3, hG4⟩ := hok
    cases hroot : GetRootItem s (s.deref cur).FolderPath with
    | none => simp [hroot] at h
    | some ro =>
      cases ro with
      | none => simp [hroot] at h
      | some R =>
        simp only [hroot] at h
        obtain ⟨hRmem, hRstart⟩ := getRootItemFrom_some s _ R _ hroot
        have hRlt : R < s.items.length := hr R hRmem
        have hRrp : (s.deref R).FolderPath ∈ rp := by
          rw [← hrp]
          exact List.mem_map_of_mem _ hRmem
        by_cases hFR : (s.deref cur).FolderPath = (s.deref R).FolderPath
        · simp only [hFR, if_true, Option.some.injEq] at h
          subst h
          exact ⟨hs, Grows_refl s⟩
        · simp only [hFR, if_false] at h
          by_cases hLR : RemoveFromEnd (s.deref cur).FolderPath
              (BACK_SLASH ++ (s.deref cur).DisplayName) = (s.deref R).FolderPath
          · simp only [hLR, if_true, Option.some.injEq] at h
            subst h
            refine attachWithParent_inv s cur R _ hs hcur (fun _ => Or.inr ?_)
            rw [← hLR]
            exact hG1
          · simp only [hLR, if_false] at h
            cases hfind : FindItemFromPath s R (RemoveFromEnd (s.deref cur).FolderPath
                (BACK_SLASH ++ (s.deref cur).DisplayName)) with
            | some P =>
              simp only [hfind, Option.some.injEq] at h
              subst h
              refine attachWithParent_inv s cur P _ hs hcur (fun _ => Or.inr ?_)
              -- the item found by display names lies at the path `L`
              have hseg := hG4 _ hRrp hRstart hFR hLR
              unfold FindItemFromPath at hfind
              cases hparse : ParseIntoArray (RemoveFromEnd (s.deref cur).FolderPath
                  (BACK_SLASH ++ (s.deref cur).DisplayName)) with
              | nil => rw [hparse] at hseg; simp at hseg
              | cons seg1 rest =>
                rw [hparse] at hseg hfind hG2 hG3
                simp only [List.head?_cons, Option.map_some', Option.some.injEq] at hseg
                have hRseg : (s.deref R).FolderPath = BACK_SLASH ++ seg1 := hseg.symm
                simp only [List.drop_succ_cons, List.drop_zero] at hfind
                obtain ⟨_, hFP⟩ := followNames_path s hs rest R P hRlt
                  (fun n hn => hG3 n (List.mem_cons_of_mem _ hn)) hfind
                have hL : RemoveFromEnd (s.deref cur).FolderPath
                    (BACK_SLASH ++ (s.deref cur).DisplayName) = (s.deref P).FolderPath := by
                  rw [hFP, hRseg, hG2]
                  simp only [joinPath]
                rw [← hL]
                exact hG1
            | none =>
              simp only [hfind] at h
              cases hcl : w.client with
              | none => 
                simp only [CallWaapiGetInfoFrom, hcl] at h
                simp only [Bool.false_eq_true, if_false, Option.some.injEq] at h
                subst h
                exact ⟨hs, Grows_refl s⟩
              | some c =>
                simp only [CallWaapiGetInfoFrom, hcl, FAkWaapiClient.send] at h
                by_cases hsucc : (c.respond s.sent (.objectGetPath (RemoveFromEnd
                    (s.deref cur).FolderPath (BACK_SLASH ++ (s.deref cur).DisplayName)))).success
                    = true
                · simp only [hsucc, if_true] at h
                  cases hret : (c.respond s.sent (.objectGetPath (RemoveFromEnd
                    (s.deref cur).FolderPath (BACK_SLASH ++ (s.deref cur).DisplayName)))).ret with
                  | nil => simp [hret] at h
                  | cons first others =>
                    simp only [hret] at h
                    have hfirst := hG c hcl s.sent _ first (by rw [hret]; exact List.mem_cons_self _ _)
                    have hpathL := hfirst.2 _ rfl
                    -- the state after the request
                    obtain ⟨s1, hs1def⟩ : ∃ s1 : SWaapiPicker, s1 = { s with
                        sent := s.sent ++ [.objectGetPath (RemoveFromEnd (s.deref cur).FolderPath
                          (BACK_SLASH ++ (s.deref cur).DisplayName))] } := ⟨_, rfl⟩
                    rw [← hs1def] at h
                    have g1 : Grows s s1 := by rw [hs1def]; exact Grows_of_items s _ rfl rfl
                    have a1 : PathInvariant s1 := by
                      rw [hs1def]; exact PathInvariant_congr s _ rfl hs
                    clear hs1def
                    obtain ⟨a2, g2, hnew⟩ := ConstructWwiseTreeItem_inv w s1 first a1
                    cases hc1 : (ConstructWwiseTreeItem w s1 first).1 with
                    | none => simp [hc1] at h
                    | some NewRootItem =>
                      simp only [hc1] at h
                      obtain ⟨hn1, hlen, hFn, hNn, _⟩ := hnew NewRootItem hc1
                      generalize (ConstructWwiseTreeItem w s1 first).2 = s2 at a2 g2 hlen hFn hNn h
                      have g02 := Grows_trans _ _ _ g1 g2
                      have hcur2 : cur < s2.items.length := Nat.lt_of_lt_of_le hcur g02.1
                      have hnew2 : NewRootItem < s2.items.length := by
                        rw [hlen, hn1]; exact Nat.lt_succ_self _
                      have hgood : PathGood (s2.deref NewRootItem) (s2.deref cur) := by
                        right
                        rw [(g02.2.2 cur hcur).1, (g02.2.2 cur hcur).2, hFn, hpathL]
                        exact hG1
                      obtain ⟨a3, g3⟩ := attachWithParent_inv s2 cur NewRootItem (some NewRootItem)
                        a2 hcur2 (fun _ => hgood)
                      generalize (s2.update cur (fun it => { it with Parent := some NewRootItem })).update
                        NewRootItem (fun it => { it with Children := it.Children ++ [cur] }) = s3
                        at a3 g3 h
                      have g03 := Grows_trans _ _ _ g02 g3
                      have hr3 : RootsAllocated s3 := RootsAllocated_of_Grows s s3 hr g03
                      have hrp3 : s3.rootPaths = rp := (rootPaths_of_Grows s s3 hr g03).trans hrp
                      have hok3 : PathNameOK rp (s3.deref NewRootItem).FolderPath
                          (s3.deref NewRootItem).DisplayName := by
                        rw [(g3.2.2 NewRootItem hnew2).1, (g3.2.2 NewRootItem hnew2).2, hFn, hNn]
                        exact hfirst.1
                      have hrec := ih s3 NewRootItem t h a3 hr3 hrp3
                        (Nat.lt_of_lt_of_le hnew2 g3.1) hok3
                      exact ⟨hrec.1, Grows_trans _ _ _ g03 hrec.2⟩
                · simp only [hsucc] at h
                  simp only [Bool.false_eq_true, if_false, Option.some.injEq] at h
                  subst h
                  exact ⟨PathInvariant_congr s _ rfl hs, Grows_of_items s _ rfl rfl⟩

theorem searchResultLoop_inv (w : World) (fuel : Nat) (rp : List String)
    (hG : FilterRemoteOK w rp) :
    ∀ (l : List FJsonObject) (s t : SWaapiPicker), (∀ js ∈ l, HitOK rp js) →
      searchResultLoop w fuel l s = some t → PathInvariant s → RootsAllocated s →
      s.rootPaths = rp → PathInvariant t ∧ Grows s t := by
  intro l
  induction l with
  | nil =>
    intro s t _ h hs _ _
    simp only [searchResultLoop, Option.some.injEq] at h
    subst h
    exact ⟨hs, Grows_refl s⟩
  | cons js rest ih =>
    intro s t hall h hs hr hrp
    have hrest : ∀ j ∈ rest, HitOK rp j := fun j hj => hall j (List.mem_cons_of_mem _ hj)
    obtain ⟨a0, g0, hnew⟩ := ConstructWwiseTreeItem_inv w s js hs
    have hr0 := RootsAllocated_of_Grows _ _ hr g0
    have hrp0 := (rootPaths_of_Grows _ _ hr g0).trans hrp
    simp only [searchResultLoop] at h
    cases hc : (ConstructWwiseTreeItem w s js).1 with
    | none =>
      simp only [hc] at h
      have hrec := ih _ t hrest h a0 hr0 hrp0
      exact ⟨hrec.1, Grows_trans _ _ _ g0 hrec.2⟩
    | some c =>
      simp only [hc] at h
      obtain ⟨hc1, hlen, hFc, hNc, _⟩ := hnew c hc
      cases hf : FindAndCreateItems w fuel (ConstructWwiseTreeItem w s js).2 c with
      | none => simp [hf] at h
      | some s1 =>
        simp only [hf] at h
        have hok : PathNameOK rp ((ConstructWwiseTreeItem w s js).2.deref c).FolderPath
            ((ConstructWwiseTreeItem w s js).2.deref c).DisplayName := by
          rw [hFc, hNc]
          exact hall js (List.mem_cons_self _ _)
        obtain ⟨a1, g1⟩ := FindAndCreateItems_inv w rp hG fuel _ c s1 hf a0 hr0 hrp0
          (by rw [hlen, hc1]; exact Nat.lt_succ_self _) hok
        have g01 := Grows_trans _ _ _ g0 g1
        have hrec := ih s1 t hrest h a1 (RootsAllocated_of_Grows _ _ hr g01)
          ((rootPaths_of_Grows _ _ hr g01).trans hrp)
        exact ⟨hrec.1, Grows_trans _ _ _ g01 hrec.2⟩

theorem emptyRootChildren_inv :
    ∀ (idxs : List Nat) (s t : SWaapiPicker), emptyRootChildren idxs s = some t →
      PathInvariant s → PathInvariant t ∧ Grows s t := by
  intro idxs
  induction idxs with
  | nil =>
    intro s t h hs
    simp only [emptyRootChildren, Option.some.injEq] at h
    subst h
    exact ⟨hs, Grows_refl s⟩
  | cons i rest ih =>
    intro s t h hs
    simp only [emptyRootChildren] at h
    cases hi : s.RootItems[i]? with
    | none => simp [hi] at h
    | some root =>
      simp only [hi] at h
      have a1 : PathInvariant (s.update root (fun it => { it with Children := [] })) :=
        PathInvariant_update s root _ hs (fun _ => ⟨rfl, rfl⟩)
          (fun _ c hc => (List.not_mem_nil c hc).elim)
      have g1 := Grows_update s root (fun it => { it with Children := [] }) (fun _ => ⟨rfl, rfl⟩)
      have hrec := ih _ t h a1
      exact ⟨hrec.1, Grows_trans _ _ _ g1 hrec.2⟩

theorem ConstructTreeWith_id_items (w : World) (s t : SWaapiPicker)
    (h : ConstructTreeWith (fun u => some u) w s = some t) :
    t.items = s.items ∧ t.RootItems = s.RootItems := by
  unfold ConstructTreeWith at h
  by_cases h1 : w.IsProjectLoaded = true
  · by_cases h2 : s.ConstructTreeTask = some false
    · simp only [h1, h2, if_true, Option.some.injEq] at h
      subst h; exact ⟨rfl, rfl⟩
    · by_cases h3 : s.FilterText = ""
      · simp only [h1, h2, h3, if_true, if_false, ne_eq, not_true_eq_false,
          Option.some.injEq] at h
        subst h; exact ⟨rfl, rfl⟩
      · simp only [h1, h2, h3, if_true, if_false, ne_eq, not_false_eq_true,
          Option.some.injEq] at h
        subst h; exact ⟨rfl, rfl⟩
  · simp only [h1, Bool.false_eq_true, if_false, Option.some.injEq] at h
    subst h; exact ⟨rfl, rfl⟩

theorem CallWaapiGetInfoFrom_ret (w : World) (rp : List String) (hG : FilterRemoteOK w rp)
    (s : SWaapiPicker) (rq : WaapiRequest) :
    ∀ js ∈ (CallWaapiGetInfoFrom w s rq).1.ret, HitOK rp js := by
  intro js hjs
  unfold CallWaapiGetInfoFrom at hjs
  cases hc : w.client with
  | none => simp [hc] at hjs
  | some c =>
    simp only [hc, FAkWaapiClient.send] at hjs
    exact (hG c hc s.sent rq js hjs).1

theorem ApplyFilter_inv (w : World) (fuel : Nat) (s t : SWaapiPicker)
    (h : ApplyFilter w fuel s = some t) (hs : PathInvariant s) (hr : RootsAllocated s)
    (hG : FilterRemoteOK w s.rootPaths) : PathInvariant t ∧ Grows s t := by
  unfold ApplyFilter at h
  cases he : emptyRootChildren (List.range Categories.length) s with
  | none => simp [he] at h
  | some s1 =>
    simp only [he] at h
    obtain ⟨a1, g1⟩ := emptyRootChildren_inv _ s s1 he hs
    by_cases htext : s1.FilterText = ""
    · simp only [htext, if_true] at h
      obtain ⟨hi, hri⟩ := ConstructTreeWith_id_items w _ t h
      exact ⟨PathInvariant_congr s1 t hi a1, Grows_trans _ _ _ g1 (Grows_of_items s1 t hi hri)⟩
    · simp only [htext, if_false] at h
      -- the state in which the search is issued
      obtain ⟨s3, hs3⟩ : ∃ s3 : SWaapiPicker, s3 =
          (if ({ s1 with AllowTreeViewDelegates := false } : SWaapiPicker).LastExpandedItemsBeforFilter.card = 0 then
            { ({ s1 with AllowTreeViewDelegates := false } : SWaapiPicker) with
              LastExpandedItemsBeforFilter :=
                ({ s1 with AllowTreeViewDelegates := false } : SWaapiPicker).LastExpandedItems,
              LastExpandedItems := ∅ }
          else { s1 with AllowTreeViewDelegates := false }) := ⟨_, rfl⟩
      rw [← hs3] at h
      have hi3 : s3.items = s1.items ∧ s3.RootItems = s1.RootItems := by
        rw [hs3]; split <;> exact ⟨rfl, rfl⟩
      clear hs3
      obtain ⟨hi4, hri4⟩ := CallWaapiGetInfoFrom_items w s3
        (.objectSearch s1.FilterText (2000 * s1.FilterText.length))
      have hret := CallWaapiGetInfoFrom_ret w s.rootPaths hG s3
        (.objectSearch s1.FilterText (2000 * s1.FilterText.length))
      generalize CallWaapiGetInfoFrom w s3
        (.objectSearch s1.FilterText (2000 * s1.FilterText.length)) = r at h hi4 hri4 hret
      have g4 : Grows s r.2 := Grows_trans _ _ _ g1
        (Grows_of_items s1 r.2 (hi4.trans hi3.1) (hri4.trans hi3.2))
      have a4 : PathInvariant r.2 := PathInvariant_congr s1 r.2 (hi4.trans hi3.1) a1
      have hr4 := RootsAllocated_of_Grows _ _ hr g4
      have hrp4 := rootPaths_of_Grows _ _ hr g4
      have hloop : ∀ s5, (if r.1.success = true then searchResultLoop w fuel r.1.ret r.2
          else some r.2) = some s5 → PathInvariant s5 ∧ Grows s s5 := by
        intro s5 h5
        by_cases hsucc : r.1.success = true
        · simp only [hsucc, if_true] at h5
          obtain ⟨a5, g5⟩ := searchResultLoop_inv w fuel s.rootPaths hG r.1.ret r.2 s5 hret h5
            a4 hr4 hrp4
          exact ⟨a5, Grows_trans _ _ _ g4 g5⟩
        · simp only [hsucc] at h5
          simp only [Bool.false_eq_true, if_false, Option.some.injEq] at h5
          subst h5
          exact ⟨a4, g4⟩
      cases h5 : (if r.1.success = true then searchResultLoop w fuel r.1.ret r.2
          else some r.2) with
      | none => simp [h5] at h
      | some s5 =>
        simp only [h5] at h
        obtain ⟨a5, g5⟩ := hloop s5 h5
        cases h6 : RestoreTreeExpansion w fuel s5.RootItems s5 with
        | none => simp [h6] at h
        | some s6 =>
          simp only [h6, Option.some.injEq] at h
          subst h
          obtain ⟨a6, g6⟩ := RestoreTreeExpansion_inv w fuel _ s5 s6 h6 a5
          exact ⟨PathInvariant_congr s6 _ rfl a6,
            Grows_trans _ _ _ g5 (Grows_trans _ _ _ g6 (Grows_of_items s6 _ rfl rfl))⟩

/-! ### Path invariant: reachable states -/

theorem ConstructTreeTaskBody_inv (w : World) (s t : SWaapiPicker)
    (h : ConstructTreeTaskBody w s = some t) (hs : PathInvariant s) :
    PathInvariant t ∧ RootsAllocated t := by
  unfold ConstructTreeTaskBody at h
  cases hp : populateTask w Categories { s with RootItems := [] } with
  | none => simp [hp] at h
  | some s1 =>
    simp only [hp, Option.some.injEq] at h
    subst h
    obtain ⟨a1, r1⟩ := populateTask_inv w Categories _ s1 hp (PathInvariant_congr s _ rfl hs)
      (fun r hr => by cases hr)
    exact ⟨PathInvariant_congr s1 _ rfl a1, r1⟩

theorem ConstructTreeFinish_inv (w : World) (fuel : Nat) (s t : SWaapiPicker)
    (h : ConstructTreeFinish w fuel s = some t) (hs : PathInvariant s) (hr : RootsAllocated s) :
    PathInvariant t ∧ RootsAllocated t := by
  unfold ConstructTreeFinish at h
  simp only [] at h
  have g0 : Grows s { s with AllowTreeViewDelegates := true } := Grows_of_items s _ rfl rfl
  obtain ⟨a1, g1⟩ := ExpandFirstLevel_inv w { s with AllowTreeViewDelegates := true }
    (PathInvariant_congr s _ rfl hs)
  obtain ⟨a2, g2⟩ := RestoreTreeExpansion_inv w fuel _ _ t h a1
  exact ⟨a2, RootsAllocated_of_Grows s t hr (Grows_trans _ _ _ g0 (Grows_trans _ _ _ g1 g2))⟩

theorem MirrorEvent_apply_inv (w : World) (fuel : Nat) (s t : SWaapiPicker) (e : MirrorEvent)
    (hs : PathInvariant s) (hr : RootsAllocated s) (hcons : e.Consistent w s)
    (h : e.apply w fuel s = some t) : PathInvariant t ∧ RootsAllocated t := by
  cases e with
  | repopulate =>
    simp only [MirrorEvent.apply] at h
    cases hb : ConstructTreeTaskBody w s with
    | none => simp [hb] at h
    | some s1 =>
      simp only [hb] at h
      obtain ⟨a1, r1⟩ := ConstructTreeTaskBody_inv w s s1 hb hs
      exact ConstructTreeFinish_inv w fuel s1 t h a1 r1
  | getChildren item =>
    simp only [MirrorEvent.apply, Option.some.injEq] at h
    subst h
    obtain ⟨a, g⟩ := GetChildrenForTree_inv w s item hs
    exact ⟨a, RootsAllocated_of_Grows _ _ hr g⟩
  | expansionChanged item b =>
    simp only [MirrorEvent.apply, Option.some.injEq] at h
    subst h
    obtain ⟨a, g⟩ := TreeExpansionChanged_inv w s item b hs
    exact ⟨a, RootsAllocated_of_Grows _ _ hr g⟩
  | expansionTask item =>
    simp only [MirrorEvent.apply, Option.some.injEq] at h
    subst h
    obtain ⟨a, g⟩ := ExpansionTask_inv w s item hs hcons.1 hcons.2
    exact ⟨a, RootsAllocated_of_Grows _ _ hr g⟩
  | filter text =>
    simp only [MirrorEvent.apply] at h
    have g0 : Grows s { s with FilterText := text } := Grows_of_items s _ rfl rfl
    obtain ⟨a, g⟩ := ApplyFilter_inv w fuel { s with FilterText := text } t h
      (PathInvariant_congr s _ rfl hs) (RootsAllocated_of_Grows _ _ hr g0)
      (by rw [rootPaths_of_Grows _ _ hr g0]; exact hcons)
    exact ⟨a, RootsAllocated_of_Grows _ _ hr (Grows_trans _ _ _ g0 g)⟩
  | childAdded r =>
    simp only [MirrorEvent.apply, Option.some.injEq] at h
    subst h
    obtain ⟨a, g⟩ := OnWaapiChildAdded_inv w s r hs hr hcons
    exact ⟨a, RootsAllocated_of_Grows _ _ hr g⟩
  | childRemoved r =>
    simp only [MirrorEvent.apply, Option.some.injEq] at h
    subst h
    obtain ⟨a, g⟩ := OnWaapiChildRemoved_inv s r hs hr
    exact ⟨a, RootsAllocated_of_Grows _ _ hr g⟩

theorem Reachable_inv (w : World) (fuel : Nat) (s : SWaapiPicker) (h : Reachable w fuel s) :
    PathInvariant s ∧ RootsAllocated s := by
  induction h with
  | init =>
    refine ⟨fun p hp => ?_, fun r hr => ?_⟩
    · exact absurd hp (Nat.not_lt_zero _)
    · cases hr
  | step s s1 e _ hcons happ ih => exact MirrorEvent_apply_inv w fuel s s1 e ih.1 ih.2 hcons happ

theorem Reachable_run (w : World) (fuel : Nat) :
    ∀ (events : List MirrorEvent) (s t : SWaapiPicker), Reachable w fuel s →
      ConsistentRun w fuel events s → runMirror w fuel events s = some t → Reachable w fuel t := by
  intro events
  induction events with
  | nil =>
    intro s t hs _ h
    simp only [runMirror, Option.some.injEq] at h
    subst h
    exact hs
  | cons e rest ih =>
    intro s t hs hc h
    simp only [runMirror] at h
    cases ha : e.apply w fuel s with
    | none => simp [ha] at h
    | some s1 =>
      simp only [ha] at h
      exact ih s1 t (Reachable.step s s1 e hs hc.1 ha) (hc.2 s1 ha) h

theorem eq_some_getD {α : Type} (x : Option α) (d : α) (h : x.isSome = true) :
    x = some (x.getD d) := by
  cases x with
  | none => cases h
  | some a => rfl

theorem Reachable_placeholderMirror : Reachable projectWorld 4 placeholderMirror :=
  Reachable_run projectWorld 4 [.repopulate, .expansionChanged 0 false, .getChildren 0] {} _
    Reachable.init ⟨trivial, fun _ _ => ⟨trivial, fun _ _ => ⟨trivial, fun _ _ => trivial⟩⟩⟩
    (eq_some_getD _ _ (by decide))

/-- Counterexample to C6 as stated: after a repopulation, the collapse of the Events folder and
a call of `GetChildrenForTree` on it (a reachable state), the folder with path `\Events`
contains the placeholder, whose folder path is "path" and display name "name"; its folder path
is not the folder's path followed by the separator and its display name. -/
theorem placeholder_breaks_path_equation :
    Reachable projectWorld 4 placeholderMirror ∧
    8 ∈ (placeholderMirror.deref 0).Children ∧
    (placeholderMirror.deref 0).FolderPath = "\\Events" ∧
    (placeholderMirror.deref 8).FolderPath = "path" ∧
    (placeholderMirror.deref 8).DisplayName = "name" ∧
    (placeholderMirror.deref 8).FolderPath ≠
      (placeholderMirror.deref 0).FolderPath ++ BACK_SLASH ++ (placeholderMirror.deref 8).DisplayName :=
  ⟨Reachable_placeholderMirror, by decide, by decide, by decide, by decide, by decide⟩

/-- C6 (amended): in every state reachable from the empty picker through repopulation,
`GetChildrenForTree`, expansion changes and expansion tasks, filter queries (`ApplyFilter`) and
the child-added and child-removed handlers, the remote supplying path-consistent payloads
(`MirrorEvent.Consistent`), every tree item that is in some item's `Children` list either is a
placeholder of `GetChildrenForTree` (folder path "path", display name "name") or has
`FolderPath` equal to the containing item's `FolderPath` followed by the back slash and its own
`DisplayName`. -/
theorem path_invariant_of_reachable (w : World) (fuel : Nat) (s : SWaapiPicker)
    (h : Reachable w fuel s) (p c : Ptr) (hc : c ∈ (s.deref p).Children) :
    ((s.deref c).FolderPath = PATH ∧ (s.deref c).DisplayName = NAME) ∨
    (s.deref c).FolderPath = (s.deref p).FolderPath ++ BACK_SLASH ++ (s.deref c).DisplayName := by
  by_cases hp : p < s.items.length
  · exact ((Reachable_inv w fuel s h).1 p hp c hc).2
  · have hd : s.deref p = default := by
      simp only [SWaapiPicker.deref, List.getD_eq_getElem?_getD]
      rw [List.getElem?_eq_none (Nat.le_of_not_lt hp)]
      rfl
    rw [hd] at hc
    cases hc

theorem searchClient_consistent : FilterRemoteOK searchWorld samplePaths := by
  intro c hc h rq js hjs
  have hc2 : c = searchClient := (Option.some.inj hc).symm
  subst hc2
  cases rq with
  | objectSearch text rangeEnd =>
    simp only [searchClient, List.mem_singleton] at hjs
    subst hjs
    exact ⟨by decide, fun L hL => by cases hL⟩
  | objectGetPath path =>
    simp only [searchClient] at hjs
    by_cases hwu : path = "\\Events\\Default Work Unit"
    · subst hwu
      simp only [if_true, List.mem_singleton] at hjs
      subst hjs
      exact ⟨by decide, fun L hL => by cases hL; rfl⟩
    · simp only [hwu, if_false, projectClient] at hjs
      by_cases hmem : path ∈ samplePaths
      · simp only [hmem, if_true, List.mem_singleton] at hjs
        subst hjs
        refine ⟨?_, fun L hL => by cases hL; rfl⟩
        simp only [samplePaths, Categories, List.map_cons, List.map_nil, List.mem_cons,
          List.mem_singleton, List.not_mem_nil, or_false] at hmem
        rcases hmem with e | e | e | e | e | e | e | e <;> subst e <;>
          simp only [HitOK, GetStringField, Option.getD_some] <;> decide
      · simp [hmem] at hjs
  | transportCreate _ => simp [searchClient, projectClient] at hjs
  | transportDestroy _ => simp [searchClient, projectClient] at hjs
  | executeAction _ _ => simp [searchClient, projectClient] at hjs
  | subscribeStateChanged _ => simp [searchClient, projectClient] at hjs
  | unsubscribe _ => simp [searchClient, projectClient] at hjs
  | objectGetChildren _ => simp [searchClient, projectClient] at hjs

theorem Reachable_filteredMirror : Reachable searchWorld 4 filteredMirror := by
  refine Reachable_run searchWorld 4 [.repopulate, .filter "a"] {} _ Reachable.init
    ⟨trivial, fun s1 h1 => ⟨?_, fun _ _ => trivial⟩⟩ (eq_some_getD _ _ (by decide))
  have h2 : MirrorEvent.repopulate.apply searchWorld 4 {} =
      some ((MirrorEvent.repopulate.apply searchWorld 4 {}).getD {}) :=
    eq_some_getD _ _ (by decide)
  have h3 : s1 = (MirrorEvent.repopulate.apply searchWorld 4 {}).getD {} :=
    Option.some.inj (h1.symm.trans h2)
  have h4 : s1.rootPaths = samplePaths := by rw [h3]; decide
  show FilterRemoteOK searchWorld s1.rootPaths
  rw [h4]
  exact searchClient_consistent

/-- Witness of C6 (amended): after a repopulation and the filter query "a" on the searchable
project, the work unit (address 9) lies in the Events folder (address 0) and the event
(address 8) in the work unit; both satisfy the path equation. -/
theorem path_invariant_of_reachable_witness :
    Reachable searchWorld 4 filteredMirror ∧
    9 ∈ (filteredMirror.deref 0).Children ∧
    8 ∈ (filteredMirror.deref 9).Children ∧
    (((filteredMirror.deref 9).FolderPath = PATH ∧ (filteredMirror.deref 9).DisplayName = NAME) ∨
      (filteredMirror.deref 9).FolderPath =
        (filteredMirror.deref 0).FolderPath ++ BACK_SLASH ++ (filteredMirror.deref 9).DisplayName) ∧
    (((filteredMirror.deref 8).FolderPath = PATH ∧ (filteredMirror.deref 8).DisplayName = NAME) ∨
      (filteredMirror.deref 8).FolderPath =
        (filteredMirror.deref 9).FolderPath ++ BACK_SLASH ++ (filteredMirror.deref 8).DisplayName) :=
  ⟨Reachable_filteredMirror, by decide, by decide,
    path_invariant_of_reachable searchWorld 4 filteredMirror Reachable_filteredMirror 0 9
      (by decide),
    path_invariant_of_reachable searchWorld 4 filteredMirror Reachable_filteredMirror 9 8
      (by decide)⟩

/-! ### Filter overlay: the snapshot is only touched by `ApplyFilter` -/

theorem ConstructWwiseTreeItem_static (w : World) (s : SWaapiPicker) (js : FJsonObject) :
    (ConstructWwiseTreeItem w s js).2.LastExpandedItemsBeforFilter =
      s.LastExpandedItemsBeforFilter := by
  rcases ConstructWwiseTreeItem_cases w s js with ⟨h1, _, _⟩ | ⟨it, _, h2, _⟩
  · unfold ConstructWwiseTreeItem at h1 ⊢
    cases ht : w.FromString (GetStringField js.type) with
    | none => simp [ht]
    | some t0 =>
      simp only [ht] at h1 ⊢
      by_cases hv : isValidPath w (GetStringField js.path) = true
      · simp only [hv, if_true] at h1 ⊢
        by_cases hn : GetStringField js.name = ""
        · simp [hn]
        · simp [hn, SWaapiPicker.MakeShared] at h1
      · simp [hv]
  · rw [h2]; rfl

theorem TreeExpansionChanged_static (w : World) (s : SWaapiPicker) (item : Ptr) (b : Bool) :
    (TreeExpansionChanged w s item b).LastExpandedItemsBeforFilter =
      s.LastExpandedItemsBeforFilter := by
  unfold TreeExpansionChanged
  by_cases h1 : s.AllowTreeViewDelegates = true
  · by_cases h2 : b = true
    · by_cases h3 : s.FilterText = "" <;> simp [h1, h2, h3]
    · simp [h1, h2]
  · by_cases h2 : b = true
    · simp [h1, h2, SortChildren, SWaapiPicker.update]
    · simp [h1, h2]

theorem SetItemExpansion_static (w : World) (s : SWaapiPicker) (item : Ptr) :
    (SetItemExpansion w s item).LastExpandedItemsBeforFilter = s.LastExpandedItemsBeforFilter := by
  unfold SetItemExpansion
  split
  · rfl
  · rw [TreeExpansionChanged_static]

theorem foldlM_static {α : Type} (f : SWaapiPicker → α → Option SWaapiPicker)
    (hf : ∀ s a t, f s a = some t →
      t.LastExpandedItemsBeforFilter = s.LastExpandedItemsBeforFilter) (l : List α) :
    ∀ s t, l.foldlM f s = some t →
      t.LastExpandedItemsBeforFilter = s.LastExpandedItemsBeforFilter := by
  induction l with
  | nil =>
    intro s t h
    simp only [List.foldlM, pure, Option.some.injEq] at h
    rw [h]
  | cons a rest ih =>
    intro s t h
    simp only [List.foldlM, bind, Option.bind] at h
    cases h1 : f s a with
    | none => simp [h1] at h
    | some s1 =>
      simp only [h1] at h
      rw [ih s1 t h, hf s a s1 h1]

theorem RestoreTreeExpansion_static (w : World) :
    ∀ fuel Items s t, RestoreTreeExpansion w fuel Items s = some t →
      t.LastExpandedItemsBeforFilter = s.LastExpandedItemsBeforFilter := by
  intro fuel
  induction fuel with
  | zero => intro Items s t h; simp [RestoreTreeExpansion] at h
  | succ k ih =>
    intro Items s t h
    simp only [RestoreTreeExpansion] at h
    refine foldlM_static _ ?_ Items s t h
    intro acc item u hu
    by_cases hm : (acc.deref item).ItemId ∈ acc.LastExpandedItems
    · simp only [hm, if_true] at hu
      rw [ih _ _ _ hu, SetItemExpansion_static]
    · simp only [hm, if_false] at hu
      exact ih _ _ _ hu

theorem CallWaapiGetInfoFrom_static (w : World) (s : SWaapiPicker) (rq : WaapiRequest) :
    (CallWaapiGetInfoFrom w s rq).2.LastExpandedItemsBeforFilter =
      s.LastExpandedItemsBeforFilter := by
  unfold CallWaapiGetInfoFrom
  cases w.client <;> rfl

theorem emptyRootChildren_static :
    ∀ (idxs : List Nat) (s t : SWaapiPicker), emptyRootChildren idxs s = some t →
      t.LastExpandedItemsBeforFilter = s.LastExpandedItemsBeforFilter ∧
      t.LastExpandedItems = s.LastExpandedItems ∧ t.FilterText = s.FilterText := by
  intro idxs
  induction idxs with
  | nil =>
    intro s t h
    simp only [emptyRootChildren, Option.some.injEq] at h
    rw [h]
    exact ⟨rfl, rfl, rfl⟩
  | cons i rest ih =>
    intro s t h
    simp only [emptyRootChildren] at h
    cases hi : s.RootItems[i]? with
    | none => simp [hi] at h
    | some root =>
      simp only [hi] at h
      obtain ⟨h1, h2, h3⟩ := ih _ t h
      exact ⟨h1, h2, h3⟩

theorem FindAndCreateItems_static (w : World) :
    ∀ (fuel : Nat) (s : SWaapiPicker) (cur : Ptr) (t : SWaapiPicker),
      FindAndCreateItems w fuel s cur = some t →
      t.LastExpandedItemsBeforFilter = s.LastExpandedItemsBeforFilter := by
  intro fuel
  induction fuel with
  | zero => intro s cur t h; simp [FindAndCreateItems] at h
  | succ k ih =>
    intro s cur t h
    simp only [FindAndCreateItems] at h
    split at h
    · simp at h
    · simp at h
    · split at h
      · simp only [Option.some.injEq] at h
        rw [← h]
      · split at h
        · simp only [Option.some.injEq] at h
          rw [← h]; rfl
        · split at h
          · simp only [Option.some.injEq] at h
            rw [← h]; rfl
          · split at h
            · split at h
              · simp at h
              · split at h
                · simp at h
                · rw [ih _ _ _ h]
                  show (ConstructWwiseTreeItem w _ _).2.LastExpandedItemsBeforFilter = _
                  rw [ConstructWwiseTreeItem_static, CallWaapiGetInfoFrom_static]
            · simp only [Option.some.injEq] at h
              rw [← h, CallWaapiGetInfoFrom_static]

theorem searchResultLoop_static (w : World) (fuel : Nat) :
    ∀ (l : List FJsonObject) (s t : SWaapiPicker), searchResultLoop w fuel l s = some t →
      t.LastExpandedItemsBeforFilter = s.LastExpandedItemsBeforFilter := by
  intro l
  induction l with
  | nil =>
    intro s t h
    simp only [searchResultLoop, Option.some.injEq] at h
    rw [h]
  | cons js rest ih =>
    intro s t h
    simp only [searchResultLoop] at h
    cases hc : (ConstructWwiseTreeItem w s js).1 with
    | none =>
      simp only [hc] at h
      rw [ih _ t h, ConstructWwiseTreeItem_static]
    | some c =>
      simp only [hc] at h
      cases hf : FindAndCreateItems w fuel (ConstructWwiseTreeItem w s js).2 c with
      | none => simp [hf] at h
      | some s1 =>
        simp only [hf] at h
        rw [ih s1 t h, FindAndCreateItems_static w fuel _ c s1 hf, ConstructWwiseTreeItem_static]

theorem ApplyFilter_empty_text (w : World) (fuel : Nat) (s t : SWaapiPicker)
    (htext : s.FilterText = "") (h : ApplyFilter w fuel s = some t) :
    t.LastExpandedItems = s.LastExpandedItemsBeforFilter ∧ t.LastExpandedItemsBeforFilter = ∅ := by
  unfold ApplyFilter at h
  cases he : emptyRootChildren (List.range Categories.length) s with
  | none => simp [he] at h
  | some s1 =>
    simp only [he] at h
    obtain ⟨h1, _, h3⟩ := emptyRootChildren_static _ s s1 he
    have htext1 : s1.FilterText = "" := h3.trans htext
    simp only [htext1, if_true] at h
    unfold ConstructTreeWith at h
    by_cases hl : w.IsProjectLoaded = true
    · by_cases hf : s1.ConstructTreeTask = some false
      · simp only [hl, hf, if_true, Option.some.injEq] at h
        rw [← h]
        exact ⟨h1, rfl⟩
      · simp only [hl, hf, htext1, if_true, if_false, ne_eq, not_true_eq_false,
          Option.some.injEq] at h
        rw [← h]
        exact ⟨h1, rfl⟩
    · simp only [hl, Bool.false_eq_true, if_false, Option.some.injEq] at h
      rw [← h]
      exact ⟨h1, rfl⟩

theorem ApplyFilter_text (w : World) (fuel : Nat) (s t : SWaapiPicker)
    (htext : s.FilterText ≠ "") (h : ApplyFilter w fuel s = some t) :
    t.LastExpandedItemsBeforFilter =
      if s.LastExpandedItemsBeforFilter.card = 0 then s.LastExpandedItems
      else s.LastExpandedItemsBeforFilter := by
  unfold ApplyFilter at h
  cases he : emptyRootChildren (List.range Categories.length) s with
  | none => simp [he] at h
  | some s1 =>
    simp only [he] at h
    obtain ⟨h1, h2, h3⟩ := emptyRootChildren_static _ s s1 he
    have htext1 : ¬ s1.FilterText = "" := by rw [h3]; exact htext
    simp only [htext1, if_false] at h
    rw [← h1, ← h2]
    split at h
    · simp at h
    · rename_i s5 h5
      split at h
      · simp at h
      · rename_i s6 h6
        simp only [Option.some.injEq] at h
        rw [← h]
        show s6.LastExpandedItemsBeforFilter = _
        rw [RestoreTreeExpansion_static w fuel _ s5 s6 h6]
        by_cases hcard : s1.LastExpandedItemsBeforFilter.card = 0
        · simp only [hcard, if_true] at h5 ⊢
          split at h5
          · rw [searchResultLoop_static w fuel _ _ s5 h5, CallWaapiGetInfoFrom_static]
          · simp only [Option.some.injEq] at h5
            rw [← h5, CallWaapiGetInfoFrom_static]
        · simp only [hcard, if_false] at h5 ⊢
          split at h5
          · rw [searchResultLoop_static w fuel _ _ s5 h5, CallWaapiGetInfoFrom_static]
          · simp only [Option.some.injEq] at h5
            rw [← h5, CallWaapiGetInfoFrom_static]

theorem runQueries_restores_snapshot (w : World) (fuel : Nat) :
    ∀ (queries : List String) (s t : SWaapiPicker), (∀ q ∈ queries, q ≠ "") →
      s.LastExpandedItemsBeforFilter ≠ ∅ → runQueries w fuel (queries ++ [""]) s = some t →
      t.LastExpandedItems = s.LastExpandedItemsBeforFilter := by
  intro queries
  induction queries with
  | nil =>
    intro s t _ _ h
    simp only [List.nil_append, runQueries] at h
    cases ha : ApplyFilter w fuel { s with FilterText := "" } with
    | none => simp [ha] at h
    | some s1 =>
      simp only [ha, Option.some.injEq] at h
      rw [← h]
      exact (ApplyFilter_empty_text w fuel _ s1 rfl ha).1
  | cons q rest ih =>
    intro s t hne hB h
    simp only [List.cons_append, runQueries] at h
    cases ha : ApplyFilter w fuel { s with FilterText := q } with
    | none => simp [ha] at h
    | some s1 =>
      simp only [ha] at h
      have hq : ({ s with FilterText := q } : SWaapiPicker).FilterText ≠ "" :=
        hne q (List.mem_cons_self _ _)
      have hB1 := ApplyFilter_text w fuel _ s1 hq ha
      have hcard : ¬ s.LastExpandedItemsBeforFilter.card = 0 := by
        rw [Finset.card_eq_zero]; exact hB
      simp only [hcard, if_false] at hB1
      rw [ih s1 t (fun r hr => hne r (List.mem_cons_of_mem _ hr)) (by rw [hB1]; exact hB) h, hB1]

/-- The part of C1 that the code keeps: when the expansion set `E` held before the first
non-empty query is not empty (and no snapshot is pending), every sequence of one or more
non-empty queries followed by the empty query that runs to its end leaves
`LastExpandedItems = E`. -/
theorem nonempty_expansion_set_restored (w : World) (fuel : Nat) (q : String)
    (queries : List String) (s t : SWaapiPicker) (hq : q ≠ "") (hne : ∀ r ∈ queries, r ≠ "")
    (hE : s.LastExpandedItems ≠ ∅) (hB : s.LastExpandedItemsBeforFilter = ∅)
    (h : runQueries w fuel (q :: queries ++ [""]) s = some t) :
    t.LastExpandedItems = s.LastExpandedItems := by
  simp only [List.cons_append, runQueries] at h
  cases ha : ApplyFilter w fuel { s with FilterText := q } with
  | none => simp [ha] at h
  | some s1 =>
    simp only [ha] at h
    have hB1 := ApplyFilter_text w fuel _ s1 hq ha
    have hcard : s.LastExpandedItemsBeforFilter.card = 0 := by rw [hB]; rfl
    simp only [hcard, if_true] at hB1
    have hB2 : s1.LastExpandedItemsBeforFilter = s.LastExpandedItems := hB1
    rw [runQueries_restores_snapshot w fuel queries s1 t hne (by rw [hB2]; exact hE) h, hB2]

/-! ### Expansion reconciliation -/

theorem ConstructWwiseTreeItem_isSome (w : World) (s : SWaapiPicker) (js : FJsonObject) :
    (ConstructWwiseTreeItem w s js).1.isSome = acceptsPayload w js := by
  unfold ConstructWwiseTreeItem acceptsPayload
  cases ht : w.FromString (GetStringField js.type) with
  | none => simp [ht]
  | some t0 =>
    simp only [ht]
    by_cases hv : isValidPath w (GetStringField js.path) = true
    · by_cases hn : GetStringField js.name = ""
      · simp [hv, hn]
      · simp [hv, hn, SWaapiPicker.MakeShared]
    · simp [hv]

/-- Children construction loop: the children of the item grow by one fresh item for every
accepted payload, in the order of the payloads; each new item has the item as parent and the
name and path of its payload; the other old items are as before. -/
theorem addConstructedChildren_children (w : World) (TreeItem : Ptr) :
    ∀ (l : List FJsonObject) (s : SWaapiPicker), TreeItem < s.items.length →
      ∃ news : List Ptr,
        ((addConstructedChildren w TreeItem l s).deref TreeItem).Children =
          (s.deref TreeItem).Children ++ news ∧
        s.items.length ≤ (addConstructedChildren w TreeItem l s).items.length ∧
        news.Nodup ∧
        (∀ c ∈ news, s.items.length ≤ c ∧
          c < (addConstructedChildren w TreeItem l s).items.length ∧
          ((addConstructedChildren w TreeItem l s).deref c).Parent = some TreeItem) ∧
        news.map (fun c => (((addConstructedChildren w TreeItem l s).deref c).DisplayName,
            ((addConstructedChildren w TreeItem l s).deref c).FolderPath)) =
          (l.filter (acceptsPayload w)).map
            (fun js => (GetStringField js.name, GetStringField js.path)) ∧
        (∀ q, q < s.items.length → q ≠ TreeItem →
          (addConstructedChildren w TreeItem l s).deref q = s.deref q) := by
  intro l
  induction l with
  | nil =>
    intro s _
    exact ⟨[], by simp [addConstructedChildren], Nat.le_refl _, List.nodup_nil,
      fun c hc => (List.not_mem_nil c hc).elim, rfl, fun _ _ _ => rfl⟩
  | cons js rest ih =>
    intro s hT
    have hacc := ConstructWwiseTreeItem_isSome w s js
    unfold addConstructedChildren
    simp only []
    cases hc : (ConstructWwiseTreeItem w s js).1 with
    | none =>
      simp only []
      rw [hc] at hacc
      have hitems := (ConstructWwiseTreeItem_none w s js hc).1
      generalize (ConstructWwiseTreeItem w s js).2 = s0 at hitems ⊢
      have hlen : s0.items.length = s.items.length := by rw [hitems]
      obtain ⟨news, h1, h2, h3, h4, h5, h6⟩ := ih s0 (by rw [hlen]; exact hT)
      have hd : ∀ q, s0.deref q = s.deref q := deref_congr s0 s hitems
      refine ⟨news, by rw [h1, hd], by rw [← hlen]; exact h2, h3, ?_, ?_, ?_⟩
      · intro c hcm
        obtain ⟨a, b, d⟩ := h4 c hcm
        exact ⟨by rw [← hlen]; exact a, b, d⟩
      · rw [h5, List.filter_cons]
        have : acceptsPayload w js = false := by
          rw [← hacc]; rfl
        simp [this]
      · intro q hq hne
        rw [h6 q (by rw [hlen]; exact hq) hne, hd]
    | some c =>
      simp only []
      rw [hc] at hacc
      obtain ⟨hc1, it, hst, hname, hpath, _, _, _, _⟩ := ConstructWwiseTreeItem_some w s js c hc
      generalize (ConstructWwiseTreeItem w s js).2 = s0 at hst ⊢
      have hlen0 : s0.items.length = s.items.length + 1 := by
        rw [hst]; simp [SWaapiPicker.MakeShared]
      have hd0new : s0.deref c = it := by
        rw [hst, hc1]
        exact deref_MakeShared_new { s with guids := s.guids + 1 } it
      have hd0old : ∀ q, q < s.items.length → s0.deref q = s.deref q := by
        intro q hq
        rw [hst]
        exact deref_MakeShared_old { s with guids := s.guids + 1 } it q hq
      have hcT : c ≠ TreeItem := by
        rw [hc1]; exact fun e => Nat.lt_irrefl _ (e ▸ hT)
      have hT0 : TreeItem < s0.items.length := by rw [hlen0]; exact Nat.lt_succ_of_lt hT
      have hc0 : c < s0.items.length := by rw [hlen0, hc1]; exact Nat.lt_succ_self _
      -- the state after the two updates of this round
      obtain ⟨s2, hs2⟩ : ∃ s2, s2 = (s0.update TreeItem
          (fun it => { it with Children := it.Children ++ [c] })).update c
          (fun it => { it with Parent := some TreeItem }) := ⟨_, rfl⟩
      rw [← hs2]
      have hlen2 : s2.items.length = s.items.length + 1 := by
        rw [hs2, length_update, length_update, hlen0]
      have hT2 : (s2.deref TreeItem).Children = (s.deref TreeItem).Children ++ [c] := by
        rw [hs2, deref_update_ne _ c TreeItem _ (fun e => hcT e.symm),
          deref_update_same _ TreeItem _ hT0, hd0old TreeItem hT]
      have hc2 : s2.deref c = { it with Parent := some TreeItem } := by
        rw [hs2, deref_update_same _ c _ (by rw [length_update]; exact hc0),
          deref_update_ne _ TreeItem c _ hcT, hd0new]
      have hold2 : ∀ q, q < s.items.length → q ≠ TreeItem → s2.deref q = s.deref q := by
        intro q hq hne
        have hqc : q ≠ c := by rw [hc1]; exact Nat.ne_of_lt hq
        rw [hs2, deref_update_ne _ c q _ hqc, deref_update_ne _ TreeItem q _ hne, hd0old q hq]
      obtain ⟨news, h1, h2, h3, h4, h5, h6⟩ := ih s2 (by rw [hlen2]; exact Nat.lt_succ_of_lt hT)
      have hcnot : c ∉ news := by
        intro hm
        have := (h4 c hm).1
        rw [hlen2, hc1] at this
        exact Nat.not_succ_le_self _ this
      have hc_final : (addConstructedChildren w TreeItem rest s2).deref c = s2.deref c :=
        h6 c (by rw [hlen2, hc1]; exact Nat.lt_succ_self _) hcT
      refine ⟨c :: news, ?_, ?_, List.nodup_cons.2 ⟨hcnot, h3⟩, ?_, ?_, ?_⟩
      · rw [h1, hT2, List.append_assoc]; rfl
      · exact Nat.le_trans (by rw [hlen2]; exact Nat.le_succ _) h2
      · intro x hx
        rcases List.mem_cons.1 hx with e | hm
        · subst e
          refine ⟨by rw [hc1], Nat.lt_of_lt_of_le (by rw [hlen2, hc1]; exact Nat.lt_succ_self _) h2, ?_⟩
          rw [hc_final, hc2]
        · obtain ⟨a, b, d⟩ := h4 x hm
          exact ⟨Nat.le_trans (by rw [hlen2]; exact Nat.le_succ _) a, b, d⟩
      · have : acceptsPayload w js = true := by
          rw [← hacc]; rfl
        rw [List.filter_cons, this]
        simp only [if_true, List.map_cons, h5, hc_final, hc2, hname, hpath]
      · intro q hq hne
        rw [h6 q (by rw [hlen2]; exact Nat.lt_succ_of_lt hq) hne, hold2 q hq hne]

/-- C11.  Reconciliation in the task of `TreeExpansionChanged`: for an item of the mirror and
the child list `R` that the remote returns for it, if the item has exactly one child or a
number of children other than the length of `R`, then afterwards its `Children` are the items
constructed from `R` and nothing else: one fresh item (allocated by the task, so none of the
old children) for every payload of `R` that `ConstructWwiseTreeItem` accepts, carrying the name
and path of the payload, with the item as `Parent`, the list being sorted by the order of
`SortChildren` (a total and transitive order); otherwise `Children` is exactly as it was. -/
theorem ExpansionTask_reconcile (w : World) (s : SWaapiPicker) (TreeItem : Ptr)
    (R : List FJsonObject) (hT : TreeItem < s.items.length)
    (hok : (CallWaapiGetInfoFrom w s
      (.objectGetChildren (s.deref TreeItem).ItemId)).1.success = true)
    (hR : (CallWaapiGetInfoFrom w s (.objectGetChildren (s.deref TreeItem).ItemId)).1.ret = R)
    (htotal : ∀ a b, w.SortLE a b = true ∨ w.SortLE b a = true)
    (htrans : ∀ a b c, w.SortLE a b = true → w.SortLE b c = true → w.SortLE a c = true) :
    (((s.deref TreeItem).Children.length = 1 ∨ (s.deref TreeItem).Children.length ≠ R.length) →
      ∃ news : List Ptr,
        ((ExpansionTask w s TreeItem).deref TreeItem).Children.Perm news ∧ news.Nodup ∧
        ((ExpansionTask w s TreeItem).deref TreeItem).Children.Pairwise
          (fun a b => w.SortLE ((ExpansionTask w s TreeItem).sortKey a)
            ((ExpansionTask w s TreeItem).sortKey b) = true) ∧
        (∀ c ∈ news, s.items.length ≤ c ∧
          ((ExpansionTask w s TreeItem).deref c).Parent = some TreeItem) ∧
        news.map (fun c => (((ExpansionTask w s TreeItem).deref c).DisplayName,
            ((ExpansionTask w s TreeItem).deref c).FolderPath)) =
          (R.filter (acceptsPayload w)).map
            (fun js => (GetStringField js.name, GetStringField js.path))) ∧
    (¬ ((s.deref TreeItem).Children.length = 1 ∨ (s.deref TreeItem).Children.length ≠ R.length) →
      ((ExpansionTask w s TreeItem).deref TreeItem).Children = (s.deref TreeItem).Children) := by
  obtain ⟨hi, _⟩ := CallWaapiGetInfoFrom_items w s (.objectGetChildren (s.deref TreeItem).ItemId)
  unfold ExpansionTask
  simp only []
  generalize CallWaapiGetInfoFrom w s (.objectGetChildren (s.deref TreeItem).ItemId) = r
    at hok hR hi ⊢
  have hd : ∀ q, r.2.deref q = s.deref q := deref_congr r.2 s hi
  have hlen : r.2.items.length = s.items.length := by rw [hi]
  simp only [hok, Bool.not_true, Bool.false_eq_true, if_false, hd, hR]
  constructor
  · intro hcase
    simp only [hcase, if_true]
    have hT1 : TreeItem < (r.2.update TreeItem (fun it => { it with Children := [] })).items.length := by
      rw [length_update, hlen]; exact hT
    have hempty : ((r.2.update TreeItem (fun it => { it with Children := [] })).deref
        TreeItem).Children = [] := by
      rw [deref_update_same _ _ _ (by rw [hlen]; exact hT)]
    obtain ⟨news, h1, h2, h3, h4, h5, _⟩ := addConstructedChildren_children w TreeItem R _ hT1
    rw [hempty, List.nil_append] at h1
    rw [length_update, hlen] at h2 h4
    generalize addConstructedChildren w TreeItem R
      (r.2.update TreeItem (fun it => { it with Children := [] })) = s2 at h1 h2 h4 h5 ⊢
    have hT2 : TreeItem < s2.items.length := Nat.lt_of_lt_of_le hT h2
    have hkey : ∀ q, (SortChildren w s2 TreeItem).sortKey q = s2.sortKey q := fun q =>
      sortKey_update s2 TreeItem q _ (fun _ => ⟨rfl, rfl⟩)
    have hch : ((SortChildren w s2 TreeItem).deref TreeItem).Children =
        sortBy (fun a b => w.SortLE (s2.sortKey a) (s2.sortKey b)) news := by
      unfold SortChildren
      rw [deref_update_same _ _ _ hT2, h1]
    have hother : ∀ c ∈ news, (SortChildren w s2 TreeItem).deref c = s2.deref c := by
      intro c hc
      unfold SortChildren
      exact deref_update_ne _ _ _ _ (fun e => Nat.lt_irrefl _ (Nat.lt_of_lt_of_le (e ▸ hT) (h4 c hc).1))
    refine ⟨news, ?_, h3, ?_, ?_, ?_⟩
    · rw [hch]; exact sortBy_perm _ _
    · rw [hch]
      simp only [hkey]
      exact sortBy_sorted (fun a b => w.SortLE (s2.sortKey a) (s2.sortKey b))
        (fun a b => htotal _ _) (fun a b c => htrans _ _ _) news
    · intro c hc
      rw [hother c hc]
      exact ⟨(h4 c hc).1, (h4 c hc).2.2⟩
    · rw [← h5]
      exact List.map_congr_left (fun c hc => by rw [hother c hc])
  · intro hcase
    simp only [hcase, if_false, hd]

/-- Witness of C11: the Events folder of the sample picker holds one child; the remote returns
three payloads, two of them accepted; the folder ends with two children, the fresh items at
addresses 3 ("Ant") and 2 ("Wasp"). -/
theorem ExpansionTask_reconcile_witness :
    (eventsPicker.deref 0).Children.length = 1 ∧
    (CallWaapiGetInfoFrom childrenWorld eventsPicker
      (.objectGetChildren (eventsPicker.deref 0).ItemId)).1.success = true ∧
    ((ExpansionTask childrenWorld eventsPicker 0).deref 0).Children = [3, 2] ∧
    ((ExpansionTask childrenWorld eventsPicker 0).deref 0).Children.length = 2 := by
  refine ⟨by decide, by decide, by decide, ?_⟩
  obtain ⟨news, hp, _, _, _, hm⟩ :=
    (ExpansionTask_reconcile childrenWorld eventsPicker 0 _ (by decide) (by decide) rfl
      (sampleSortLE_total _ rfl) (sampleSortLE_trans _ rfl)).1 (Or.inl (by decide))
  rw [hp.length_eq, ← List.length_map news, hm]
  decide

/-! ### Pending children -/

theorem CreateTreeItemWaapi_child (w : World) (s : SWaapiPicker) (parent newChild : Ptr)
    (childJson : FJsonObject) (hexists : parent < s.items.length)
    (haccept : (ConstructWwiseTreeItem w s childJson).1 = some newChild) :
    newChild = s.items.length ∧
    (CreateTreeItemWaapi w s (some parent) childJson).items.length = s.items.length + 1 ∧
    ((CreateTreeItemWaapi w s (some parent) childJson).deref parent).Children.Perm
      ((s.deref parent).Children ++ [newChild]) ∧
    ((CreateTreeItemWaapi w s (some parent) childJson).deref parent).ChildCountInWwise =
      ((s.deref parent).ChildCountInWwise + 1) % 2 ^ 32 ∧
    ((CreateTreeItemWaapi w s (some parent) childJson).deref newChild).Parent = some parent ∧
    ((CreateTreeItemWaapi w s (some parent) childJson).deref newChild).DisplayName =
      GetStringField childJson.name ∧
    ((CreateTreeItemWaapi w s (some parent) childJson).deref newChild).FolderPath =
      GetStringField childJson.path := by
  obtain ⟨hnew, it, hr2, hname, hpath, _, _, _, _⟩ :=
    ConstructWwiseTreeItem_some w s childJson newChild haccept
  have hne : parent ≠ newChild := by
    intro e
    rw [e, hnew] at hexists
    exact Nat.lt_irrefl _ hexists
  have hlt : ∀ n : Nat, n = s.items.length + 1 → parent < n ∧ newChild < n := by
    intro n hn
    rw [hn, hnew]
    exact ⟨Nat.lt_succ_of_lt hexists, Nat.lt_succ_self _⟩
  have hlen0 : (ConstructWwiseTreeItem w s childJson).2.items.length = s.items.length + 1 := by
    rw [hr2]; simp [SWaapiPicker.MakeShared]
  have hd0p : (ConstructWwiseTreeItem w s childJson).2.deref parent = s.deref parent := by
    rw [hr2]; exact deref_MakeShared_old _ _ _ hexists
  have hd0c : (ConstructWwiseTreeItem w s childJson).2.deref newChild = it := by
    rw [hr2, hnew]; exact deref_MakeShared_new _ _
  set s1 := (ConstructWwiseTreeItem w s childJson).2.update newChild
    (fun it => { it with Parent := some parent }) with hs1
  set s2 := s1.update parent (fun it => { it with Children := it.Children ++ [newChild] })
    with hs2
  set s3 := SortChildren w s2 parent with hs3
  set s4 := s3.update parent
    (fun it => { it with ChildCountInWwise := (it.ChildCountInWwise + 1) % 2 ^ 32 }) with hs4
  have hitems : (CreateTreeItemWaapi w s (some parent) childJson).items = s4.items := by
    simp only [CreateTreeItemWaapi, haccept]
    split <;> rfl
  have hl1 : s1.items.length = s.items.length + 1 := by rw [hs1, length_update, hlen0]
  have hl2 : s2.items.length = s.items.length + 1 := by rw [hs2, length_update, hl1]
  have hl3 : s3.items.length = s.items.length + 1 := by
    rw [hs3, SortChildren, length_update, hl2]
  have hl4 : s4.items.length = s.items.length + 1 := by rw [hs4, length_update, hl3]
  have h1p : s1.deref parent = s.deref parent := by
    rw [hs1, deref_update_ne _ _ _ _ hne, hd0p]
  have h1c : s1.deref newChild = { it with Parent := some parent } := by
    rw [hs1, deref_update_same _ _ _ (hlt _ hlen0).2, hd0c]
  have h2p : s2.deref parent =
      { s.deref parent with Children := (s.deref parent).Children ++ [newChild] } := by
    rw [hs2, deref_update_same _ _ _ (hlt _ hl1).1, h1p]
  have h2c : s2.deref newChild = { it with Parent := some parent } := by
    rw [hs2, deref_update_ne _ _ _ _ hne.symm, h1c]
  have h3p : s3.deref parent =
      { s.deref parent with
        Children := sortBy (fun a b => w.SortLE (s2.sortKey a) (s2.sortKey b))
          ((s.deref parent).Children ++ [newChild]) } := by
    rw [hs3, SortChildren, deref_update_same _ _ _ (hlt _ hl2).1, h2p]
  have h3c : s3.deref newChild = { it with Parent := some parent } := by
    rw [hs3, SortChildren, deref_update_ne _ _ _ _ hne.symm, h2c]
  have h4p : s4.deref parent =
      { s.deref parent with
        Children := sortBy (fun a b => w.SortLE (s2.sortKey a) (s2.sortKey b))
          ((s.deref parent).Children ++ [newChild]),
        ChildCountInWwise := ((s.deref parent).ChildCountInWwise + 1) % 2 ^ 32 } := by
    rw [hs4, deref_update_same _ _ _ (hlt _ hl3).1, h3p]
  have h4c : s4.deref newChild = { it with Parent := some parent } := by
    rw [hs4, deref_update_ne _ _ _ _ hne.symm, h3c]
  refine ⟨hnew, by rw [hitems, hl4], ?_⟩
  rw [deref_congr _ _ hitems parent, deref_congr _ _ hitems newChild, h4p, h4c]
  exact ⟨sortBy_perm _ _, rfl, rfl, hname, hpath⟩

theorem ConstructWwiseTreeItem_pending (w : World) (s : SWaapiPicker) (js : FJsonObject) :
    (ConstructWwiseTreeItem w s js).2.pendingTreeItems = s.pendingTreeItems := by
  unfold ConstructWwiseTreeItem
  cases ht : w.FromString (GetStringField js.type) with
  | none => simp [ht]
  | some t0 =>
    simp only [ht]
    by_cases hv : isValidPath w (GetStringField js.path) = true
    · by_cases hn : GetStringField js.name = ""
      · simp [hv, hn]
      · simp [hv, hn, SWaapiPicker.MakeShared]
    · simp [hv]

theorem CreateTreeItemWaapi_pending (w : World) (s : SWaapiPicker) (parent : Option Ptr)
    (js : FJsonObject) :
    (CreateTreeItemWaapi w s parent js).pendingTreeItems = s.pendingTreeItems := by
  unfold CreateTreeItemWaapi
  cases parent with
  | none => rfl
  | some p =>
    simp only []
    have h0 := ConstructWwiseTreeItem_pending w s js
    cases hc : (ConstructWwiseTreeItem w s js).1 with
    | none => simpa using h0
    | some c =>
      simp only []
      split <;> simpa [SortChildren, SWaapiPicker.update] using h0

theorem OnWaapiChildAdded_stash (w : World) (s : SWaapiPicker) (Added : FChildResponse)
    (parentJson childJson : FJsonObject) (p : Ptr) (c : FGuid)
    (hp : Added.parent = some parentJson) (hc : Added.child = some childJson)
    (hname : childJson.name = some "") (hid : childJson.id = some (some c)) (hvalid : c ≠ 0)
    (hfind : FindTreeItemFromJsonObject s parentJson "" = some p) :
    OnWaapiChildAdded w s Added =
      { s with pendingTreeItems := TMap.Add s.pendingTreeItems c p } := by
  simp [OnWaapiChildAdded, HandleOnWaapiChildResponse, hp, hc, hname, hid, hfind, parseIdOr,
    FGuid.IsValid, hvalid]

theorem OnWaapiRenamed_pending (w : World) (s : SWaapiPicker) (Renamed : FRenameResponse)
    (obj : FJsonObject) (p : Ptr) (c : FGuid)
    (hpend : TMap.Find s.pendingTreeItems c = some p)
    (hold : Renamed.oldName = some "") (hobj : Renamed.object = some obj)
    (hoid : obj.id = some (some c)) :
    OnWaapiRenamed w s Renamed =
      { CreateTreeItemWaapi w s (some p) obj with
        pendingTreeItems := TMap.Remove s.pendingTreeItems c } := by
  simp [OnWaapiRenamed, hold, hobj, hoid, parseIdOr, hpend, CreateTreeItemWaapi_pending]

/-- Counterexample to C12 as stated: the id 50 is pending under the Events folder (address 0)
and the rename notification with an empty old name for the id 50 carries an object of a type
that `EWwiseItemType::FromString` does not know; the id is removed from `pendingTreeItems` and
no child is created (no item is allocated, the folder keeps its one child). -/
theorem pending_child_of_unknown_type_is_dropped :
    TMap.Find pendingPicker.pendingTreeItems 50 = some 0 ∧
    (OnWaapiRenamed offlineWorld pendingPicker
      { oldName := some "", newName := some "Glow",
        object := some { id := some (some 50), name := some "Glow", type := some "Mystery",
                         path := some "\\Events\\Glow" } }).pendingTreeItems = [] ∧
    (OnWaapiRenamed offlineWorld pendingPicker
      { oldName := some "", newName := some "Glow",
        object := some { id := some (some 50), name := some "Glow", type := some "Mystery",
                         path := some "\\Events\\Glow" } }).items = pendingPicker.items ∧
    (pendingPicker.deref 0).Children = [1] := by
  decide

/-- C12 (amended).  Pending-child finalization.  A child-added notification with an empty child
name and a valid child id `c`, whose parent payload resolves to the node `p`, records `c`
under `p` in `pendingTreeItems` and leaves the items as they are.  In every later state in
which `c` is still pending under the node `p`, a rename notification with an empty old name
for the object id `c` removes `c` from `pendingTreeItems`; when `ConstructWwiseTreeItem`
accepts its object payload (known type, path under a category folder, name not empty) it
creates the child under `p` as `CreateTreeItemWaapi` does: one item is allocated, with the name
and the path of the payload and with `p` as `Parent`, it is added to the children of `p`, and
the child count of `p` grows by one; when the payload is not accepted no item is allocated
and no item changes.  A rename notification with an empty old name whose object id is not
pending leaves the whole state, the tree and `pendingTreeItems` included, as it was. -/
theorem pending_child_finalized (w : World) (s0 : SWaapiPicker) (Added : FChildResponse)
    (parentJson childJson : FJsonObject) (p : Ptr) (c : FGuid)
    (hp : Added.parent = some parentJson) (hc : Added.child = some childJson)
    (hname : childJson.name = some "") (hid : childJson.id = some (some c)) (hvalid : c ≠ 0)
    (hfind : FindTreeItemFromJsonObject s0 parentJson "" = some p) :
    TMap.Find (OnWaapiChildAdded w s0 Added).pendingTreeItems c = some p ∧
    (OnWaapiChildAdded w s0 Added).items = s0.items ∧
    (∀ (s : SWaapiPicker) (Renamed : FRenameResponse) (obj : FJsonObject),
      TMap.Find s.pendingTreeItems c = some p → p < s.items.length →
      Renamed.oldName = some "" → Renamed.object = some obj → obj.id = some (some c) →
      (OnWaapiRenamed w s Renamed).pendingTreeItems = TMap.Remove s.pendingTreeItems c ∧
      TMap.Find (OnWaapiRenamed w s Renamed).pendingTreeItems c = none ∧
      (acceptsPayload w obj = true →
        (OnWaapiRenamed w s Renamed).items = (CreateTreeItemWaapi w s (some p) obj).items ∧
        (OnWaapiRenamed w s Renamed).items.length = s.items.length + 1 ∧
        ((OnWaapiRenamed w s Renamed).deref p).Children.Perm
          ((s.deref p).Children ++ [s.items.length]) ∧
        ((OnWaapiRenamed w s Renamed).deref p).ChildCountInWwise =
          ((s.deref p).ChildCountInWwise + 1) % 2 ^ 32 ∧
        ((OnWaapiRenamed w s Renamed).deref s.items.length).Parent = some p ∧
        ((OnWaapiRenamed w s Renamed).deref s.items.length).DisplayName =
          GetStringField obj.name ∧
        ((OnWaapiRenamed w s Renamed).deref s.items.length).FolderPath =
          GetStringField obj.path) ∧
      (acceptsPayload w obj = false → (OnWaapiRenamed w s Renamed).items = s.items)) ∧
    (∀ (s : SWaapiPicker) (Renamed : FRenameResponse),
      Renamed.oldName = some "" →
      (∀ obj parsed, Renamed.object = some obj → obj.id = some parsed →
        TMap.Find s.pendingTreeItems (parseIdOr 0 (some parsed)) = none) →
      OnWaapiRenamed w s Renamed = s) := by
  refine ⟨?_, ?_, ?_, ?_⟩
  · rw [OnWaapiChildAdded_stash w s0 Added parentJson childJson p c hp hc hname hid hvalid hfind]
    exact TMap.Find_Add_self _ _ _
  · rw [OnWaapiChildAdded_stash w s0 Added parentJson childJson p c hp hc hname hid hvalid hfind]
  · intro s Renamed obj hpend hlt hold hobj hoid
    have e := OnWaapiRenamed_pending w s Renamed obj p c hpend hold hobj hoid
    have hit : (OnWaapiRenamed w s Renamed).items = (CreateTreeItemWaapi w s (some p) obj).items := by
      rw [e]
    refine ⟨by rw [e], by rw [e]; exact TMap.Find_Remove_self _ _, fun hacc => ?_, fun hrej => ?_⟩
    · have hsome : (ConstructWwiseTreeItem w s obj).1.isSome = true := by
        rw [ConstructWwiseTreeItem_isSome]; exact hacc
      cases hc1 : (ConstructWwiseTreeItem w s obj).1 with
      | none => rw [hc1] at hsome; cases hsome
      | some newChild =>
        obtain ⟨h0, h1, h2, h3, h4, h5, h6⟩ := CreateTreeItemWaapi_child w s p newChild obj hlt hc1
        subst h0
        rw [deref_congr _ _ hit p, deref_congr _ _ hit s.items.length, hit]
        exact ⟨rfl, h1, h2, h3, h4, h5, h6⟩
    · have hnone : (ConstructWwiseTreeItem w s obj).1 = none := by
        have h := ConstructWwiseTreeItem_isSome w s obj
        rw [hrej] at h
        cases hc1 : (ConstructWwiseTreeItem w s obj).1 with
        | none => rfl
        | some x => rw [hc1] at h; cases h
      rw [hit]
      simp only [CreateTreeItemWaapi, hnone]
      exact (ConstructWwiseTreeItem_none w s obj hnone).1
  · intro s Renamed hold hnot
    unfold OnWaapiRenamed
    simp only [hold, if_true]
    cases hobj : Renamed.object with
    | none => rfl
    | some obj =>
      simp only []
      cases hoid : obj.id with
      | none => rfl
      | some parsed =>
        simp only []
        rw [hnot obj parsed hobj hoid]

/-- Witness of C12 (amended): in the sample picker a child-added notification with an empty name
stashes the id 50 under the Events folder (address 0); the rename notification for the id 50,
whose object payload is accepted, then allocates the event "Ant" (address 2) with the folder
as parent and empties `pendingTreeItems`; the folder holds the new event and its old child. -/
theorem pending_child_finalized_witness :
    FindTreeItemFromJsonObject eventsPicker eventsJson "" = some 0 ∧
    TMap.Find (OnWaapiChildAdded offlineWorld eventsPicker
      { parent := some eventsJson,
        child := some { id := some (some 50), name := some "" } }).pendingTreeItems 50 = some 0 ∧
    acceptsPayload offlineWorld
      { id := some (some 50), name := some "Ant", type := some "Event",
        path := some "\\Events\\Ant" } = true ∧
    ((OnWaapiRenamed offlineWorld (OnWaapiChildAdded offlineWorld eventsPicker
        { parent := some eventsJson, child := some { id := some (some 50), name := some "" } })
      { oldName := some "", newName := some "Ant",
        object := some { id := some (some 50), name := some "Ant", type := some "Event",
                         path := some "\\Events\\Ant" } }).deref 2).Parent = some 0 ∧
    ((OnWaapiRenamed offlineWorld (OnWaapiChildAdded offlineWorld eventsPicker
        { parent := some eventsJson, child := some { id := some (some 50), name := some "" } })
      { oldName := some "", newName := some "Ant",
        object := some { id := some (some 50), name := some "Ant", type := some "Event",
                         path := some "\\Events\\Ant" } }).deref 0).Children = [2, 1] ∧
    (OnWaapiRenamed offlineWorld (OnWaapiChildAdded offlineWorld eventsPicker
        { parent := some eventsJson, child := some { id := some (some 50), name := some "" } })
      { oldName := some "", newName := some "Ant",
        object := some { id := some (some 50), name := some "Ant", type := some "Event",
                         path := some "\\Events\\Ant" } }).pendingTreeItems = [] := by
  have h := pending_child_finalized offlineWorld eventsPicker
    { parent := some eventsJson, child := some { id := some (some 50), name := some "" } }
    eventsJson { id := some (some 50), name := some "" } 0 50 rfl rfl rfl rfl (by decide)
    (by decide)
  have h2 := (h.2.2.1 (OnWaapiChildAdded offlineWorld eventsPicker
      { parent := some eventsJson, child := some { id := some (some 50), name := some "" } })
    { oldName := some "", newName := some "Ant",
      object := some { id := some (some 50), name := some "Ant", type := some "Event",
                       path := some "\\Events\\Ant" } }
    { id := some (some 50), name := some "Ant", type := some "Event",
      path := some "\\Events\\Ant" } h.1 (by decide) rfl rfl rfl).2.2.1 (by decide)
  exact ⟨by decide, h.1, by decide, h2.2.2.2.2.1, by decide, by decide⟩

/-! ### Malformed notifications -/

/-- Counterexample to C13 as stated: the object of the rename notification has an id but no
path; its old name is empty and the id 50 is pending, so the handler runs
`CreateTreeItemWaapi`, which creates nothing for a payload without a path, and then removes the
id from `pendingTreeItems`. -/
theorem rename_without_path_drops_pending :
    ({ id := some (some 50), name := some "Ant", type := some "Event" } : FJsonObject).path = none ∧
    pendingPicker.pendingTreeItems = [(50, 0)] ∧
    (OnWaapiRenamed offlineWorld pendingPicker
      { oldName := some "", newName := some "Ant",
        object := some { id := some (some 50), name := some "Ant", type := some "Event" } }
      ).pendingTreeItems = [] ∧
    (OnWaapiRenamed offlineWorld pendingPicker
      { oldName := some "", newName := some "Ant",
        object := some { id := some (some 50), name := some "Ant", type := some "Event" } }
      ).items = pendingPicker.items := by
  decide

theorem FindTreeItemFromJsonObject_malformed (s : SWaapiPicker) (js : FJsonObject)
    (OverrideLastPart : String) (h : js.path = none ∨ js.id = none) :
    FindTreeItemFromJsonObject s js OverrideLastPart = none := by
  unfold FindTreeItemFromJsonObject
  rcases h with h | h
  · simp [h]
  · cases js.path <;> simp [h]

theorem HandleOnWaapiChildResponse_malformed
    (Action : SWaapiPicker → Ptr → FJsonObject → SWaapiPicker) (s : SWaapiPicker)
    (R : FChildResponse)
    (h : R.parent = none ∨ R.child = none ∨
      ∃ parentJson, R.parent = some parentJson ∧ (parentJson.path = none ∨ parentJson.id = none)) :
    HandleOnWaapiChildResponse Action s R = s := by
  unfold HandleOnWaapiChildResponse
  rcases h with h | h | ⟨pj, h, hpj⟩
  · simp [h]
  · cases R.parent <;> simp [h]
  · simp only [h]
    cases R.child with
    | none => rfl
    | some cj =>
      simp [FindTreeItemFromJsonObject_malformed s pj "" hpj]

/-- C13 (amended).  Malformed notifications that leave the state of the picker (the tree, the
counts, `LastExpandedItems` and `pendingTreeItems` included) exactly as it was: a child-added
or child-removed payload without the parent object or without the child object, or whose
parent object lacks the path or the id field; a rename payload without the object field, or
whose object lacks the id field, or whose old name is not the empty text and whose object
lacks the path field. -/
theorem malformed_notifications_ignored (w : World) (s : SWaapiPicker) :
    (∀ R : FChildResponse,
      (R.parent = none ∨ R.child = none ∨
        ∃ parentJson, R.parent = some parentJson ∧
          (parentJson.path = none ∨ parentJson.id = none)) →
      OnWaapiChildAdded w s R = s ∧ OnWaapiChildRemoved s R = s) ∧
    (∀ R : FRenameResponse,
      (R.object = none ∨
        ∃ obj, R.object = some obj ∧
          (obj.id = none ∨ (obj.path = none ∧ R.oldName ≠ some ""))) →
      OnWaapiRenamed w s R = s) := by
  constructor
  · intro R h
    exact ⟨HandleOnWaapiChildResponse_malformed _ s R h,
      HandleOnWaapiChildResponse_malformed _ s R h⟩
  · intro R h
    unfold OnWaapiRenamed
    rcases h with h | ⟨obj, h, hobj⟩
    · simp [h]
    · simp only [h]
      rcases hobj with hid | ⟨hpath, hold⟩
      · simp [hid, FindTreeItemFromJsonObject_malformed s obj _ (Or.inr hid)]
      · simp [hold, FindTreeItemFromJsonObject_malformed s obj _ (Or.inl hpath)]

/-- Witness of C13 (amended): in the picker with a pending child, a child-added payload whose
parent object has no path and a rename payload (old name "Zebra!") whose object has no path
change nothing. -/
theorem malformed_notifications_ignored_witness :
    OnWaapiChildAdded offlineWorld pendingPicker
      { parent := some { id := some (some 1) },
        child := some { id := some (some 50), name := some "Ant", type := some "Event",
                        path := some "\\Events\\Ant" } } = pendingPicker ∧
    OnWaapiRenamed offlineWorld pendingPicker
      { oldName := some "Zebra!", newName := some "Ant",
        object := some { id := some (some 20) } } = pendingPicker :=
  ⟨((malformed_notifications_ignored offlineWorld pendingPicker).1 _
      (Or.inr (Or.inr ⟨_, rfl, Or.inl rfl⟩))).1,
    (malformed_notifications_ignored offlineWorld pendingPicker).2 _
      (Or.inr ⟨_, rfl, Or.inr ⟨rfl, by decide⟩⟩)⟩

/-! ### The populate task -/

theorem CallWaapiGetInfoFrom_reply (w : World) (s t : SWaapiPicker) (rq : WaapiRequest)
    (h : s.sent = t.sent) : (CallWaapiGetInfoFrom w s rq).1 = (CallWaapiGetInfoFrom w t rq).1 := by
  unfold CallWaapiGetInfoFrom
  cases w.client with
  | none => rfl
  | some c => simp [FAkWaapiClient.send, h]

theorem populateTask_grows (w : World) :
    ∀ (cats : List EWwiseItemType) (s t : SWaapiPicker), populateTask w cats s = some t →
      s.RootItems <+: t.RootItems ∧ s.items <+: t.items := by
  intro cats
  induction cats with
  | nil =>
    intro s t h
    simp only [populateTask, Option.some.injEq] at h
    subst h
    exact ⟨List.prefix_refl _, List.prefix_refl _⟩
  | cons cat rest ih =>
    intro s t h
    unfold populateTask at h
    simp only [] at h
    obtain ⟨hi, hri⟩ := CallWaapiGetInfoFrom_items w { s with guids := s.guids + 1 }
      (.objectGetPath (BACK_SLASH ++ w.FolderNames cat))
    generalize CallWaapiGetInfoFrom w { s with guids := s.guids + 1 }
      (.objectGetPath (BACK_SLASH ++ w.FolderNames cat)) = r at h hi hri
    by_cases hsucc : r.1.success = true
    · simp only [hsucc, if_true] at h
      cases hret : r.1.ret with
      | nil => simp [hret] at h
      | cons ItemInfoObj others =>
        simp only [hret] at h
        obtain ⟨h1, h2⟩ := ih _ t h
        simp only [SWaapiPicker.MakeShared, hri, hi] at h1 h2
        exact ⟨(List.prefix_append _ _).trans h1, (List.prefix_append _ _).trans h2⟩
    · simp only [hsucc] at h
      simp only [Bool.false_eq_true, if_false, Option.some.injEq] at h
      subst h
      simp only [hri, hi]
      exact ⟨List.prefix_refl _, List.prefix_refl _⟩

/-- C14, evaluated at the failing input.  The remote answers the path query for the first
category with success and an empty `return` array.  The populate task reads element 0 of that
array without looking at its length, an access out of range: the task has no result, and no
root item of type `PhysicalFolder` is appended for the category whose query succeeded. -/
theorem populate_with_empty_reply_appends_nothing :
    (CallWaapiGetInfoFrom emptyReplyWorld {} (.objectGetPath "\\Events")).1.success = true ∧
    (CallWaapiGetInfoFrom emptyReplyWorld {} (.objectGetPath "\\Events")).1.ret = [] ∧
    (populateTask emptyReplyWorld Categories {}).isNone = true ∧
    (ConstructTreeTaskBody emptyReplyWorld {}).isNone = true := by
  decide

/-- One round of the populate loop of `ConstructTree`, for the category `cat` with the
categories `rest` still to come.  If the path query for `cat` fails, the task ends
with `bRequestRefresh` set and with the root items (and all items) it had when the round
began: nothing is added for `cat` or for a later category.  If the query succeeds and its
reply holds at least one object, a root item is appended and the loop goes on with the next
category: the new root item has type `PhysicalFolder`, the path and the child count of the
first object of the reply, and its id (a fresh guid when the id text does not parse); it is
still there, unchanged, whenever the task ends. -/
theorem populateTask_round (w : World) (cat : EWwiseItemType) (rest : List EWwiseItemType)
    (s : SWaapiPicker) :
    ((CallWaapiGetInfoFrom w s (.objectGetPath (BACK_SLASH ++ w.FolderNames cat))).1.success
        = false →
      ∃ t, populateTask w (cat :: rest) s = some t ∧ t.bRequestRefresh = true ∧
        t.RootItems = s.RootItems ∧ t.items = s.items) ∧
    (∀ (ItemInfoObj : FJsonObject) (others : List FJsonObject),
      (CallWaapiGetInfoFrom w s (.objectGetPath (BACK_SLASH ++ w.FolderNames cat))).1.success
        = true →
      (CallWaapiGetInfoFrom w s (.objectGetPath (BACK_SLASH ++ w.FolderNames cat))).1.ret
        = ItemInfoObj :: others →
      ∃ s1, populateTask w (cat :: rest) s = populateTask w rest s1 ∧
        s1.RootItems = s.RootItems ++ [s.items.length] ∧
        s1.items.length = s.items.length + 1 ∧
        (s1.deref s.items.length).ItemType = .PhysicalFolder ∧
        (s1.deref s.items.length).ItemId = parseIdOr (w.NewGuid s.guids) ItemInfoObj.id ∧
        (s1.deref s.items.length).FolderPath = GetStringField ItemInfoObj.path ∧
        (s1.deref s.items.length).ChildCountInWwise =
          ItemInfoObj.childrenCount.getD 0 % 2 ^ 32 ∧
        (s1.deref s.items.length).DisplayName = w.ItemNames cat ∧
        ∀ t, populateTask w (cat :: rest) s = some t →
          s.RootItems ++ [s.items.length] <+: t.RootItems ∧
          t.deref s.items.length = s1.deref s.items.length) := by
  have hreply := CallWaapiGetInfoFrom_reply w s { s with guids := s.guids + 1 }
    (.objectGetPath (BACK_SLASH ++ w.FolderNames cat)) rfl
  obtain ⟨hi, hri⟩ := CallWaapiGetInfoFrom_items w { s with guids := s.guids + 1 }
    (.objectGetPath (BACK_SLASH ++ w.FolderNames cat))
  rw [hreply]
  constructor
  · intro hfail
    unfold populateTask
    simp only [hfail, Bool.false_eq_true, if_false]
    exact ⟨_, rfl, rfl, hri, hi⟩
  · intro ItemInfoObj others hok hret
    obtain ⟨s1, hs1⟩ : ∃ s1 : SWaapiPicker, s1 =
        { ((CallWaapiGetInfoFrom w { s with guids := s.guids + 1 }
              (.objectGetPath (BACK_SLASH ++ w.FolderNames cat))).2.MakeShared
            { DisplayName := w.ItemNames cat, FolderPath := GetStringField ItemInfoObj.path,
              Parent := none, ItemType := .PhysicalFolder,
              ItemId := parseIdOr (w.NewGuid s.guids) ItemInfoObj.id,
              ChildCountInWwise := ItemInfoObj.childrenCount.getD 0 % 2 ^ 32 }).2 with
          RootItems := ((CallWaapiGetInfoFrom w { s with guids := s.guids + 1 }
              (.objectGetPath (BACK_SLASH ++ w.FolderNames cat))).2.MakeShared
            { DisplayName := w.ItemNames cat, FolderPath := GetStringField ItemInfoObj.path,
              Parent := none, ItemType := .PhysicalFolder,
              ItemId := parseIdOr (w.NewGuid s.guids) ItemInfoObj.id,
              ChildCountInWwise := ItemInfoObj.childrenCount.getD 0 % 2 ^ 32 }).2.RootItems ++
            [((CallWaapiGetInfoFrom w { s with guids := s.guids + 1 }
              (.objectGetPath (BACK_SLASH ++ w.FolderNames cat))).2.MakeShared
            { DisplayName := w.ItemNames cat, FolderPath := GetStringField ItemInfoObj.path,
              Parent := none, ItemType := .PhysicalFolder,
              ItemId := parseIdOr (w.NewGuid s.guids) ItemInfoObj.id,
              ChildCountInWwise := ItemInfoObj.childrenCount.getD 0 % 2 ^ 32 }).1] } := ⟨_, rfl⟩
    have hstep : populateTask w (cat :: rest) s = populateTask w rest s1 := by
      rw [hs1]
      conv => lhs; unfold populateTask
      simp only [hok, if_true, hret]
    have hitems : s1.items = s.items ++
        [{ DisplayName := w.ItemNames cat, FolderPath := GetStringField ItemInfoObj.path,
           Parent := none, ItemType := .PhysicalFolder,
           ItemId := parseIdOr (w.NewGuid s.guids) ItemInfoObj.id,
           ChildCountInWwise := ItemInfoObj.childrenCount.getD 0 % 2 ^ 32 }] := by
      rw [hs1]; simp only [SWaapiPicker.MakeShared, hi]
    have hroots : s1.RootItems = s.RootItems ++ [s.items.length] := by
      rw [hs1]; simp only [SWaapiPicker.MakeShared, hi, hri]
    have hd : s1.deref s.items.length =
        { DisplayName := w.ItemNames cat, FolderPath := GetStringField ItemInfoObj.path,
          Parent := none, ItemType := .PhysicalFolder,
          ItemId := parseIdOr (w.NewGuid s.guids) ItemInfoObj.id,
          ChildCountInWwise := ItemInfoObj.childrenCount.getD 0 % 2 ^ 32 } := by
      simp [SWaapiPicker.deref, hitems, List.getD_eq_getElem?_getD]
    refine ⟨s1, hstep, hroots, by rw [hitems]; simp, by rw [hd], by rw [hd], by rw [hd],
      by rw [hd], by rw [hd], ?_⟩
    intro t ht
    rw [hstep] at ht
    obtain ⟨h1, h2⟩ := populateTask_grows w rest s1 t ht
    rw [hroots] at h1
    refine ⟨h1, ?_⟩
    obtain ⟨extra, he⟩ := h2
    have hlt : s.items.length < s1.items.length := by rw [hitems]; simp
    simp only [SWaapiPicker.deref, List.getD_eq_getElem?_getD, ← he,
      List.getElem?_append_left hlt]

/-- Instance of `populateTask_round`: in the sample project the round for the Events category,
run on the empty picker, appends the root item at address 0, of type `PhysicalFolder`. -/
theorem populateTask_round_witness :
    (CallWaapiGetInfoFrom projectWorld {}
      (.objectGetPath (BACK_SLASH ++ projectWorld.FolderNames .Event))).1.success = true ∧
    (populateTask projectWorld [.Event] {}).map (fun t => t.RootItems) = some [0] ∧
    (populateTask projectWorld [.Event] {}).map (fun t => (t.deref 0).ItemType) =
      some .PhysicalFolder := by
  refine ⟨by decide, by decide, ?_⟩
  obtain ⟨s1, h1, _, _, h4, _⟩ :=
    (populateTask_round projectWorld .Event [] {}).2 _ _ (by decide) rfl
  rw [h1]
  exact congrArg some h4

/-- When the populate task ends without having set `bRequestRefresh`, it has appended one root
item for every category. -/
theorem populateTask_complete (w : World) :
    ∀ (cats : List EWwiseItemType) (s t : SWaapiPicker), populateTask w cats s = some t →
      t.bRequestRefresh = false →
      t.RootItems.length = s.RootItems.length + cats.length := by
  intro cats
  induction cats with
  | nil =>
    intro s t h _
    simp only [populateTask, Option.some.injEq] at h
    subst h
    rfl
  | cons cat rest ih =>
    intro s t h hflag
    unfold populateTask at h
    simp only [] at h
    obtain ⟨_, hri⟩ := CallWaapiGetInfoFrom_items w { s with guids := s.guids + 1 }
      (.objectGetPath (BACK_SLASH ++ w.FolderNames cat))
    generalize CallWaapiGetInfoFrom w { s with guids := s.guids + 1 }
      (.objectGetPath (BACK_SLASH ++ w.FolderNames cat)) = r at h hri
    by_cases hsucc : r.1.success = true
    · simp only [hsucc, if_true] at h
      cases hret : r.1.ret with
      | nil => simp [hret] at h
      | cons ItemInfoObj others =>
        simp only [hret] at h
        rw [ih _ t h hflag]
        simp only [SWaapiPicker.MakeShared, hri, List.length_append, List.length_cons,
          List.length_nil]
        omega
    · simp only [hsucc] at h
      simp only [Bool.false_eq_true, if_false, Option.some.injEq] at h
      subst h
      simp at hflag

/-! ### The slots of `RootItems` -/

/-- C16, evaluated at the failing input.  The remote answers the path query for the Events
folder and fails the next one.  The repopulation ends with `bRequestRefresh` set and with one
root item, so `RootItems` is neither empty nor complete.  With the text "a" in the filter box,
`FilterUpdated` sees a non-empty `RootItems` and runs `ApplyFilter`, whose access to
`RootItems[1]` is out of range; the next `Tick`, which retries through `ConstructTree` and
`FilterUpdated`, does the same; so does `GetRootItem` for a path outside the Events folder. -/
theorem partial_population_breaks_root_slots :
    (ConstructTreeTaskBody flakyWorld {}).map (fun s => s.RootItems.length) = some 1 ∧
    (ConstructTreeTaskBody flakyWorld {}).map (fun s => s.bRequestRefresh) = some true ∧
    (runMirror flakyWorld 4 [.repopulate] {}).map (fun s => s.RootItems.length) = some 1 ∧
    ((ConstructTreeTaskBody flakyWorld {}).bind
      (fun s => FilterUpdated flakyWorld 4 { s with FilterText := "a" })).isNone = true ∧
    ((ConstructTreeTaskBody flakyWorld {}).bind
      (fun s => Tick flakyWorld 4 { s with FilterText := "a" })).isNone = true ∧
    ((ConstructTreeTaskBody flakyWorld {}).bind
      (fun s => GetRootItem s "\\Triggers\\Jump")).isNone = true := by
  decide

/-! ### A filter query whose search fails -/

theorem SortChildren_of_no_children (w : World) (s : SWaapiPicker) (p : Ptr)
    (h : (s.deref p).Children = []) : SortChildren w s p = s := by
  by_cases hp : p < s.items.length
  · have e : ∀ (it : FWwiseTreeItem) (le : Ptr → Ptr → Bool), it.Children = [] →
        ({ it with Children := sortBy le it.Children } : FWwiseTreeItem) = it := by
      intro it le hit
      cases it
      simp only at hit
      simp [hit, sortBy]
    have e2 : s.items.set p (s.deref p) = s.items := by
      apply List.ext_getElem?
      intro n
      by_cases hn : p = n
      · subst hn
        simp [List.getElem?_set, hp, SWaapiPicker.deref, List.getD_eq_getElem?_getD]
      · simp [List.getElem?_set, hn]
    unfold SortChildren SWaapiPicker.update
    simp only [e (s.deref p) _ h, e2]
  · exact update_of_not_lt s p _ hp

theorem TreeExpansionChanged_muted (w : World) (s : SWaapiPicker) (item : Ptr)
    (hA : s.AllowTreeViewDelegates = false) :
    TreeExpansionChanged w s item true = SortChildren w s item := by
  unfold TreeExpansionChanged
  simp [hA]

theorem RestoreTreeExpansion_collapsed (w : World) (f : Nat) :
    ∀ (Items : List Ptr) (s : SWaapiPicker), s.AllowTreeViewDelegates = false →
      (∀ r ∈ Items, (s.deref r).Children = []) →
      ∃ t, RestoreTreeExpansion w (f + 2) Items s = some t ∧ t.items = s.items ∧
        t.RootItems = s.RootItems ∧ t.LastExpandedItems = s.LastExpandedItems ∧
        t.AllowTreeViewDelegates = false := by
  intro Items
  induction Items with
  | nil =>
    intro s hA _
    exact ⟨s, by simp [RestoreTreeExpansion], rfl, rfl, rfl, hA⟩
  | cons item rest ih =>
    intro s hA hI
    have hitem := hI item (List.mem_cons_self _ _)
    -- the state after the item itself
    obtain ⟨s1, hs1⟩ : ∃ s1, s1 = (if (s.deref item).ItemId ∈ s.LastExpandedItems
        then SetItemExpansion w s item else s) := ⟨_, rfl⟩
    have h1 : s1.items = s.items ∧ s1.RootItems = s.RootItems ∧
        s1.LastExpandedItems = s.LastExpandedItems ∧ s1.AllowTreeViewDelegates = false := by
      rw [hs1]
      by_cases hm : (s.deref item).ItemId ∈ s.LastExpandedItems
      · rw [if_pos hm]
        unfold SetItemExpansion
        by_cases hv : item ∈ s.ExpandedInView
        · rw [if_pos hv]
          exact ⟨rfl, rfl, rfl, hA⟩
        · rw [if_neg hv]
          obtain ⟨s0, hs0⟩ : ∃ s0, s0 = { s with ExpandedInView := insert item s.ExpandedInView } :=
            ⟨_, rfl⟩
          rw [← hs0]
          have hA0 : s0.AllowTreeViewDelegates = false := by rw [hs0]; exact hA
          have hc0 : (s0.deref item).Children = [] := by rw [hs0]; exact hitem
          rw [TreeExpansionChanged_muted w s0 item hA0, SortChildren_of_no_children w s0 item hc0,
            hs0]
          exact ⟨rfl, rfl, rfl, hA⟩
      · rw [if_neg hm]
        exact ⟨rfl, rfl, rfl, hA⟩
    have hd : ∀ q, s1.deref q = s.deref q := deref_congr s1 s h1.1
    obtain ⟨t, ht, ht1, ht2, ht3, ht4⟩ := ih s1 h1.2.2.2
      (fun r hr => by rw [hd]; exact hI r (List.mem_cons_of_mem _ hr))
    refine ⟨t, ?_, ht1.trans h1.1, ht2.trans h1.2.1, ht3.trans h1.2.2.1, ht4⟩
    rw [← ht]
    simp only [RestoreTreeExpansion, List.foldlM_cons]
    rw [← hs1, hd, hitem]
    simp [RestoreTreeExpansion]

theorem update_no_children (s : SWaapiPicker) (root q : Ptr) :
    (q = root ∨ (s.deref q).Children = []) →
    ((s.update root (fun it => { it with Children := [] })).deref q).Children = [] := by
  intro h
  by_cases hq : q = root
  · subst hq
    by_cases hlt : q < s.items.length
    · rw [deref_update_same _ _ _ hlt]
    · rw [update_of_not_lt _ _ _ hlt]
      simp [SWaapiPicker.deref, List.getD_eq_getElem?_getD,
        List.getElem?_eq_none (Nat.le_of_not_lt hlt)]
      rfl
  · rw [deref_update_ne _ _ _ _ hq]
    exact h.resolve_left hq

theorem emptyRootChildren_spec :
    ∀ (idxs : List Nat) (s : SWaapiPicker), (∀ i ∈ idxs, i < s.RootItems.length) →
      ∃ t, emptyRootChildren idxs s = some t ∧ t.RootItems = s.RootItems ∧ t.sent = s.sent ∧
        t.LastExpandedItems = s.LastExpandedItems ∧
        t.LastExpandedItemsBeforFilter = s.LastExpandedItemsBeforFilter ∧
        t.FilterText = s.FilterText ∧
        (∀ q, (∃ i ∈ idxs, s.RootItems[i]? = some q) → (t.deref q).Children = []) ∧
        (∀ q, (s.deref q).Children = [] → (t.deref q).Children = []) ∧
        (∀ q, (¬ ∃ i ∈ idxs, s.RootItems[i]? = some q) → t.deref q = s.deref q) := by
  intro idxs
  induction idxs with
  | nil =>
    intro s _
    exact ⟨s, rfl, rfl, rfl, rfl, rfl, rfl, fun q ⟨i, hi, _⟩ => (List.not_mem_nil i hi).elim,
      fun _ h => h, fun _ _ => rfl⟩
  | cons i rest ih =>
    intro s hall
    have hi := hall i (List.mem_cons_self _ _)
    obtain ⟨root, hroot⟩ : ∃ root, s.RootItems[i]? = some root :=
      ⟨s.RootItems[i], List.getElem?_eq_getElem hi⟩
    obtain ⟨t, ht, h1, h2, h3, h4, h5, h6, h7, h8⟩ :=
      ih (s.update root (fun it => { it with Children := [] }))
        (fun j hj => hall j (List.mem_cons_of_mem _ hj))
    refine ⟨t, ?_, h1, h2, h3, h4, h5, ?_, ?_, ?_⟩
    · simp only [emptyRootChildren, hroot]
      exact ht
    · intro q ⟨j, hj, hq⟩
      rcases List.mem_cons.1 hj with e | hmem
      · subst e
        have : q = root := by rw [hroot] at hq; exact (Option.some.inj hq).symm
        exact h7 q (update_no_children s root q (Or.inl this))
      · exact h6 q ⟨j, hmem, hq⟩
    · intro q hq
      exact h7 q (update_no_children s root q (Or.inr hq))
    · intro q hq
      have hne : q ≠ root := fun e => hq ⟨i, List.mem_cons_self _ _, by rw [hroot, e]⟩
      rw [h8 q (fun ⟨j, hj, hjq⟩ => hq ⟨j, List.mem_cons_of_mem _ hj, hjq⟩),
        deref_update_ne _ _ _ _ hne]

theorem CallWaapiGetInfoFrom_frame (w : World) (s : SWaapiPicker) (rq : WaapiRequest) :
    (CallWaapiGetInfoFrom w s rq).2 = { s with sent := (CallWaapiGetInfoFrom w s rq).2.sent } := by
  unfold CallWaapiGetInfoFrom
  cases w.client <;> rfl

/-- Counterexample to C15 as stated: in the mirror whose Events folder (address 0) holds a
child and in which seven folders are expanded, the filter query "a" is refused by the remote;
after `ApplyFilter` the root items are the same, but the Events folder has no child left and
`LastExpandedItems` is empty. -/
theorem failed_search_empties_the_roots :
    (CallWaapiGetInfoFrom refusingWorld { placeholderMirror with FilterText := "a" }
      (.objectSearch "a" 2000)).1.success = false ∧
    (placeholderMirror.deref 0).Children = [8] ∧
    placeholderMirror.LastExpandedItems.card = 7 ∧
    (ApplyFilter refusingWorld 4 { placeholderMirror with FilterText := "a" }).map
      (fun t => t.RootItems) = some placeholderMirror.RootItems ∧
    (ApplyFilter refusingWorld 4 { placeholderMirror with FilterText := "a" }).map
      (fun t => (t.deref 0).Children) = some [] ∧
    (ApplyFilter refusingWorld 4 { placeholderMirror with FilterText := "a" }).map
      (fun t => t.LastExpandedItems) = some ∅ := by
  decide

/-- C15 (amended).  A filter query whose search call fails: for a mirror with one root item
per category and a non-empty filter text, `ApplyFilter` (with fuel for two levels of
`RestoreTreeExpansion`) ends; afterwards the root items are the same, every root item has an
empty `Children` list, every item that is not a root item is as before, and
`LastExpandedItems` is empty when no snapshot was held on entry (the expansion set has moved
into the snapshot) and unchanged when one was held. -/
theorem ApplyFilter_search_fails (w : World) (fuel : Nat) (s : SWaapiPicker)
    (hroots : s.RootItems.length = Categories.length) (htext : s.FilterText ≠ "")
    (hfail : (CallWaapiGetInfoFrom w s
      (.objectSearch s.FilterText (2000 * s.FilterText.length))).1.success = false) :
    ∃ t, ApplyFilter w (fuel + 2) s = some t ∧ t.RootItems = s.RootItems ∧
      (∀ r ∈ s.RootItems, (t.deref r).Children = []) ∧
      (∀ q, q ∉ s.RootItems → t.deref q = s.deref q) ∧
      t.LastExpandedItems =
        (if s.LastExpandedItemsBeforFilter.card = 0 then ∅ else s.LastExpandedItems) ∧
      t.LastExpandedItemsBeforFilter =
        (if s.LastExpandedItemsBeforFilter.card = 0 then s.LastExpandedItems
         else s.LastExpandedItemsBeforFilter) := by
  obtain ⟨s1, he, h1, h2, h3, h4, h5, h6, _, h8⟩ :=
    emptyRootChildren_spec (List.range Categories.length) s
      (fun i hi => by rw [hroots]; exact List.mem_range.1 hi)
  have hmem : ∀ q, q ∈ s.RootItems ↔ ∃ i ∈ List.range Categories.length, s.RootItems[i]? = some q := by
    intro q
    constructor
    · intro hq
      obtain ⟨i, hi, hiq⟩ := List.getElem_of_mem hq
      exact ⟨i, List.mem_range.2 (by rw [← hroots]; exact hi), by
        rw [List.getElem?_eq_getElem hi, hiq]⟩
    · intro ⟨i, _, hiq⟩
      exact List.getElem?_mem hiq
  -- the state in which the search is issued
  obtain ⟨s3, hs3⟩ : ∃ s3 : SWaapiPicker, s3 =
      (if s1.LastExpandedItemsBeforFilter.card = 0 then
        { s1 with AllowTreeViewDelegates := false,
                  LastExpandedItemsBeforFilter := s1.LastExpandedItems, LastExpandedItems := ∅ }
      else { s1 with AllowTreeViewDelegates := false }) := ⟨_, rfl⟩
  have hs3i : s3.items = s1.items ∧ s3.RootItems = s1.RootItems ∧ s3.sent = s1.sent ∧
      s3.AllowTreeViewDelegates = false ∧ s3.FilterText = s1.FilterText ∧
      s3.LastExpandedItems =
        (if s.LastExpandedItemsBeforFilter.card = 0 then ∅ else s.LastExpandedItems) ∧
      s3.LastExpandedItemsBeforFilter =
        (if s.LastExpandedItemsBeforFilter.card = 0 then s.LastExpandedItems
         else s.LastExpandedItemsBeforFilter) := by
    rw [hs3, h4, h3]
    by_cases hcard : s.LastExpandedItemsBeforFilter.card = 0
    · simp only [hcard, if_true, and_self]
    · simp only [hcard, if_false, and_self, h3, h4]
  obtain ⟨a1, a2, a3, a4, a5, a6, a7⟩ := hs3i
  have hreply : (CallWaapiGetInfoFrom w s3
      (.objectSearch s.FilterText (2000 * s.FilterText.length))).1.success = false := by
    rw [CallWaapiGetInfoFrom_reply w s3 s _ (a3.trans h2)]
    exact hfail
  have hframe := CallWaapiGetInfoFrom_frame w s3
    (.objectSearch s.FilterText (2000 * s.FilterText.length))
  obtain ⟨s5, hs5⟩ : ∃ s5, s5 = (CallWaapiGetInfoFrom w s3
      (.objectSearch s.FilterText (2000 * s.FilterText.length))).2 := ⟨_, rfl⟩
  rw [← hs5] at hframe
  have b1 : s5.items = s1.items := by rw [hframe]; exact a1
  have b2 : s5.RootItems = s.RootItems := by rw [hframe]; exact a2.trans h1
  have b4 : s5.AllowTreeViewDelegates = false := by rw [hframe]; exact a4
  have b6 : s5.LastExpandedItems = s3.LastExpandedItems := by rw [hframe]
  have b7 : s5.LastExpandedItemsBeforFilter = s3.LastExpandedItemsBeforFilter := by rw [hframe]
  have hd5 : ∀ q, s5.deref q = s1.deref q := deref_congr s5 s1 b1
  obtain ⟨s6, hs6, c1, c2, c3, _⟩ := RestoreTreeExpansion_collapsed w fuel s5.RootItems s5 b4
    (fun r hr => by
      rw [hd5]
      rw [b2] at hr
      exact h6 r ((hmem r).1 hr))
  have hc4 := RestoreTreeExpansion_static w (fuel + 2) s5.RootItems s5 s6 hs6
  have hd6 : ∀ q, s6.deref q = s1.deref q := fun q => (deref_congr s6 s5 c1 q).trans (hd5 q)
  refine ⟨{ s6 with AllowTreeViewDelegates := true }, ?_, c2.trans b2, ?_, ?_,
    c3.trans (b6.trans a6), hc4.trans (b7.trans a7)⟩
  · unfold ApplyFilter
    have htext1 : ¬ s1.FilterText = "" := by rw [h5]; exact htext
    simp only [he, htext1, if_false]
    rw [← h5] at hreply hs5
    have e3 : (if s1.LastExpandedItemsBeforFilter.card = 0 then
        { s1 with AllowTreeViewDelegates := false,
                  LastExpandedItemsBeforFilter := s1.LastExpandedItems, LastExpandedItems := ∅ }
        else { s1 with AllowTreeViewDelegates := false }) = s3 := hs3.symm
    simp only [e3, hreply, Bool.false_eq_true, if_false, ← hs5, hs6]
  · intro r hr
    show (s6.deref r).Children = []
    rw [hd6]
    exact h6 r ((hmem r).1 hr)
  · intro q hq
    show s6.deref q = s.deref q
    rw [hd6]
    exact h8 q (fun hex => hq ((hmem q).2 hex))

/-- Witness of C15 (amended): the refused filter query "a" on the mirror holding the
placeholder keeps the eight root items. -/
theorem ApplyFilter_search_fails_witness :
    ({ placeholderMirror with FilterText := "a" } : SWaapiPicker).RootItems.length =
      Categories.length ∧
    (CallWaapiGetInfoFrom refusingWorld { placeholderMirror with FilterText := "a" }
      (.objectSearch "a" (2000 * "a".length))).1.success = false ∧
    (ApplyFilter refusingWorld (2 + 2) { placeholderMirror with FilterText := "a" }).map
      (fun t => t.RootItems) = some placeholderMirror.RootItems := by
  refine ⟨by decide, by decide, ?_⟩
  obtain ⟨t, ht, hr, _⟩ := ApplyFilter_search_fails refusingWorld 2
    { placeholderMirror with FilterText := "a" } (by decide) (by decide) (by decide)
  rw [ht]
  exact congrArg some hr

/-! ### Asset factories -/

theorem createChecked_digit (w : FactoryWorld) (T : AkAssetType) (DoWwiseSync : WwiseSync)
    (UsingAutoSync WAAPIAvailable : Bool) (Class InParent Name : String) (Flags : Nat)
    (AssetID : FGuid) (hd : startsWithDigit Name = true) :
    AkAssetFactory_Helper.createChecked w T DoWwiseSync UsingAutoSync WAAPIAvailable Class
      InParent Name Flags AssetID = { object := none, calls := [], dialogs := 1 } := by
  simp [AkAssetFactory_Helper.createChecked, hd]

/-- C17.  Illegal-name validation: for every asset type, every value of the template
parameter, every setting of auto-sync and of WAAPI availability (the settings object existing
when event-based packaging is reported on) and every non-empty asset name whose first
character is a decimal digit, `AkAssetFactory_Helper::FactoryCreateNew` returns null after one
modal message, having created no object and issued no remote create call, and
`UAkAudioBankFactory::FactoryCreateNew` returns null, having created no object and issued no
remote call. -/
theorem digit_name_blocks_creation (w : FactoryWorld) (T : AkAssetType)
    (DoWwiseSync : WwiseSync) (Class InParent Name : String) (Flags : Nat) (AssetID : FGuid)
    (c : Char) (rest : List Char)
    (hsettings : w.IsUsingEventBased = true → w.akSettings.isSome = true)
    (hname : Name.data = c :: rest) (hdigit : c.isDigit = true) :
    AkAssetFactory_Helper.FactoryCreateNew w T DoWwiseSync Class InParent Name Flags AssetID =
      some { object := none, calls := [], dialogs := 1 } ∧
    (UAkAudioBankFactory.FactoryCreateNew w Class InParent Name Flags).object = none ∧
    (UAkAudioBankFactory.FactoryCreateNew w Class InParent Name Flags).calls = [] := by
  have hd : startsWithDigit Name = true := by
    simp [startsWithDigit, hname, hdigit]
  refine ⟨?_, ?_, ?_⟩
  · unfold AkAssetFactory_Helper.FactoryCreateNew
    simp only [createChecked_digit w T DoWwiseSync _ _ Class InParent Name Flags AssetID hd]
    by_cases hev : w.IsUsingEventBased = true
    · obtain ⟨st, hst⟩ := Option.isSome_iff_exists.1 (hsettings hev)
      simp only [hev, if_true, hst, Option.map_some']
      split <;> [split; skip] <;> rfl
    · simp only [hev, Bool.false_eq_true, if_false]
      rfl
  · unfold UAkAudioBankFactory.FactoryCreateNew
    simp only [hd, if_true]
    split <;> rfl
  · unfold UAkAudioBankFactory.FactoryCreateNew
    simp only [hd, if_true]
    split <;> rfl

/-- Witness of C17: the name "1shot" for an audio event, with auto-sync in use and a project
loaded. -/
theorem digit_name_blocks_creation_witness :
    ("1shot".data = (Char.ofNat 49) :: "shot".data) ∧ (Char.ofNat 49).isDigit = true ∧
    AkAssetFactory_Helper.FactoryCreateNew autoSyncOnline .UAkAudioEvent .Enabled "AkAudioEvent"
      "/Game/WwiseAudio/Events/1shot" "1shot" 0 0 =
      some { object := none, calls := [], dialogs := 1 } :=
  ⟨by decide, by decide,
    (digit_name_blocks_creation autoSyncOnline .UAkAudioEvent .Enabled "AkAudioEvent"
      "/Game/WwiseAudio/Events/1shot" "1shot" 0 0 (Char.ofNat 49) "shot".data
      (fun _ => by decide) (by decide) (by decide)).1⟩

/-- C18.  Decision table of `AkAssetFactory_Helper::CanCreateNew`: with the settings available
and event-based packaging off it is true exactly for the acoustic texture, the audio bank, the
aux bus and the audio event (so false for the RTPC and the trigger); with event-based
packaging on it is true for every asset type; with the settings unavailable it is false for
every asset type. -/
theorem CanCreateNew_decision_table (w : FactoryWorld) (T : AkAssetType) :
    (∀ st : UAkSettings, w.akSettings = some st → st.UseEventBasedPackaging = false →
      ((AkAssetFactory_Helper.CanCreateNew w T = true ↔
          T ∈ [AkAssetType.UAkAcousticTexture, .UAkAudioBank, .UAkAuxBus, .UAkAudioEvent]) ∧
        AkAssetFactory_Helper.CanCreateNew w .UAkRtpc = false ∧
        AkAssetFactory_Helper.CanCreateNew w .UAkTrigger = false)) ∧
    (∀ st : UAkSettings, w.akSettings = some st → st.UseEventBasedPackaging = true →
      AkAssetFactory_Helper.CanCreateNew w T = true) ∧
    (w.akSettings = none → AkAssetFactory_Helper.CanCreateNew w T = false) := by
  refine ⟨?_, ?_, ?_⟩
  · intro st hst hoff
    refine ⟨?_, ?_, ?_⟩
    · cases T <;> simp [AkAssetFactory_Helper.CanCreateNew, hst, hoff]
    · simp [AkAssetFactory_Helper.CanCreateNew, hst, hoff]
    · simp [AkAssetFactory_Helper.CanCreateNew, hst, hoff]
  · intro st hst hon
    simp [AkAssetFactory_Helper.CanCreateNew, hst, hon]
  · intro hnone
    simp [AkAssetFactory_Helper.CanCreateNew, hnone]

/-- Witness of C18: with event-based packaging off the aux bus can be created and the RTPC
cannot. -/
theorem CanCreateNew_decision_table_witness :
    AkAssetFactory_Helper.CanCreateNew legacyPackaging .UAkAuxBus = true ∧
    AkAssetFactory_Helper.CanCreateNew legacyPackaging .UAkRtpc = false :=
  ⟨((CanCreateNew_decision_table legacyPackaging .UAkAuxBus).1 _ rfl rfl).1.2 (by decide),
    ((CanCreateNew_decision_table legacyPackaging .UAkAuxBus).1 _ rfl rfl).2.1⟩

/-- C19.  Auto-sync policy check of `AkAssetFactory_Helper::FactoryCreateNew`: with automatic
asset synchronization in use (event-based packaging on and
`EnableAutomaticAssetSynchronization` set) and no WAAPI project loaded, the call returns null
for every asset type other than the sound bank, after one modal message, without creating an
object or issuing a remote call; for the sound bank the check does not reject: the call goes
on with the remaining checks, and a sound bank with a valid path and a name that does not
start with a digit is created, without any remote call; so it is by
`UAkAudioBankFactory::FactoryCreateNew`, which has no such check. -/
theorem auto_sync_policy_check (w : FactoryWorld) (T : AkAssetType) (DoWwiseSync : WwiseSync)
    (Class InParent Name : String) (Flags : Nat) (AssetID : FGuid) (st : UAkSettings)
    (hs : w.akSettings = some st) (hev : w.IsUsingEventBased = true)
    (hauto : st.EnableAutomaticAssetSynchronization = true) (hload : w.IsProjectLoaded = false) :
    (T ≠ .UAkAudioBank →
      AkAssetFactory_Helper.FactoryCreateNew w T DoWwiseSync Class InParent Name Flags AssetID =
        some { object := none, calls := [], dialogs := 1 }) ∧
    AkAssetFactory_Helper.FactoryCreateNew w .UAkAudioBank DoWwiseSync Class InParent Name Flags
        AssetID =
      some (AkAssetFactory_Helper.createChecked w .UAkAudioBank DoWwiseSync true false Class
        InParent Name Flags AssetID) ∧
    (startsWithDigit Name = false → w.ValidNewAssetPath Name InParent Class = true →
      AkAssetFactory_Helper.FactoryCreateNew w .UAkAudioBank DoWwiseSync Class InParent Name Flags
          AssetID =
        some { object := some { assetClass := .UAkAudioBank, Outer := InParent, Name := Name,
                                Flags := Flags, ID := if AssetID.IsValid then AssetID else 0,
                                dirty := AssetID.IsValid },
               calls := [], dialogs := 0 }) ∧
    (startsWithDigit Name = false → w.ValidNewAssetPath Name InParent Class = true →
      UAkAudioBankFactory.FactoryCreateNew w Class InParent Name Flags =
        { object := some { assetClass := .UAkAudioBank, Outer := InParent, Name := Name,
                           Flags := Flags, ID := w.NewGuid },
          calls := [], dialogs := 0 }) := by
  have hbank : AkAssetFactory_Helper.FactoryCreateNew w .UAkAudioBank DoWwiseSync Class InParent
      Name Flags AssetID =
      some (AkAssetFactory_Helper.createChecked w .UAkAudioBank DoWwiseSync true false Class
        InParent Name Flags AssetID) := by
    simp [AkAssetFactory_Helper.FactoryCreateNew, hs, hev, hauto, hload]
  refine ⟨?_, hbank, ?_, ?_⟩
  · intro hT
    simp [AkAssetFactory_Helper.FactoryCreateNew, hs, hev, hauto, hload, hT]
  · intro hd hv
    rw [hbank]
    simp [AkAssetFactory_Helper.createChecked, hd, hv]
  · intro hd hv
    simp [UAkAudioBankFactory.FactoryCreateNew, hd, hv]

/-- Witness of C19: with auto-sync in use and no project loaded, the audio event "Shot" is
refused. -/
theorem auto_sync_policy_check_witness :
    autoSyncOffline.IsUsingEventBased = true ∧ autoSyncOffline.IsProjectLoaded = false ∧
    AkAssetFactory_Helper.FactoryCreateNew autoSyncOffline .UAkAudioEvent .Enabled "AkAudioEvent"
      "/Game/WwiseAudio/Events/Shot" "Shot" 0 0 =
      some { object := none, calls := [], dialogs := 1 } :=
  ⟨rfl, rfl,
    (auto_sync_policy_check autoSyncOffline .UAkAudioEvent .Enabled "AkAudioEvent"
      "/Game/WwiseAudio/Events/Shot" "Shot" 0 0 _ rfl rfl rfl rfl).1 (by decide)⟩

/-! ### The play command -/

theorem TMap.keys_Add {V : Type} (m : List (FGuid × V)) (k : FGuid) (v : V) :
    (TMap.Add m k v).map Prod.fst =
      if k ∈ m.map Prod.fst then m.map Prod.fst else m.map Prod.fst ++ [k] := by
  induction m with
  | nil => simp [TMap.Add]
  | cons kv rest ih =>
    obtain ⟨k1, v1⟩ := kv
    by_cases h1 : k1 = k
    · simp [TMap.Add, h1]
    · have h2 : ¬ k = k1 := fun e => h1 e.symm
      simp only [TMap.Add, h1, if_false, List.map_cons, ih, List.mem_cons, h2, false_or]
      split <;> simp

theorem TMap.WF_Add {V : Type} (m : List (FGuid × V)) (k : FGuid) (v : V) (h : TMap.WF m) :
    TMap.WF (TMap.Add m k v) := by
  unfold TMap.WF at h ⊢
  rw [TMap.keys_Add]
  split
  · exact h
  · rename_i hk
    exact List.Nodup.append h (List.nodup_singleton k)
      (fun x hx hx2 => hk (by rw [List.mem_singleton.1 hx2] at hx; exact hx))

theorem TogglePlayStop_effect (w : World) (s : SWaapiPicker) (t : Int) :
    (TogglePlayStop w s t).items = s.items ∧
    (TogglePlayStop w s t).ItemToTransport = s.ItemToTransport ∧
    ∃ e, (TogglePlayStop w s t).sent = s.sent ++ e ∧
      (∀ g, WaapiRequest.transportCreate g ∉ e) ∧
      (∀ c, w.client = some c → WaapiRequest.executeAction .playStop t ∈ e) := by
  unfold TogglePlayStop
  cases w.client with
  | none =>
    exact ⟨rfl, rfl, [], by simp, fun g hg => (List.not_mem_nil _ hg).elim,
      fun c hc => by cases hc⟩
  | some c =>
    refine ⟨rfl, rfl, [.executeAction .playStop t], rfl, ?_, fun _ _ => List.mem_singleton.2 rfl⟩
    intro g hg
    simp at hg

theorem CreateTransport_effect (w : World) (s : SWaapiPicker) (id : FGuid) :
    (CreateTransport w s id).2.items = s.items ∧
    (∃ e, (CreateTransport w s id).2.sent = s.sent ++ e ∧
      ∀ g, WaapiRequest.transportCreate g ∈ e → g = id) ∧
    ((CreateTransport w s id).2.ItemToTransport = s.ItemToTransport ∨
      ∃ v, (CreateTransport w s id).2.ItemToTransport = TMap.Add s.ItemToTransport id v) := by
  unfold CreateTransport CallWaapiExecuteUri SubscribeToTransportStateChanged
  cases hc : w.client with
  | none =>
    refine ⟨by simp, ⟨[], by simp, fun g hg => (List.not_mem_nil _ hg).elim⟩, Or.inl (by simp)⟩
  | some c =>
    simp only [FAkWaapiClient.send]
    by_cases hs : (c.respond s.sent (.transportCreate id)).success = true
    · simp only [hs, if_true]
      refine ⟨trivial, ⟨[.transportCreate id,
        .subscribeStateChanged (c.respond s.sent (.transportCreate id)).transport], ?_, ?_⟩,
        Or.inr ⟨_, rfl⟩⟩
      · simp
      · intro g hg
        simp only [List.mem_cons, WaapiRequest.transportCreate.injEq, List.mem_singleton,
          reduceCtorEq, or_false, List.not_mem_nil] at hg
        exact hg
    · simp only [hs, Bool.false_eq_true, if_false]
      refine ⟨trivial, ⟨[.transportCreate id], rfl, ?_⟩, Or.inl trivial⟩
      intro g hg
      simpa using hg

theorem play_single (w : World) (s : SWaapiPicker) (item : Ptr) :
    (HandlePlayWwiseItemCommandExecute w s [item]).items = s.items ∧
    (∃ e, (HandlePlayWwiseItemCommandExecute w s [item]).sent = s.sent ++ e ∧
      (∀ g, WaapiRequest.transportCreate g ∈ e →
        g = (s.deref item).ItemId ∧ TMap.Find s.ItemToTransport (s.deref item).ItemId = none) ∧
      (∀ info, TMap.Find s.ItemToTransport (s.deref item).ItemId = some info →
        ∀ c, w.client = some c → WaapiRequest.executeAction .playStop info.TransportID ∈ e)) ∧
    (TMap.WF s.ItemToTransport →
      TMap.WF (HandlePlayWwiseItemCommandExecute w s [item]).ItemToTransport) ∧
    (∀ g, g ≠ (s.deref item).ItemId →
      TMap.Find (HandlePlayWwiseItemCommandExecute w s [item]).ItemToTransport g =
        TMap.Find s.ItemToTransport g) ∧
    (∀ g info, TMap.Find s.ItemToTransport g = some info →
      TMap.Find (HandlePlayWwiseItemCommandExecute w s [item]).ItemToTransport g = some info) := by
  simp only [HandlePlayWwiseItemCommandExecute, List.foldl_cons, List.foldl_nil]
  cases hf : TMap.Find s.ItemToTransport (s.deref item).ItemId with
  | some info =>
    simp only []
    obtain ⟨h1, h2, e, h3, h4, h5⟩ := TogglePlayStop_effect w s info.TransportID
    refine ⟨h1, ⟨e, h3, fun g hg => (h4 g hg).elim, ?_⟩, fun hwf => by rw [h2]; exact hwf,
      fun g _ => by rw [h2], fun g i hg => by rw [h2]; exact hg⟩
    intro info2 hinfo c hc
    rw [← Option.some.inj hinfo]
    exact h5 c hc
  | none =>
    simp only []
    obtain ⟨c1, ⟨e, c2, c3⟩, c4⟩ := CreateTransport_effect w s (s.deref item).ItemId
    obtain ⟨h1, h2, e2, h3, h4, _⟩ := TogglePlayStop_effect w
      (CreateTransport w s (s.deref item).ItemId).2 (CreateTransport w s (s.deref item).ItemId).1
    refine ⟨h1.trans c1, ⟨e ++ e2, by rw [h3, c2, List.append_assoc], ?_, ?_⟩, ?_, ?_, ?_⟩
    · intro g hg
      rcases List.mem_append.1 hg with hg1 | hg2
      · exact ⟨c3 g hg1, trivial⟩
      · exact (h4 g hg2).elim
    · intro info hinfo
      cases hinfo
    · intro hwf
      rw [h2]
      rcases c4 with c4 | ⟨v, c4⟩
      · rw [c4]; exact hwf
      · rw [c4]; exact TMap.WF_Add _ _ _ hwf
    · intro g hg
      rw [h2]
      rcases c4 with c4 | ⟨v, c4⟩
      · rw [c4]
      · rw [c4]; exact TMap.Find_Add_ne _ _ _ _ hg
    · intro g info hg
      rw [h2]
      have hne : g ≠ (s.deref item).ItemId := by
        intro e
        rw [e, hf] at hg
        cases hg
      rcases c4 with c4 | ⟨v, c4⟩
      · rw [c4]; exact hg
      · rw [c4, TMap.Find_Add_ne _ _ _ _ hne]; exact hg

theorem play_cons (w : World) (s : SWaapiPicker) (item : Ptr) (rest : List Ptr) :
    HandlePlayWwiseItemCommandExecute w s (item :: rest) =
      HandlePlayWwiseItemCommandExecute w (HandlePlayWwiseItemCommandExecute w s [item]) rest :=
  rfl

/-- C20.  The play command on a selection.  The requests that
`HandlePlayWwiseItemCommandExecute` issues are appended to those issued before; among them a
create-transport call occurs only for the id of a selected item for which `ItemToTransport`
had no entry, and for every selected item with an entry the play/stop action on the recorded
transport id is issued (when the client is there).  Afterwards `ItemToTransport` still has at
most one entry per item id, the entries of the items that are not selected are unchanged, and
so is every entry that existed before. -/
theorem HandlePlayWwiseItemCommandExecute_spec (w : World) :
    ∀ (SelectedItems : List Ptr) (s : SWaapiPicker),
      (HandlePlayWwiseItemCommandExecute w s SelectedItems).items = s.items ∧
      (∃ issued, (HandlePlayWwiseItemCommandExecute w s SelectedItems).sent = s.sent ++ issued ∧
        (∀ g, WaapiRequest.transportCreate g ∈ issued →
          g ∈ SelectedItems.map (fun item => (s.deref item).ItemId) ∧
          TMap.Find s.ItemToTransport g = none) ∧
        (∀ item ∈ SelectedItems, ∀ info,
          TMap.Find s.ItemToTransport (s.deref item).ItemId = some info →
          ∀ c, w.client = some c →
            WaapiRequest.executeAction .playStop info.TransportID ∈ issued)) ∧
      (TMap.WF s.ItemToTransport →
        TMap.WF (HandlePlayWwiseItemCommandExecute w s SelectedItems).ItemToTransport) ∧
      (∀ g, g ∉ SelectedItems.map (fun item => (s.deref item).ItemId) →
        TMap.Find (HandlePlayWwiseItemCommandExecute w s SelectedItems).ItemToTransport g =
          TMap.Find s.ItemToTransport g) ∧
      (∀ g info, TMap.Find s.ItemToTransport g = some info →
        TMap.Find (HandlePlayWwiseItemCommandExecute w s SelectedItems).ItemToTransport g =
          some info) := by
  intro SelectedItems
  induction SelectedItems with
  | nil =>
    intro s
    exact ⟨rfl, ⟨[], by simp [HandlePlayWwiseItemCommandExecute],
      fun g hg => (List.not_mem_nil _ hg).elim, fun item hi => (List.not_mem_nil _ hi).elim⟩,
      fun h => h, fun _ _ => rfl, fun _ _ h => h⟩
  | cons item rest ih =>
    intro s
    obtain ⟨a1, ⟨e1, a2, a3, a4⟩, a5, a6, a7⟩ := play_single w s item
    obtain ⟨b1, ⟨e2, b2, b3, b4⟩, b5, b6, b7⟩ :=
      ih (HandlePlayWwiseItemCommandExecute w s [item])
    have hd : ∀ q, (HandlePlayWwiseItemCommandExecute w s [item]).deref q = s.deref q :=
      deref_congr _ _ a1
    simp only [hd] at b3 b4 b6
    rw [play_cons]
    refine ⟨b1.trans a1, ⟨e1 ++ e2, by rw [b2, a2, List.append_assoc], ?_, ?_⟩,
      fun hwf => b5 (a5 hwf), ?_, fun g info hg => b7 g info (a7 g info hg)⟩
    · intro g hg
      rcases List.mem_append.1 hg with h1 | h2
      · obtain ⟨e, hnone⟩ := a3 g h1
        exact ⟨by rw [e]; simp, by rw [e]; exact hnone⟩
      · obtain ⟨hmem, hnone⟩ := b3 g h2
        refine ⟨List.mem_cons_of_mem _ hmem, ?_⟩
        cases hfind : TMap.Find s.ItemToTransport g with
        | none => rfl
        | some info =>
          rw [a7 g info hfind] at hnone
          cases hnone
    · intro x hx info hinfo c hc
      rcases List.mem_cons.1 hx with e | hmem
      · subst e
        exact List.mem_append_left _ (a4 info hinfo c hc)
      · exact List.mem_append_right _
          (b4 x hmem info (a7 _ info hinfo) c hc)
    · intro g hg
      have hne : g ≠ (s.deref item).ItemId := fun e => hg (by rw [e]; simp)
      have hrest : g ∉ rest.map (fun item => (s.deref item).ItemId) :=
        fun hm => hg (List.mem_cons_of_mem _ hm)
      rw [b6 g hrest, a6 g hne]

/-- Witness of C20: in the sample picker with a session recorded for the item 20 (transport
7), the play command on the selection of the event "Zebra!" (address 1, id 20) and of the
Events folder (address 0, id 1) issues the play/stop action on transport 7 and one
create-transport call, for the id 1; the table ends with one entry per item. -/
theorem HandlePlayWwiseItemCommandExecute_spec_witness :
    TMap.WF ({ eventsPicker with ItemToTransport := [(20, ⟨7, 3⟩)] } : SWaapiPicker).ItemToTransport ∧
    (HandlePlayWwiseItemCommandExecute acceptingWorld
      { eventsPicker with ItemToTransport := [(20, ⟨7, 3⟩)] } [1, 0]).sent =
      [.executeAction .playStop 7, .transportCreate 1, .subscribeStateChanged 7,
        .executeAction .playStop 7] ∧
    TMap.WF (HandlePlayWwiseItemCommandExecute acceptingWorld
      { eventsPicker with ItemToTransport := [(20, ⟨7, 3⟩)] } [1, 0]).ItemToTransport :=
  ⟨by decide, by decide,
    (HandlePlayWwiseItemCommandExecute_spec acceptingWorld [1, 0]
      { eventsPicker with ItemToTransport := [(20, ⟨7, 3⟩)] }).2.2.1 (by decide)⟩

/-! ### A partially filled `RootItems` -/

theorem emptyRootChildren_out_of_range :
    ∀ (idxs : List Nat) (s : SWaapiPicker), (∃ i ∈ idxs, s.RootItems.length ≤ i) →
      emptyRootChildren idxs s = none := by
  intro idxs
  induction idxs with
  | nil => intro s ⟨i, hi, _⟩; cases hi
  | cons j rest ih =>
    intro s ⟨i, hi, hle⟩
    simp only [emptyRootChildren]
    cases hj : s.RootItems[j]? with
    | none => rfl
    | some root =>
      simp only []
      rcases List.mem_cons.1 hi with e | hmem
      · subst e
        rw [List.getElem?_eq_none hle] at hj
        cases hj
      · exact ih _ ⟨i, hmem, hle⟩

/-- Whenever `RootItems` is neither empty nor complete, `FilterUpdated` passes its guard and
`ApplyFilter` indexes `RootItems` out of range. -/
theorem FilterUpdated_out_of_range (w : World) (fuel : Nat) (s : SWaapiPicker)
    (h0 : s.RootItems.length ≠ 0) (h8 : s.RootItems.length < Categories.length) :
    FilterUpdated w fuel s = none := by
  unfold FilterUpdated ApplyFilter
  rw [if_pos h0, emptyRootChildren_out_of_range (List.range Categories.length) s
    ⟨s.RootItems.length, List.mem_range.2 h8, Nat.le_refl _⟩]

/-! ### Audio types -/

/-- C30.  `UAkAudioType::PostLoad` never overwrites an assigned short id: an object whose
`ShortID` is not zero keeps it, with or without an audio device and whether or not it differs
from the id of the object's name; an object whose `ShortID` is zero gets, when there is an
audio device, the id that the device derives from the object's name; `Reset` sets `ShortID`
to zero. -/
theorem PostLoad_keeps_assigned_ShortID (AudioDevice : Option FAkAudioDevice)
    (o : UAkAudioType) :
    (o.ShortID ≠ 0 → (UAkAudioType.PostLoad AudioDevice o).ShortID = o.ShortID) ∧
    (∀ dev, AudioDevice = some dev → o.ShortID = 0 →
      (UAkAudioType.PostLoad AudioDevice o).ShortID = dev.GetIDFromString o.Name % 2 ^ 32) ∧
    (UAkAudioType.Reset o).ShortID = 0 := by
  refine ⟨?_, ?_, rfl⟩
  · intro h
    unfold UAkAudioType.PostLoad
    cases AudioDevice with
    | none => rfl
    | some dev =>
      simp only [h, if_false]
      split <;> rfl
  · intro dev hdev h0
    simp [UAkAudioType.PostLoad, hdev, h0]

/-- Witness of C30: the object "Shot" with the short id 7 keeps it; with the short id 0 it
gets the id 104 of its name. -/
theorem PostLoad_keeps_assigned_ShortID_witness :
    (UAkAudioType.PostLoad (some lengthDevice) { Name := "Shot", ShortID := 7 }).ShortID = 7 ∧
    (UAkAudioType.PostLoad (some lengthDevice) { Name := "Shot", ShortID := 0 }).ShortID =
      104 :=
  ⟨(PostLoad_keeps_assigned_ShortID (some lengthDevice) { Name := "Shot", ShortID := 7 }).1
      (by decide),
    by decide⟩

/-! ### The delete command -/

theorem anyRootSelected_spec (s : SWaapiPicker) (SelectedItems : List Ptr) :
    ∀ idxs : List Nat, (∀ i ∈ idxs, i < s.RootItems.length) →
      ∃ b, anyRootSelected s SelectedItems idxs = some b ∧
        (b = true → ∃ r ∈ s.RootItems, r ∈ SelectedItems) := by
  intro idxs
  induction idxs with
  | nil => intro _; exact ⟨false, rfl, fun h => by cases h⟩
  | cons i rest ih =>
    intro hall
    have hi := hall i (List.mem_cons_self _ _)
    obtain ⟨b, hb, hb2⟩ := ih (fun j hj => hall j (List.mem_cons_of_mem _ hj))
    simp only [anyRootSelected, List.getElem?_eq_getElem hi]
    by_cases hsel : s.RootItems[i] ∈ SelectedItems
    · exact ⟨true, by rw [if_pos hsel], fun _ => ⟨_, List.getElem_mem hi, hsel⟩⟩
    · exact ⟨b, by rw [if_neg hsel]; exact hb, hb2⟩

/-- The delete command on a complete list of root items.  With one root slot per category and
every root item of type `PhysicalFolder` (the type that the populate task gives it), `HandleDeleteWwiseItemCommandCanExecute` returns a
result for every selection, and the result is true if and only if the selection is not empty
and holds no item of type `PhysicalFolder`, `StandaloneWorkUnit` or `NestedWorkUnit`; it is
false whenever a root item, any of the eight, is selected. -/
theorem HandleDeleteWwiseItemCommandCanExecute_spec (s : SWaapiPicker)
    (SelectedItems : List Ptr) (hroots : Categories.length ≤ s.RootItems.length)
    (htype : ∀ r ∈ s.RootItems, (s.deref r).ItemType = .PhysicalFolder) :
    ∃ b, HandleDeleteWwiseItemCommandCanExecute s SelectedItems = some b ∧
      (b = true ↔ (SelectedItems ≠ [] ∧ ∀ item ∈ SelectedItems,
        (s.deref item).ItemType ≠ .PhysicalFolder ∧
        (s.deref item).ItemType ≠ .StandaloneWorkUnit ∧
        (s.deref item).ItemType ≠ .NestedWorkUnit)) ∧
      (∀ r ∈ s.RootItems, r ∈ SelectedItems → b = false) := by
  have hlen : (8 : Nat) ≤ s.RootItems.length := hroots
  obtain ⟨b0, hb0, hb1⟩ := anyRootSelected_spec s SelectedItems
    [Categories.indexOf .Event, Categories.indexOf .AuxBus, Categories.indexOf .ActorMixer,
      Categories.indexOf .AcousticTexture]
    (by
      intro i hi
      have : i < 8 := by
        simp only [List.mem_cons, List.mem_singleton, List.not_mem_nil, or_false] at hi
        rcases hi with e | e | e | e <;> rw [e] <;> decide
      exact Nat.lt_of_lt_of_le this hlen)
  unfold HandleDeleteWwiseItemCommandCanExecute
  cases hsel : SelectedItems with
  | nil =>
    refine ⟨false, by simp, ?_, fun r _ hr => rfl⟩
    simp
  | cons x rest =>
    rw [← hsel]
    have hpos : SelectedItems.length > 0 := by rw [hsel]; simp
    have hne : SelectedItems ≠ [] := by rw [hsel]; simp
    rw [if_pos hpos, hb0]
    cases b0 with
    | true =>
      obtain ⟨r, hr, hrs⟩ := hb1 rfl
      refine ⟨false, rfl, ?_, fun _ _ _ => rfl⟩
      constructor
      · intro h; cases h
      · intro ⟨_, hall⟩
        exact ((hall r hrs).1 (htype r hr)).elim
    | false =>
      refine ⟨_, rfl, ?_, ?_⟩
      · simp only [Bool.not_eq_true', List.any_eq_false, IsOfType, decide_eq_true_eq,
          List.mem_cons, List.mem_singleton, List.not_mem_nil, or_false, not_or, ne_eq]
        constructor
        · intro h
          exact ⟨hne, fun item hitem => h item hitem⟩
        · intro ⟨_, h⟩ item hitem
          exact h item hitem
      · intro r hr hrs
        simp only [Bool.not_eq_false', List.any_eq_true]
        exact ⟨r, hrs, by simp [IsOfType, htype r hr]⟩

/-- Instance of `HandleDeleteWwiseItemCommandCanExecute_spec`: in the populated picker the
selection of the Triggers folder (address 6, a root item that the function does not test
explicitly) cannot be deleted. -/
theorem HandleDeleteWwiseItemCommandCanExecute_spec_witness :
    Categories.length ≤ populatedPicker.RootItems.length ∧
    (6 : Ptr) ∈ populatedPicker.RootItems ∧
    HandleDeleteWwiseItemCommandCanExecute populatedPicker [6] = some false := by
  refine ⟨by decide, by decide, ?_⟩
  obtain ⟨b, hb, _, h3⟩ := HandleDeleteWwiseItemCommandCanExecute_spec populatedPicker [6]
    (by decide) (by decide)
  rw [hb, h3 6 (by decide) (by decide)]

/-! ### Item construction -/

theorem isValidPath_iff (w : World) (input : String) :
    isValidPath w input = true ↔
      ∃ cat ∈ Categories, StartsWith input (BACK_SLASH ++ w.FolderNames cat) = true := by
  simp [isValidPath, List.any_eq_true]

/-- C28.  `ConstructWwiseTreeItem` returns an item if and only if the type text of the payload
maps to a known item type, its path starts with a back slash followed by the folder name of
one of the eight categories, and its name is not empty.  The item returned is a fresh one; it
carries the name and the path of the payload and a null parent; its type is `PhysicalFolder`
when the payload is a standalone work unit whose work-unit type is "FOLDER", and the type of
the payload otherwise; its `ChildCountInWwise` is the child count of the payload (as a
`uint32`) unless the item is of type `Event` or `Sound`, for which the count of the payload is
ignored and the count stays zero. -/
theorem ConstructWwiseTreeItem_spec (w : World) (s : SWaapiPicker) (js : FJsonObject) :
    ((ConstructWwiseTreeItem w s js).1.isSome = true ↔
      ((w.FromString (GetStringField js.type)).isSome = true ∧
        (∃ cat ∈ Categories,
          StartsWith (GetStringField js.path) (BACK_SLASH ++ w.FolderNames cat) = true) ∧
        GetStringField js.name ≠ "")) ∧
    (∀ c, (ConstructWwiseTreeItem w s js).1 = some c →
      c = s.items.length ∧
      ((ConstructWwiseTreeItem w s js).2.deref c).DisplayName = GetStringField js.name ∧
      ((ConstructWwiseTreeItem w s js).2.deref c).FolderPath = GetStringField js.path ∧
      ((ConstructWwiseTreeItem w s js).2.deref c).Parent = none ∧
      (∀ t0, w.FromString (GetStringField js.type) = some t0 →
        ((ConstructWwiseTreeItem w s js).2.deref c).ItemType =
          (if t0 = .StandaloneWorkUnit ∧ js.workunitType = some "FOLDER"
           then EWwiseItemType.PhysicalFolder else t0)) ∧
      ((ConstructWwiseTreeItem w s js).2.deref c).ChildCountInWwise =
        (if ((ConstructWwiseTreeItem w s js).2.deref c).ItemType ≠ .Event ∧
            ((ConstructWwiseTreeItem w s js).2.deref c).ItemType ≠ .Sound
         then js.childrenCount.getD 0 % 2 ^ 32 else 0)) := by
  constructor
  · rw [ConstructWwiseTreeItem_isSome, ← isValidPath_iff]
    simp [acceptsPayload]
  · intro c hc
    unfold ConstructWwiseTreeItem at hc ⊢
    cases ht : w.FromString (GetStringField js.type) with
    | none => simp [ht] at hc
    | some t0 =>
      simp only [ht] at hc ⊢
      by_cases hv : isValidPath w (GetStringField js.path) = true
      · simp only [hv, if_true] at hc ⊢
        by_cases hn : GetStringField js.name = ""
        · simp [hn] at hc
        · simp only [hn, if_false] at hc ⊢
          simp only [SWaapiPicker.MakeShared, Option.some.injEq] at hc
          subst hc
          simp [SWaapiPicker.MakeShared, SWaapiPicker.deref, List.getD_eq_getElem?_getD]
      · simp [hv] at hc

/-- Instance of C28: a payload of type "WorkUnit" with the work-unit type "FOLDER" below the
Events folder becomes a `PhysicalFolder` with the child count of the payload; an event below
it gets the count zero whatever the payload says. -/
theorem ConstructWwiseTreeItem_spec_witness :
    ((ConstructWwiseTreeItem offlineWorld {}
      { id := some (some 30), name := some "Zone", type := some "WorkUnit",
        childrenCount := some 4, path := some "\\Events\\Zone",
        workunitType := some "FOLDER" }).2.deref 0).ItemType = .PhysicalFolder ∧
    ((ConstructWwiseTreeItem offlineWorld {}
      { id := some (some 30), name := some "Zone", type := some "WorkUnit",
        childrenCount := some 4, path := some "\\Events\\Zone",
        workunitType := some "FOLDER" }).2.deref 0).ChildCountInWwise = 4 ∧
    ((ConstructWwiseTreeItem offlineWorld {}
      { id := some (some 42), name := some "Play", type := some "Event",
        childrenCount := some 4, path := some "\\Events\\Zone\\Play" }).2.deref 0
      ).ChildCountInWwise = 0 :=
  ⟨((ConstructWwiseTreeItem_spec offlineWorld {}
      { id := some (some 30), name := some "Zone", type := some "WorkUnit",
        childrenCount := some 4, path := some "\\Events\\Zone",
        workunitType := some "FOLDER" }).2 0 (by decide)).2.2.2.2.1 .StandaloneWorkUnit
      (by decide),
    by decide, by decide⟩

/-! ### Parent back-references and siblings under the filter -/

/-- C23, evaluated at the failing input.  The filter query "a" finds the events "Play" and
"Stop" of the work unit "Default Work Unit".  The work unit (address 9) is fetched for "Play"
(address 8), which gets it as `Parent`; the work unit itself is inserted into the `Children`
of the Events folder (address 0) with the `Parent` of that folder, which is null; "Stop"
(address 10) is inserted into the `Children` of the work unit, found by `FindItemFromPath`,
with the `Parent` of the work unit, which is null as well. -/
theorem inserted_item_gets_the_parent_of_its_container :
    (ApplyFilter siblingHitWorld 4 { populatedPicker with FilterText := "a" }).map
      (fun t => ((t.deref 0).Children, (t.deref 9).Children)) = some ([9], [8, 10]) ∧
    (ApplyFilter siblingHitWorld 4 { populatedPicker with FilterText := "a" }).map
      (fun t => (t.deref 8).Parent) = some (some 9) ∧
    (ApplyFilter siblingHitWorld 4 { populatedPicker with FilterText := "a" }).map
      (fun t => (t.deref 9).Parent) = some none ∧
    (ApplyFilter siblingHitWorld 4 { populatedPicker with FilterText := "a" }).map
      (fun t => (t.deref 10).Parent) = some none := by
  decide

/-- C26, evaluated at the failing input.  The filter query "a" finds the event "Play" and,
after it, the work unit that holds it.  The work unit is fetched as an ancestor of "Play"
(address 9, id 30) and inserted under the Events folder; the second hit is constructed again
(address 10, id 30) and inserted under the Events folder too: the folder ends with two
children of the same id. -/
theorem ancestor_hit_is_inserted_twice :
    (ApplyFilter ancestorHitWorld 4 { populatedPicker with FilterText := "a" }).map
      (fun t => (t.deref 0).Children) = some [9, 10] ∧
    (ApplyFilter ancestorHitWorld 4 { populatedPicker with FilterText := "a" }).map
      (fun t => (t.deref 0).Children.map (fun c => (t.deref c).ItemId)) = some [30, 30] := by
  decide

/-! ### The play command after a failed create call -/

/-- When the create-transport call for a selected item without a session fails, the play
command goes on to toggle playback on the failure value -1 and records nothing. -/
theorem play_after_failed_create (w : World) (c : FAkWaapiClient) (s : SWaapiPicker)
    (item : Ptr) (hc : w.client = some c)
    (hnone : TMap.Find s.ItemToTransport (s.deref item).ItemId = none)
    (hfail : (c.respond s.sent (.transportCreate (s.deref item).ItemId)).success = false) :
    (HandlePlayWwiseItemCommandExecute w s [item]).sent =
      s.sent ++ [.transportCreate (s.deref item).ItemId, .executeAction .playStop (-1)] ∧
    (HandlePlayWwiseItemCommandExecute w s [item]).ItemToTransport = s.ItemToTransport := by
  simp [HandlePlayWwiseItemCommandExecute, hnone, CreateTransport, CallWaapiExecuteUri, hc,
    FAkWaapiClient.send, hfail, TogglePlayStop]

/-- C27, evaluated at the failing input.  The event "Zebra!" (address 1, id 20) is selected,
no session is recorded for it and the remote refuses the create-transport call:
`CreateTransport` returns -1, nothing is recorded in `ItemToTransport`, and the play/stop
action is issued for the transport -1. -/
theorem playback_toggled_on_failure_value :
    TMap.Find eventsPicker.ItemToTransport (eventsPicker.deref 1).ItemId = none ∧
    (CreateTransport refusingWorld eventsPicker 20).1 = -1 ∧
    (HandlePlayWwiseItemCommandExecute refusingWorld eventsPicker [1]).sent =
      [.transportCreate 20, .executeAction .playStop (-1)] ∧
    (HandlePlayWwiseItemCommandExecute refusingWorld eventsPicker [1]).ItemToTransport = [] := by
  decide

/-! ### The placeholder of `GetChildrenForTree` -/

/-- C25.  `GetChildrenForTree` on an item of the mirror.  If the item has a non-zero
`ChildCountInWwise`, the filter text is empty and the id of the item is not in
`LastExpandedItems`, the `Children` of the item become exactly one item, a fresh placeholder
(display name `NAME`, folder path `PATH`, type `PhysicalFolder`, a new guid, no parent, no
children), and that one-element list is returned.  If `ChildCountInWwise` is zero, the id of
the item is removed from `LastExpandedItems`, no item changes and the `Children` are returned
as they were.  In every case the list returned is the `Children` of the item after the
call. -/
theorem GetChildrenForTree_spec (w : World) (s : SWaapiPicker) (TreeItem : Ptr)
    (hT : TreeItem < s.items.length) :
    ((s.deref TreeItem).ChildCountInWwise ≠ 0 → s.FilterText = "" →
      (s.deref TreeItem).ItemId ∉ s.LastExpandedItems →
      (GetChildrenForTree w s TreeItem).1 = [s.items.length] ∧
      ((GetChildrenForTree w s TreeItem).2.deref TreeItem).Children = [s.items.length] ∧
      (GetChildrenForTree w s TreeItem).2.items.length = s.items.length + 1 ∧
      (GetChildrenForTree w s TreeItem).2.deref s.items.length =
        { DisplayName := NAME, FolderPath := PATH, Parent := none,
          ItemType := .PhysicalFolder, ItemId := w.NewGuid s.guids }) ∧
    ((s.deref TreeItem).ChildCountInWwise = 0 →
      (GetChildrenForTree w s TreeItem).2.LastExpandedItems =
        s.LastExpandedItems.erase (s.deref TreeItem).ItemId ∧
      (GetChildrenForTree w s TreeItem).2.items = s.items ∧
      (GetChildrenForTree w s TreeItem).1 = (s.deref TreeItem).Children) ∧
    (GetChildrenForTree w s TreeItem).1 =
      ((GetChildrenForTree w s TreeItem).2.deref TreeItem).Children := by
  refine ⟨?_, ?_, rfl⟩
  · intro hcount htext hnot
    -- the state with the children emptied and the placeholder allocated
    obtain ⟨s2, hs2⟩ : ∃ s2, s2 = s.update TreeItem (fun it => { it with Children := [] }) :=
      ⟨_, rfl⟩
    have hl2 : s2.items.length = s.items.length := by rw [hs2, length_update]
    obtain ⟨s3, hs3⟩ : ∃ s3, s3 = ({ s2 with guids := s2.guids + 1 }.MakeShared
        { DisplayName := NAME, FolderPath := PATH, Parent := none,
          ItemType := .PhysicalFolder, ItemId := w.NewGuid s2.guids }).2 := ⟨_, rfl⟩
    have hl3 : s3.items.length = s.items.length + 1 := by
      rw [hs3, length_MakeShared]; exact congrArg (· + 1) hl2
    have hres : (GetChildrenForTree w s TreeItem).2 =
        s3.update TreeItem (fun it => { it with Children := it.Children ++ [s2.items.length] }) := by
      simp only [GetChildrenForTree, hcount, if_false, htext, if_true, hnot, not_false_eq_true,
        hs3, hs2, SWaapiPicker.MakeShared]
    have hT3 : TreeItem < s3.items.length := by rw [hl3]; exact Nat.lt_succ_of_lt hT
    have hne : s.items.length ≠ TreeItem := fun e => Nat.lt_irrefl _ (e ▸ hT)
    have hd3T : (s3.deref TreeItem).Children = [] := by
      rw [hs3, deref_MakeShared_old _ _ _ (by show TreeItem < s2.items.length; rw [hl2]; exact hT)]
      show (s2.deref TreeItem).Children = []
      rw [hs2, deref_update_same _ _ _ hT]
    have hd3new : s3.deref s.items.length =
        { DisplayName := NAME, FolderPath := PATH, Parent := none,
          ItemType := .PhysicalFolder, ItemId := w.NewGuid s.guids } := by
      rw [hs3, ← hl2]
      have := deref_MakeShared_new { s2 with guids := s2.guids + 1 }
        { DisplayName := NAME, FolderPath := PATH, Parent := none,
          ItemType := .PhysicalFolder, ItemId := w.NewGuid s2.guids }
      rw [this, hs2]
      rfl
    have hchildren : ((GetChildrenForTree w s TreeItem).2.deref TreeItem).Children =
        [s.items.length] := by
      rw [hres, deref_update_same _ _ _ hT3, hl2]
      simp [hd3T]
    refine ⟨hchildren, hchildren, ?_, ?_⟩
    · rw [hres, length_update, hl3]
    · rw [hres, deref_update_ne _ _ _ _ hne, hd3new]
  · intro h0
    simp only [GetChildrenForTree, h0, if_true]
    exact ⟨trivial, trivial, rfl⟩

/-- Witness of C25: after a repopulation and the collapse of the Events folder (address 0, three
children in Wwise), `GetChildrenForTree` hands out one placeholder, the fresh item at
address 8. -/
theorem GetChildrenForTree_spec_witness :
    (populatedPicker.deref 0).ChildCountInWwise ≠ 0 ∧ populatedPicker.FilterText = "" ∧
    (populatedPicker.deref 0).ItemId ∉ populatedPicker.LastExpandedItems ∧
    (GetChildrenForTree projectWorld populatedPicker 0).1 = [populatedPicker.items.length] :=
  ⟨by decide, by decide, by decide,
    ((GetChildrenForTree_spec projectWorld populatedPicker 0 (by decide)).1
      (by decide) (by decide) (by decide)).1⟩

/-! ### The lookup of a payload in the mirror -/

theorem scanLevel_spec (s : SWaapiPicker) (id : FGuid) (folderPath : String) :
    ∀ (children : List Ptr) (acc : Option Ptr),
      (∀ item, scanLevel s id folderPath children acc = .error item →
        item ∈ children ∧ (s.deref item).ItemId = id) ∧
      (∀ t, scanLevel s id folderPath children acc = .ok (some t) →
        t ∈ children ∨ acc = some t) := by
  intro children
  induction children with
  | nil =>
    intro acc
    refine ⟨fun item h => ?_, fun t h => ?_⟩
    · simp [scanLevel] at h
    · simp only [scanLevel, Except.ok.injEq] at h
      exact Or.inr h
  | cons c rest ih =>
    intro acc
    simp only [scanLevel]
    by_cases hid : (s.deref c).ItemId = id
    · simp only [hid, if_true]
      refine ⟨fun item h => ?_, fun t h => ?_⟩
      · simp only [Except.error.injEq] at h
        subst h
        exact ⟨List.mem_cons_self _ _, hid⟩
      · cases h
    · simp only [hid, if_false]
      by_cases hfp : (s.deref c).FolderPath = folderPath
      · simp only [hfp, if_true]
        obtain ⟨h1, h2⟩ := ih (some c)
        refine ⟨fun item h => ?_, fun t h => ?_⟩
        · exact ⟨List.mem_cons_of_mem _ (h1 item h).1, (h1 item h).2⟩
        · rcases h2 t h with hm | he
          · exact Or.inl (List.mem_cons_of_mem _ hm)
          · rw [Option.some.inj he]
            exact Or.inl (List.mem_cons_self _ _)
      · simp only [hfp, if_false]
        obtain ⟨h1, h2⟩ := ih acc
        refine ⟨fun item h => ?_, fun t h => ?_⟩
        · exact ⟨List.mem_cons_of_mem _ (h1 item h).1, (h1 item h).2⟩
        · rcases h2 t h with hm | he
          · exact Or.inl (List.mem_cons_of_mem _ hm)
          · exact Or.inr he

theorem walkParts_spec (s : SWaapiPicker) (id : FGuid) :
    ∀ (parts : List String) (treeItem : Option Ptr) (children : List Ptr) (folderPath : String)
      (p : Ptr), walkParts s id parts treeItem children folderPath = some p →
      (s.deref p).ItemId = id ∧
      (p ∈ walkVisited s id parts children folderPath ∨ treeItem = some p) := by
  intro parts
  induction parts with
  | nil =>
    intro treeItem children folderPath p h
    cases treeItem with
    | none => simp [walkParts] at h
    | some t =>
      simp only [walkParts] at h
      by_cases hid : (s.deref t).ItemId = id
      · simp only [hid, ne_eq, not_true_eq_false, if_false, Option.some.injEq] at h
        subst h
        exact ⟨hid, Or.inr rfl⟩
      · simp [hid] at h
  | cons part rest ih =>
    intro treeItem children folderPath p h
    simp only [walkParts] at h
    obtain ⟨h1, h2⟩ := scanLevel_spec s id (folderPath ++ BACK_SLASH ++ part) children none
    simp only [walkVisited]
    cases hscan : scanLevel s id (folderPath ++ BACK_SLASH ++ part) children none with
    | error item =>
      simp only [hscan, Option.some.injEq] at h
      subst h
      exact ⟨(h1 item hscan).2, Or.inl (List.mem_append_left _ (h1 item hscan).1)⟩
    | ok r =>
      cases r with
      | none => simp [hscan] at h
      | some t =>
        simp only [hscan] at h
        obtain ⟨hid, hmem⟩ := ih _ _ _ p h
        refine ⟨hid, Or.inl ?_⟩
        rcases hmem with hm | he
        · exact List.mem_append_right _ hm
        · rw [← Option.some.inj he]
          rcases h2 t hscan with hm | hn
          · exact List.mem_append_left _ hm
          · cases hn

theorem walkVisited_mem (s : SWaapiPicker) (id : FGuid) :
    ∀ (parts : List String) (children : List Ptr) (folderPath : String) (x : Ptr),
      x ∈ walkVisited s id parts children folderPath →
      x ∈ children ∨ ∃ q, x ∈ (s.deref q).Children := by
  intro parts
  induction parts with
  | nil => intro children folderPath x h; simp [walkVisited] at h
  | cons part rest ih =>
    intro children folderPath x h
    simp only [walkVisited] at h
    rcases List.mem_append.1 h with hm | hm
    · exact Or.inl hm
    · cases hscan : scanLevel s id (folderPath ++ BACK_SLASH ++ part) children none with
      | error item => simp [hscan] at hm
      | ok r =>
        cases r with
        | none => simp [hscan] at hm
        | some t =>
          simp only [hscan] at hm
          rcases ih _ _ x hm with h1 | h2
          · exact Or.inr ⟨t, h1⟩
          · exact Or.inr h2

/-- C22.  For a payload with a path and an id field: a non-null result of
`FindTreeItemFromJsonObject` is one of the items that the walk along the path parts looks at
(so a root item or a child of an item of the mirror), and its `ItemId` is the id of the
payload (the default guid when the id text does not parse); if none of the items that the walk
looks at has that id, the result is null. -/
theorem FindTreeItemFromJsonObject_spec (s : SWaapiPicker) (ObjectJson : FJsonObject)
    (OverrideLastPart objectPath : String) (parsed : Option FGuid)
    (hpath : ObjectJson.path = some objectPath) (hid : ObjectJson.id = some parsed) :
    (∀ r, FindTreeItemFromJsonObject s ObjectJson OverrideLastPart = some r →
      (s.deref r).ItemId = parseIdOr 0 (some parsed) ∧
      r ∈ walkVisited s (parseIdOr 0 (some parsed)) (walkedParts objectPath OverrideLastPart)
        s.RootItems "" ∧
      (r ∈ s.RootItems ∨ ∃ q, r ∈ (s.deref q).Children)) ∧
    ((∀ x ∈ walkVisited s (parseIdOr 0 (some parsed)) (walkedParts objectPath OverrideLastPart)
        s.RootItems "", (s.deref x).ItemId ≠ parseIdOr 0 (some parsed)) →
      FindTreeItemFromJsonObject s ObjectJson OverrideLastPart = none) := by
  have hmain : ∀ r, FindTreeItemFromJsonObject s ObjectJson OverrideLastPart = some r →
      (s.deref r).ItemId = parseIdOr 0 (some parsed) ∧
      r ∈ walkVisited s (parseIdOr 0 (some parsed)) (walkedParts objectPath OverrideLastPart)
        s.RootItems "" := by
    intro r h
    unfold FindTreeItemFromJsonObject at h
    simp only [hpath, hid] at h
    by_cases he : ParseIntoArray objectPath = []
    · simp [he] at h
    · simp only [he, if_false] at h
      obtain ⟨h1, h2⟩ := walkParts_spec s _ _ none s.RootItems "" r h
      refine ⟨h1, ?_⟩
      rcases h2 with hm | hn
      · exact hm
      · cases hn
  refine ⟨fun r h => ⟨(hmain r h).1, (hmain r h).2, walkVisited_mem s _ _ _ _ r (hmain r h).2⟩, ?_⟩
  intro hall
  cases hres : FindTreeItemFromJsonObject s ObjectJson OverrideLastPart with
  | none => rfl
  | some r => exact (hall r (hmain r hres).2 (hmain r hres).1).elim

/-- Witness of C22: in the sample picker the payload of the event "Zebra!" (id 20) resolves to
the item at address 1, whose id is 20. -/
theorem FindTreeItemFromJsonObject_spec_witness :
    FindTreeItemFromJsonObject eventsPicker
      { id := some (some 20), path := some "\\Events\\Zebra!" } "" = some 1 ∧
    (eventsPicker.deref 1).ItemId = parseIdOr 0 (some (some 20)) :=
  ⟨by decide,
    ((FindTreeItemFromJsonObject_spec eventsPicker
      { id := some (some 20), path := some "\\Events\\Zebra!" } "" "\\Events\\Zebra!" (some 20)
      rfl rfl).1 1 (by decide)).1⟩

/-! ### Rename notifications -/

/-- The node of a rename notification: when the notification (its old name not being the empty
text) matches a node of the mirror that is not its own parent, the node gets the new name of
the notification and the path of the payload object, and keeps its id, its children and its
child count. -/
theorem OnWaapiRenamed_node (w : World) (s : SWaapiPicker) (Response : FRenameResponse)
    (objectJson : FJsonObject) (node : Ptr) (n path : String)
    (hold : Response.oldName ≠ some "") (hobj : Response.object = some objectJson)
    (hfind : FindTreeItemFromJsonObject s objectJson (GetStringField Response.oldName) =
      some node)
    (hlt : node < s.items.length) (hnew : Response.newName = some n)
    (hpath : objectJson.path = some path) (hself : (s.deref node).Parent ≠ some node) :
    (OnWaapiRenamed w s Response).deref node =
      { s.deref node with DisplayName := n, FolderPath := path } := by
  obtain ⟨s2, hs2⟩ : ∃ s2, s2 = (s.update node (fun it => { it with DisplayName := n })).update
      node (fun it => { it with FolderPath := path }) := ⟨_, rfl⟩
  have hd2 : s2.deref node = { s.deref node with DisplayName := n, FolderPath := path } := by
    rw [hs2, deref_update_same _ _ _ (by rw [length_update]; exact hlt),
      deref_update_same _ _ _ hlt]
  have hres : OnWaapiRenamed w s Response =
      match (s2.deref node).Parent with
      | some parent => SortChildren w s2 parent
      | none => s2 := by
    simp only [OnWaapiRenamed, hold, if_false, hobj, hfind, hnew, hpath, hs2]
    try rfl
  rw [hres]
  cases hp : (s2.deref node).Parent with
  | none => exact hd2
  | some parent =>
    simp only []
    have hne : node ≠ parent := by
      intro e
      rw [hd2] at hp
      exact hself (by rw [hp, e])
    unfold SortChildren
    rw [deref_update_ne _ _ _ _ hne, hd2]

/-- C21, evaluated at the failing input.  The folder "Amb", which holds the folder "Night",
is renamed to "Ambience".  The notification matches the node at address 1, which gets the new
name and the new path; its child "Night" keeps the path below the old name, which is not an
extension of the new path of its parent.  The lookup of the event "Rain" below "Night", which
found the item at address 3 before the rename, finds nothing after it when asked with the path
the remote now reports. -/
theorem rename_leaves_stale_descendant_paths :
    FindTreeItemFromJsonObject nestedPicker
      { id := some (some 10), name := some "Ambience", path := some "\\Events\\Ambience" }
      "Amb" = some 1 ∧
    ((OnWaapiRenamed offlineWorld nestedPicker renameAmb).deref 1).DisplayName = "Ambience" ∧
    ((OnWaapiRenamed offlineWorld nestedPicker renameAmb).deref 1).FolderPath =
      "\\Events\\Ambience" ∧
    ((OnWaapiRenamed offlineWorld nestedPicker renameAmb).deref 1).Children = [2] ∧
    ((OnWaapiRenamed offlineWorld nestedPicker renameAmb).deref 2).FolderPath =
      "\\Events\\Amb\\Night" ∧
    StrictExtension ((OnWaapiRenamed offlineWorld nestedPicker renameAmb).deref 2).FolderPath
      ((OnWaapiRenamed offlineWorld nestedPicker renameAmb).deref 1).FolderPath = false ∧
    StrictExtension (nestedPicker.deref 2).FolderPath (nestedPicker.deref 1).FolderPath = true ∧
    FindTreeItemFromJsonObject nestedPicker
      { id := some (some 40), path := some "\\Events\\Amb\\Night\\Rain" } "" = some 3 ∧
    FindTreeItemFromJsonObject (OnWaapiRenamed offlineWorld nestedPicker renameAmb)
      { id := some (some 40), path := some "\\Events\\Ambience\\Night\\Rain" } "" = none := by
  decide

/-! ### Attachment of a search hit -/

theorem joinPath_append (a b : List String) : joinPath (a ++ b) = joinPath a ++ joinPath b := by
  induction a with
  | nil => simp [joinPath]
  | cons x rest ih =>
    show joinPath (x :: (rest ++ b)) = joinPath (x :: rest) ++ joinPath b
    simp only [joinPath, ih, String.append_assoc]

theorem joinPath_single (x : String) : joinPath [x] = BACK_SLASH ++ x := by
  simp [joinPath]

theorem data_ne_nil (X : String) (h : X ≠ "") : X.data ≠ [] := by
  intro e
  apply h
  exact String.ext e

theorem RemoveFromEnd_append (X S : String) (h : S ≠ "") : RemoveFromEnd (X ++ S) S = X := by
  have hd := data_ne_nil S h
  unfold RemoveFromEnd
  have h1 : (!S.data.isEmpty && S.data.isSuffixOf (X ++ S).data) = true := by
    simp [List.isEmpty_iff, hd]
  rw [if_pos h1]
  apply String.ext
  simp

theorem StartsWith_append (X Y : String) (h : X ≠ "") : StartsWith (X ++ Y) X = true := by
  have hd := data_ne_nil X h
  unfold StartsWith
  simp [List.isEmpty_iff, hd]

theorem StartsWith_append_of (P Y p : String) (h : StartsWith P p = true) :
    StartsWith (P ++ Y) p = true := by
  unfold StartsWith at h ⊢
  simp only [Bool.and_eq_true, List.isPrefixOf_iff_prefix] at h ⊢
  refine ⟨h.1, ?_⟩
  rw [String.data_append]
  exact h.2.trans (List.prefix_append _ _)

theorem append_ne_self (X Y : String) (h : Y ≠ "") : X ++ Y ≠ X := by
  intro e
  have hd := data_ne_nil Y h
  have hl := congrArg String.length e
  simp only [String.length_append] at hl
  have : Y.length = 0 := by omega
  exact hd (List.length_eq_zero.1 this)

theorem joinPath_ne_empty (l : List String) (h : l ≠ []) : joinPath l ≠ "" := by
  cases l with
  | nil => exact absurd rfl h
  | cons x rest =>
    intro e
    have hl := congrArg String.length e
    simp only [joinPath, BACK_SLASH, String.length_append] at hl
    have h1 : "\\".length = 1 := by decide
    have h0 : "".length = 0 := rfl
    omega

theorem splitAtSep_clean (sep : Char) (xs : List Char) (h : sep ∉ xs) :
    ∀ acc : List Char, splitAtSep sep xs acc = [acc.reverse ++ xs] := by
  induction xs with
  | nil => intro acc; simp [splitAtSep]
  | cons c cs ih =>
    intro acc
    have hc : c ≠ sep := fun e => h (by rw [e]; exact List.mem_cons_self _ _)
    have hcs : sep ∉ cs := fun e => h (List.mem_cons_of_mem _ e)
    simp only [splitAtSep, hc, if_false]
    rw [ih hcs]
    simp

theorem splitAtSep_clean_sep (sep : Char) (xs ys : List Char) (h : sep ∉ xs) :
    ∀ acc : List Char,
      splitAtSep sep (xs ++ sep :: ys) acc = (acc.reverse ++ xs) :: splitAtSep sep ys [] := by
  induction xs with
  | nil => intro acc; simp [splitAtSep]
  | cons c cs ih =>
    intro acc
    have hc : c ≠ sep := fun e => h (by rw [e]; exact List.mem_cons_self _ _)
    have hcs : sep ∉ cs := fun e => h (List.mem_cons_of_mem _ e)
    rw [List.cons_append]
    simp only [splitAtSep, hc, if_false]
    rw [ih hcs]
    simp

theorem splitAtSep_sep (sep : Char) (xs ys : List Char) :
    ∀ acc : List Char, ∃ front, splitAtSep sep (xs ++ sep :: ys) acc = front ++ splitAtSep sep ys [] := by
  induction xs with
  | nil => intro acc; exact ⟨[acc.reverse], by simp [splitAtSep]⟩
  | cons c cs ih =>
    intro acc
    by_cases hc : c = sep
    · obtain ⟨front, hf⟩ := ih []
      refine ⟨acc.reverse :: front, ?_⟩
      rw [List.cons_append]
      simp only [splitAtSep, hc, if_true, hf, List.cons_append]
    · obtain ⟨front, hf⟩ := ih (c :: acc)
      refine ⟨front, ?_⟩
      rw [List.cons_append]
      simp only [splitAtSep, hc, if_false, hf]

theorem joinPath_cons_data (x : String) (rest : List String) :
    (joinPath (x :: rest)).data = Char.ofNat 92 :: (x.data ++ (joinPath rest).data) := by
  simp only [joinPath, String.data_append, BACK_SLASH]
  rfl

theorem splitAtSep_joinPath (rest : List String) :
    ∀ x : String, (∀ seg ∈ x :: rest, Char.ofNat 92 ∉ seg.data) →
      splitAtSep (Char.ofNat 92) (x.data ++ (joinPath rest).data) [] =
        (x :: rest).map String.data := by
  induction rest with
  | nil =>
    intro x h
    rw [show (joinPath []).data = [] from rfl, List.append_nil,
      splitAtSep_clean _ _ (h x (List.mem_cons_self _ _))]
    simp
  | cons y rest2 ih =>
    intro x h
    rw [joinPath_cons_data, splitAtSep_clean_sep _ _ _ (h x (List.mem_cons_self _ _)),
      ih y (fun seg hs => h seg (List.mem_cons_of_mem _ hs))]
    simp

/-- A path that ends with clean segments (not empty, without a back slash) has at least as many
segments as that. -/
theorem ParseIntoArray_length (X : String) (segs : List String)
    (hclean : ∀ seg ∈ segs, seg ≠ "" ∧ Char.ofNat 92 ∉ seg.data) :
    segs.length ≤ (ParseIntoArray (X ++ joinPath segs)).length := by
  cases segs with
  | nil => exact Nat.zero_le _
  | cons x rest =>
    obtain ⟨front, hf⟩ := splitAtSep_sep (Char.ofNat 92) X.data
      (x.data ++ (joinPath rest).data) []
    unfold ParseIntoArray
    rw [String.data_append, joinPath_cons_data, hf,
      splitAtSep_joinPath rest x (fun seg hs => (hclean seg hs).2), List.filter_append,
      List.map_append, List.length_append]
    have hall : ((x :: rest).map String.data).filter (fun piece => !piece.isEmpty) =
        (x :: rest).map String.data := by
      apply List.filter_eq_self.2
      intro piece hp
      obtain ⟨seg, hseg, rfl⟩ := List.mem_map.1 hp
      have := (hclean seg hseg).1
      have hd : seg.data ≠ [] := fun e => this (String.ext e)
      simp [List.isEmpty_iff, hd]
    rw [hall]
    simp

theorem AttachedUnder_mono (s t : SWaapiPicker) (R : Ptr)
    (h : ∀ q c, c ∈ (s.deref q).Children → c ∈ (t.deref q).Children) :
    ∀ x, AttachedUnder s R x → AttachedUnder t R x := by
  intro x hx
  induction hx with
  | child c hc => exact .child c (h _ _ hc)
  | step p c _ hc ih => exact .step p c ih (h _ _ hc)

theorem AttachedUnder_trans (s : SWaapiPicker) (R m : Ptr) (hm : AttachedUnder s R m) :
    ∀ x, AttachedUnder s m x → AttachedUnder s R x := by
  intro x hx
  induction hx with
  | child c hc => exact .step m c hm hc
  | step p c _ hc ih => exact .step p c ih hc

theorem followNames_under (s : SWaapiPicker) (hs : ChildrenAllocated s) :
    ∀ (names : List String) (R P : Ptr), R < s.items.length →
      followNames s R names = some P →
      P < s.items.length ∧ (P = R ∨ AttachedUnder s R P) := by
  intro names
  induction names with
  | nil =>
    intro R P hR h
    simp only [followNames, Option.some.injEq] at h
    subst h
    exact ⟨hR, Or.inl rfl⟩
  | cons n rest ih =>
    intro R P hR h
    simp only [followNames] at h
    cases hg : GetChild s R n with
    | none => simp [hg] at h
    | some c =>
      simp only [hg] at h
      unfold GetChild at hg
      have hmem : c ∈ (s.deref R).Children := List.mem_of_find?_eq_some hg
      obtain ⟨hP, hor⟩ := ih c P (hs R hR c hmem) h
      refine ⟨hP, Or.inr ?_⟩
      rcases hor with e | hu
      · rw [e]; exact .child c hmem
      · exact AttachedUnder_trans s R c (.child c hmem) P hu

theorem children_update (s : SWaapiPicker) (p q : Ptr) (f : FWwiseTreeItem → FWwiseTreeItem)
    (hf : ∀ it, ∀ c ∈ it.Children, c ∈ (f it).Children) :
    ∀ c ∈ (s.deref q).Children, c ∈ ((s.update p f).deref q).Children := by
  intro c hc
  by_cases hq : q = p
  · subst hq
    by_cases hlt : q < s.items.length
    · rw [deref_update_same s q f hlt]
      exact hf _ c hc
    · rw [update_of_not_lt s q f hlt]
      exact hc
  · rw [deref_update_ne s p q f hq]
    exact hc

theorem ChildrenAllocated_update (s : SWaapiPicker) (p : Ptr)
    (f : FWwiseTreeItem → FWwiseTreeItem) (hs : ChildrenAllocated s)
    (hf : ∀ it, ∀ c ∈ (f it).Children, c ∈ it.Children ∨ c < s.items.length) :
    ChildrenAllocated (s.update p f) := by
  intro q hq c hc
  rw [length_update] at hq ⊢
  by_cases hqp : q = p
  · subst hqp
    rw [deref_update_same s q f hq] at hc
    rcases hf _ c hc with hold | hnew
    · exact hs q hq c hold
    · exact hnew
  · rw [deref_update_ne s p q f hqp] at hc
    exact hs q hq c hc

theorem ChildrenAllocated_MakeShared (s : SWaapiPicker) (it : FWwiseTreeItem)
    (hs : ChildrenAllocated s) (hch : it.Children = []) :
    ChildrenAllocated (s.MakeShared it).2 := by
  intro q hq c hc
  rw [length_MakeShared] at hq ⊢
  by_cases hlt : q < s.items.length
  · rw [deref_MakeShared_old s it q hlt] at hc
    exact Nat.lt_succ_of_lt (hs q hlt c hc)
  · have hq2 : q = s.items.length := Nat.le_antisymm (Nat.lt_succ_iff.1 hq) (Nat.le_of_not_lt hlt)
    rw [hq2, deref_MakeShared_new, hch] at hc
    cases hc

/-- Effect of the insertion of an item into the `Children` of a container, after the item got
a parent reference: the state grows, every `Children` list keeps its entries, the list of an
allocated container holds the item, and no pointer dangles. -/
theorem attach_effect (s : SWaapiPicker) (cur P : Ptr) (x : Option Ptr) :
    Grows s ((s.update cur (fun it => { it with Parent := x })).update P
      (fun it => { it with Children := it.Children ++ [cur] })) ∧
    (∀ q c, c ∈ (s.deref q).Children →
      c ∈ (((s.update cur (fun it => { it with Parent := x })).update P
        (fun it => { it with Children := it.Children ++ [cur] })).deref q).Children) ∧
    (P < s.items.length →
      cur ∈ (((s.update cur (fun it => { it with Parent := x })).update P
        (fun it => { it with Children := it.Children ++ [cur] })).deref P).Children) ∧
    (ChildrenAllocated s → cur < s.items.length →
      ChildrenAllocated ((s.update cur (fun it => { it with Parent := x })).update P
        (fun it => { it with Children := it.Children ++ [cur] }))) := by
  have g1 : Grows s (s.update cur (fun it => { it with Parent := x })) :=
    Grows_update s cur _ (fun _ => ⟨rfl, rfl⟩)
  have c1 := fun q => children_update s cur q (fun it => { it with Parent := x })
    (fun _ _ h => h)
  have a1 := fun hs : ChildrenAllocated s => ChildrenAllocated_update s cur
    (fun it => { it with Parent := x }) hs (fun _ _ h => Or.inl h)
  have hl := length_update s cur (fun it => { it with Parent := x })
  generalize s.update cur (fun it => { it with Parent := x }) = s1 at g1 c1 a1 hl ⊢
  refine ⟨Grows_trans _ _ _ g1 (Grows_update s1 P _ (fun _ => ⟨rfl, rfl⟩)), ?_, ?_, ?_⟩
  · intro q c hc
    exact children_update s1 P q _ (fun _ c h => List.mem_append_left _ h) c (c1 q c hc)
  · intro hP
    rw [deref_update_same s1 P _ (by rw [hl]; exact hP)]
    exact List.mem_append_right _ (List.mem_singleton_self _)
  · intro hs hcur
    refine ChildrenAllocated_update s1 P _ (a1 hs) (fun it c h => ?_)
    rcases List.mem_append.1 h with h1 | h2
    · exact Or.inl h1
    · right
      rw [List.mem_singleton.1 h2, hl]
      exact hcur

theorem getRootItemFrom_prefix (s t : SWaapiPicker) (F P : String) (R : Ptr)
    (hroots : t.RootItems = s.RootItems)
    (hpaths : ∀ r ∈ s.RootItems, (t.deref r).FolderPath = (s.deref r).FolderPath)
    (hP : StartsWith P (s.deref R).FolderPath = true)
    (hmono : ∀ p, StartsWith P p = true → StartsWith F p = true) :
    ∀ idxs : List Nat, getRootItemFrom s F idxs = some (some R) →
      getRootItemFrom t P idxs = some (some R) := by
  intro idxs
  induction idxs with
  | nil => intro h; simp [getRootItemFrom] at h
  | cons i rest ih =>
    intro h
    simp only [getRootItemFrom] at h ⊢
    rw [hroots]
    cases hi : s.RootItems[i]? with
    | none => simp [hi] at h
    | some root =>
      simp only [hi] at h ⊢
      have hroot : (t.deref root).FolderPath = (s.deref root).FolderPath :=
        hpaths root (List.getElem?_mem hi)
      rw [hroot]
      by_cases hst : StartsWith F (s.deref root).FolderPath = true
      · simp only [hst, if_true, Option.some.injEq] at h
        subst h
        rw [if_pos hP]
      · simp only [hst] at h
        have hn : ¬ StartsWith P (s.deref root).FolderPath = true := fun e => hst (hmono _ e)
        rw [if_neg hn]
        exact ih h

theorem deref_of_not_lt (s : SWaapiPicker) (q : Ptr) (h : ¬ q < s.items.length) :
    s.deref q = default := by
  simp [SWaapiPicker.deref, List.getD_eq_getElem?_getD, List.getElem?_eq_none (Nat.le_of_not_lt h)]

theorem children_MakeShared (s : SWaapiPicker) (it : FWwiseTreeItem) (q c : Ptr)
    (h : c ∈ (s.deref q).Children) : c ∈ ((s.MakeShared it).2.deref q).Children := by
  by_cases hlt : q < s.items.length
  · rw [deref_MakeShared_old s it q hlt]; exact h
  · rw [deref_of_not_lt s q hlt] at h
    cases h

theorem ChildrenAllocated_congr (s t : SWaapiPicker) (h : t.items = s.items)
    (hs : ChildrenAllocated s) : ChildrenAllocated t := by
  intro p hp c hc
  rw [deref_congr t s h] at hc
  rw [h] at hp ⊢
  exact hs p hp c hc

/-- Frame of `ConstructWwiseTreeItem`: the state grows, every `Children` list keeps its
entries, no pointer dangles, and a constructed item is the new last item of the arena, with
the path and the name of the payload and no child. -/
theorem ConstructWwiseTreeItem_frame (w : World) (s : SWaapiPicker) (js : FJsonObject) :
    Grows s (ConstructWwiseTreeItem w s js).2 ∧
    (∀ q c, c ∈ (s.deref q).Children →
      c ∈ ((ConstructWwiseTreeItem w s js).2.deref q).Children) ∧
    (ChildrenAllocated s → ChildrenAllocated (ConstructWwiseTreeItem w s js).2) ∧
    ∀ c, (ConstructWwiseTreeItem w s js).1 = some c →
      c = s.items.length ∧
      (ConstructWwiseTreeItem w s js).2.items.length = s.items.length + 1 ∧
      ((ConstructWwiseTreeItem w s js).2.deref c).FolderPath = GetStringField js.path ∧
      ((ConstructWwiseTreeItem w s js).2.deref c).DisplayName = GetStringField js.name ∧
      ((ConstructWwiseTreeItem w s js).2.deref c).Children = [] := by
  rcases ConstructWwiseTreeItem_cases w s js with ⟨h1, h2, h3⟩ | ⟨it, h1, h2, h3, h4, h5⟩
  · refine ⟨Grows_of_items s _ h2 h3, fun q c hc => ?_, ChildrenAllocated_congr s _ h2,
      fun c hc => ?_⟩
    · rw [deref_congr _ s h2]; exact hc
    · rw [h1] at hc
      cases hc
  · rw [h2]
    refine ⟨Grows_trans s { s with guids := s.guids + 1 } _ (Grows_of_items s _ rfl rfl)
        (Grows_MakeShared _ it), fun q c hc => ?_, fun hs => ?_, fun c hc => ?_⟩
    · exact children_MakeShared { s with guids := s.guids + 1 } it q c hc
    · exact ChildrenAllocated_MakeShared _ it (ChildrenAllocated_congr s _ rfl hs) h5
    · rw [h1] at hc
      have hc2 : c = s.items.length := (Option.some.inj hc).symm
      subst hc2
      have hd : ({ s with guids := s.guids + 1 }.MakeShared it).2.deref s.items.length = it :=
        deref_MakeShared_new { s with guids := s.guids + 1 } it
      exact ⟨rfl, length_MakeShared _ it, by rw [hd, h4], by rw [hd, h3], by rw [hd, h5]⟩

/-- Recursion of `FindAndCreateItems` along the ancestors of a hit.  `S` is the state in which
the root item `R` of the hit's path `F` was determined, `Rp` the folder path of `R`, `anc` the
segments between the root item and the hit.  An item at the path made of an initial part
`pre` of `anc` and of its own name is attached under `R` with `pre.length + 1` calls. -/
theorem FindAndCreateItems_attaches (w : World) (c : FAkWaapiClient) (hc : w.client = some c)
    (S : SWaapiPicker) (F Rp : String) (R : Ptr) (anc : List String)
    (hralloc : RootsAllocated S)
    (hroot : GetRootItem S F = some (some R)) (hRp : (S.deref R).FolderPath = Rp)
    (hrem : AnswersAncestors w c Rp anc) :
    ∀ (fuel : Nat) (pre : List String) (x : String) (s0 : SWaapiPicker) (cur : Ptr),
      pre <+: anc → pre.length + 1 ≤ fuel → Grows S s0 → ChildrenAllocated s0 →
      cur < s0.items.length →
      (s0.deref cur).FolderPath = Rp ++ joinPath (pre ++ [x]) →
      (s0.deref cur).DisplayName = x →
      (∀ p, StartsWith (Rp ++ joinPath (pre ++ [x])) p = true → StartsWith F p = true) →
      ∃ t, FindAndCreateItems w fuel s0 cur = some t ∧ AttachedUnder t R cur ∧
        (∀ q c, c ∈ (s0.deref q).Children → c ∈ (t.deref q).Children) ∧ Grows s0 t := by
  obtain ⟨hRmem, hRstart⟩ := getRootItemFrom_some S F R _ hroot
  have hRS : R < S.items.length := hralloc R hRmem
  have hRpne : Rp ≠ "" := by
    intro e
    rw [hRp, e] at hRstart
    simp [StartsWith] at hRstart
  intro fuel
  induction fuel with
  | zero => intro pre x s0 cur _ h; omega
  | succ k ih =>
    intro pre x s0 cur hpre hfuel hG0 hA0 hcur0 hP0 hN0 hmono
    simp only [FindAndCreateItems]
    obtain ⟨s, hsdef⟩ : ∃ s : SWaapiPicker, s = { s0 with
        LastExpandedItems := insert (s0.deref cur).ItemId s0.LastExpandedItems } := ⟨_, rfl⟩
    rw [← hsdef]
    have hitems : s.items = s0.items := by rw [hsdef]
    have hroots : s.RootItems = s0.RootItems := by rw [hsdef]
    have hd : ∀ q, s.deref q = s0.deref q := deref_congr s s0 hitems
    have g0 : Grows s0 s := Grows_of_items s0 s hitems hroots
    have hG : Grows S s := Grows_trans _ _ _ hG0 g0
    have hA : ChildrenAllocated s := ChildrenAllocated_congr s0 s hitems hA0
    have hcur : cur < s.items.length := by rw [hitems]; exact hcur0
    have hP : (s.deref cur).FolderPath = Rp ++ joinPath (pre ++ [x]) := by rw [hd]; exact hP0
    have hN : (s.deref cur).DisplayName = x := by rw [hd]; exact hN0
    have hRlt : R < s.items.length := Nat.lt_of_lt_of_le hRS hG.1
    have hRs : (s.deref R).FolderPath = Rp := by rw [(hG.2.2 R hRS).1]; exact hRp
    suffices hmain : ∃ t, (match GetRootItem s (s.deref cur).FolderPath with
        | none => none
        | some none => none
        | some (some RootItem) =>
          if (s.deref cur).FolderPath = (s.deref RootItem).FolderPath then some s
          else if RemoveFromEnd (s.deref cur).FolderPath
              (BACK_SLASH ++ (s.deref cur).DisplayName) = (s.deref RootItem).FolderPath then
            some ((s.update cur
              (fun it => { it with Parent := (s.deref RootItem).Parent })).update RootItem
              (fun it => { it with Children := it.Children ++ [cur] }))
          else
            match FindItemFromPath s RootItem (RemoveFromEnd (s.deref cur).FolderPath
                (BACK_SLASH ++ (s.deref cur).DisplayName)) with
            | some ParentItem =>
              some ((s.update cur
                (fun it => { it with Parent := (s.deref ParentItem).Parent })).update ParentItem
                (fun it => { it with Children := it.Children ++ [cur] }))
            | none =>
              if (CallWaapiGetInfoFrom w s (.objectGetPath (RemoveFromEnd
                  (s.deref cur).FolderPath (BACK_SLASH ++ (s.deref cur).DisplayName)))).1.success
              then
                match (CallWaapiGetInfoFrom w s (.objectGetPath (RemoveFromEnd
                  (s.deref cur).FolderPath (BACK_SLASH ++ (s.deref cur).DisplayName)))).1.ret with
                | [] => none
                | first :: _ =>
                  match (ConstructWwiseTreeItem w (CallWaapiGetInfoFrom w s (.objectGetPath
                    (RemoveFromEnd (s.deref cur).FolderPath
                      (BACK_SLASH ++ (s.deref cur).DisplayName)))).2 first).1 with
                  | none => none
                  | some NewRootItem =>
                    FindAndCreateItems w k
                      (((ConstructWwiseTreeItem w (CallWaapiGetInfoFrom w s (.objectGetPath
                        (RemoveFromEnd (s.deref cur).FolderPath
                          (BACK_SLASH ++ (s.deref cur).DisplayName)))).2 first).2.update cur
                        (fun it => { it with Parent := some NewRootItem })).update NewRootItem
                        (fun it => { it with Children := it.Children ++ [cur] }))
                      NewRootItem
              else some (CallWaapiGetInfoFrom w s (.objectGetPath (RemoveFromEnd
                  (s.deref cur).FolderPath (BACK_SLASH ++ (s.deref cur).DisplayName)))).2) = some t ∧
        AttachedUnder t R cur ∧
        (∀ q c, c ∈ (s.deref q).Children → c ∈ (t.deref q).Children) ∧ Grows s t by
      obtain ⟨t, h1, h2, h3, h4⟩ := hmain
      exact ⟨t, h1, h2, fun q c hc => h3 q c (by rw [hd]; exact hc), Grows_trans _ _ _ g0 h4⟩
    have hroot2 : GetRootItem s (Rp ++ joinPath (pre ++ [x])) = some (some R) := by
      exact getRootItemFrom_prefix S s F _ R hG.2.1 (fun r hr => (hG.2.2 r (hralloc r hr)).1)
        (by rw [hRp]; exact StartsWith_append _ _ hRpne) hmono _ hroot
    have hxne : BACK_SLASH ++ x ≠ "" := by
      rw [← joinPath_single]; exact joinPath_ne_empty _ (List.cons_ne_nil _ _)
    have hne : ¬ Rp ++ joinPath (pre ++ [x]) = Rp :=
      append_ne_self _ _ (joinPath_ne_empty _ (by simp))
    have hL : RemoveFromEnd (Rp ++ joinPath (pre ++ [x])) (BACK_SLASH ++ x) =
        Rp ++ joinPath pre := by
      rw [joinPath_append, joinPath_single, ← String.append_assoc]
      exact RemoveFromEnd_append _ _ hxne
    simp only [hP, hN, hroot2, hRs, hne, if_false, hL]
    rcases List.eq_nil_or_concat pre with hnil | ⟨pre2, y, hcons⟩
    · -- the item lies directly below the root item
      subst hnil
      have hLR : Rp ++ joinPath [] = Rp := by simp [joinPath]
      rw [if_pos hLR]
      obtain ⟨e1, e2, e3, _⟩ := attach_effect s cur R (s.deref R).Parent
      exact ⟨_, rfl, .child cur (e3 hRlt), e2, e1⟩
    · rw [List.concat_eq_append] at hcons
      subst hcons
      have hLR : ¬ Rp ++ joinPath (pre2 ++ [y]) = Rp :=
        append_ne_self _ _ (joinPath_ne_empty _ (by simp))
      rw [if_neg hLR]
      cases hfind : FindItemFromPath s R (Rp ++ joinPath (pre2 ++ [y])) with
      | some Par =>
        simp only []
        obtain ⟨hParlt, hPar⟩ := followNames_under s hA _ R Par hRlt hfind
        obtain ⟨e1, e2, e3, _⟩ := attach_effect s cur Par (s.deref Par).Parent
        refine ⟨_, rfl, ?_, e2, e1⟩
        rcases hPar with e | hu
        · rw [← e]; exact .child cur (e3 hParlt)
        · exact .step Par cur (AttachedUnder_mono s _ R e2 Par hu) (e3 hParlt)
      | none =>
        simp only []
        obtain ⟨hsucc, first, others, hret, hpathL, hname, hacc⟩ := hrem pre2 y hpre s.sent
        have hcall : CallWaapiGetInfoFrom w s (.objectGetPath (Rp ++ joinPath (pre2 ++ [y]))) =
            (c.respond s.sent (.objectGetPath (Rp ++ joinPath (pre2 ++ [y]))),
              { s with sent := s.sent ++ [.objectGetPath (Rp ++ joinPath (pre2 ++ [y]))] }) := by
          simp only [CallWaapiGetInfoFrom, hc, FAkWaapiClient.send]
        rw [hcall]
        simp only [hsucc, if_true, hret]
        obtain ⟨s1, hs1def⟩ : ∃ s1 : SWaapiPicker, s1 = { s with
            sent := s.sent ++ [.objectGetPath (Rp ++ joinPath (pre2 ++ [y]))] } := ⟨_, rfl⟩
        rw [← hs1def]
        have hitems1 : s1.items = s.items := by rw [hs1def]
        have g1 : Grows s s1 := by rw [hs1def]; exact Grows_of_items s _ rfl rfl
        have a1 : ChildrenAllocated s1 := ChildrenAllocated_congr s s1 hitems1 hA
        have hd1 : ∀ q, s1.deref q = s.deref q := deref_congr s1 s hitems1
        clear hs1def
        obtain ⟨g2, k2, a2, hnew⟩ := ConstructWwiseTreeItem_frame w s1 first
        have hsome : (ConstructWwiseTreeItem w s1 first).1.isSome = true := by
          rw [ConstructWwiseTreeItem_isSome]; exact hacc
        cases hc1 : (ConstructWwiseTreeItem w s1 first).1 with
        | none => rw [hc1] at hsome; cases hsome
        | some New =>
          simp only []
          obtain ⟨hn1, hlen, hFn, hNn, hCn⟩ := hnew New hc1
          generalize (ConstructWwiseTreeItem w s1 first).2 = s2 at g2 k2 a2 hlen hFn hNn hCn ⊢
          have a2 := a2 a1
          have g02 : Grows s s2 := Grows_trans _ _ _ g1 g2
          have hcur2 : cur < s2.items.length := Nat.lt_of_lt_of_le hcur g02.1
          have hnew2 : New < s2.items.length := by rw [hlen, hn1]; exact Nat.lt_succ_self _
          obtain ⟨g3, k3, m3, a3⟩ := attach_effect s2 cur New (some New)
          have a3 := a3 a2 hcur2
          have m3 := m3 hnew2
          generalize (s2.update cur (fun it => { it with Parent := some New })).update
            New (fun it => { it with Children := it.Children ++ [cur] }) = s3
            at g3 k3 m3 a3 ⊢
          have hlen2 : (pre2 ++ [y]).length = pre2.length + 1 := by simp
          obtain ⟨t, ht, hu, kt, gt⟩ := ih pre2 y s3 New
            ((List.prefix_append pre2 [y]).trans hpre) (by omega)
            (Grows_trans _ _ _ hG (Grows_trans _ _ _ g02 g3)) a3
            (Nat.lt_of_lt_of_le hnew2 g3.1)
            (by rw [(g3.2.2 New hnew2).1, hFn]; exact hpathL)
            (by rw [(g3.2.2 New hnew2).2, hNn]; exact hname)
            (fun p hp => hmono p (by
              rw [joinPath_append, joinPath_single, ← String.append_assoc]
              exact StartsWith_append_of _ _ _ hp))
          refine ⟨t, ht, .step New cur hu (kt New cur m3), fun q c hc => ?_,
            Grows_trans _ _ _ g02 (Grows_trans _ _ _ g3 gt)⟩
          exact kt q c (k3 q c (k2 q c (by rw [hd1]; exact hc)))

/-- Attachment of a hit whose ancestors are accepted.  Let a search hit be an allocated item
whose folder path is the folder path of its root item `R` (the result of `GetRootItem`)
followed by the segments `ancestors` and by its own display name, all segments clean (not
empty, without a back slash), in a mirror without dangling pointers; let the remote answer
the path query of every ancestor with an object at that path, named as the last segment of
the path, that `ConstructWwiseTreeItem` accepts.  Then `FindAndCreateItems` returns within as
many calls as the folder path of the hit has segments, and in the state it returns the hit is
reached from `R` through `Children` lists, `R` still being a root item. -/
theorem FindAndCreateItems_terminates (w : World) (c : FAkWaapiClient) (s : SWaapiPicker)
    (hit R : Ptr) (ancestors : List String) (hc : w.client = some c)
    (hralloc : RootsAllocated s) (halloc : ChildrenAllocated s) (hhit : hit < s.items.length)
    (hroot : GetRootItem s (s.deref hit).FolderPath = some (some R))
    (hpath : (s.deref hit).FolderPath =
      (s.deref R).FolderPath ++ joinPath (ancestors ++ [(s.deref hit).DisplayName]))
    (hclean : ∀ seg ∈ ancestors ++ [(s.deref hit).DisplayName],
      seg ≠ "" ∧ Char.ofNat 92 ∉ seg.data)
    (hrem : AnswersAncestors w c (s.deref R).FolderPath ancestors) :
    ∃ t, FindAndCreateItems w (ParseIntoArray (s.deref hit).FolderPath).length s hit = some t ∧
      AttachedUnder t R hit ∧ R ∈ t.RootItems := by
  have hlen : ancestors.length + 1 ≤ (ParseIntoArray (s.deref hit).FolderPath).length := by
    have h := ParseIntoArray_length (s.deref R).FolderPath
      (ancestors ++ [(s.deref hit).DisplayName]) hclean
    rw [← hpath, List.length_append] at h
    exact h
  obtain ⟨t, ht, hu, _, hg⟩ := FindAndCreateItems_attaches w c hc s (s.deref hit).FolderPath
    (s.deref R).FolderPath R ancestors hralloc hroot rfl hrem
    (ParseIntoArray (s.deref hit).FolderPath).length ancestors (s.deref hit).DisplayName s hit
    (List.prefix_refl _) hlen (Grows_refl s) halloc hhit hpath rfl
    (fun p hp => by rw [hpath]; exact hp)
  refine ⟨t, ht, hu, ?_⟩
  rw [hg.2.1]
  exact (getRootItemFrom_some s _ R _ hroot).1

/-- Instance of `FindAndCreateItems_terminates`: in the populated picker with the hit "Rain"
constructed at address 8, at
the path "\Events\Default Work Unit\Ambience\Rain" of four segments, the root item of the hit
is the Events folder (address 0) and `FindAndCreateItems` returns with fuel four; it has
fetched the folder "Ambience" (address 9) and the work unit (address 10), and the Events
folder holds the work unit, which holds the folder, which holds the hit. -/
theorem FindAndCreateItems_terminates_witness :
    GetRootItem hitPicker (hitPicker.deref 8).FolderPath = some (some 0) ∧
    (ParseIntoArray (hitPicker.deref 8).FolderPath).length = 4 ∧
    (FindAndCreateItems nestedHitWorld (ParseIntoArray (hitPicker.deref 8).FolderPath).length
      hitPicker 8).isSome = true ∧
    (FindAndCreateItems nestedHitWorld 4 hitPicker 8).map
      (fun t => ((t.deref 0).Children, (t.deref 10).Children, (t.deref 9).Children)) =
      some ([10], [9], [8]) := by
  refine ⟨by decide, by decide, ?_, by decide⟩
  have hrem : AnswersAncestors nestedHitWorld nestedHitClient (hitPicker.deref 0).FolderPath
      ["Default Work Unit", "Ambience"] := by
    intro pre y hpre h
    obtain ⟨r, hr⟩ := hpre
    cases pre with
    | nil =>
      have hy : y = "Default Work Unit" := by
        simp only [List.nil_append, List.singleton_append, List.cons.injEq] at hr
        exact hr.1
      subst hy
      exact ⟨rfl, _, _, rfl, rfl, rfl, by decide⟩
    | cons a rest =>
      cases rest with
      | nil =>
        have hy : a = "Default Work Unit" ∧ y = "Ambience" := by
          simp only [List.cons_append, List.nil_append, List.cons.injEq] at hr
          exact ⟨hr.1, hr.2.1⟩
        obtain ⟨ha, hy⟩ := hy
        subst ha
        subst hy
        exact ⟨rfl, _, _, rfl, rfl, rfl, by decide⟩
      | cons b rest2 =>
        have := congrArg List.length hr
        simp at this
  obtain ⟨t, ht, _, _⟩ := FindAndCreateItems_terminates nestedHitWorld nestedHitClient hitPicker
    8 0 ["Default Work Unit", "Ambience"] rfl (by unfold RootsAllocated; decide)
    (by unfold ChildrenAllocated; decide) (by decide) (by decide) (by decide) (by decide) hrem
  rw [ht]
  rfl

/-! ### A hit below an ancestor that is not accepted -/

/-- C24, evaluated at the failing input.  The hit "Play" (address 8) lies under the Events
folder (address 0), at the path of its work unit followed by a back slash and its name, and
the remote answers the path query for the work unit with the object at that path, named as
the last segment of the path, of a type that `EWwiseItemType::FromString` does not know.
`ConstructWwiseTreeItem` returns null for that object and `FindAndCreateItems` goes on to
dereference the result: whatever the bound on the recursion, the call has no result, and the
filter query that finds the hit has none either; the hit is never attached. -/
theorem unknown_ancestor_leaves_hit_unattached :
    GetRootItem playHitPicker (playHitPicker.deref 8).FolderPath = some (some 0) ∧
    (playHitPicker.deref 8).FolderPath =
      "\\Events\\Default Work Unit" ++ BACK_SLASH ++ (playHitPicker.deref 8).DisplayName ∧
    (CallWaapiGetInfoFrom unknownAncestorWorld playHitPicker
      (.objectGetPath "\\Events\\Default Work Unit")).1.success = true ∧
    (CallWaapiGetInfoFrom unknownAncestorWorld playHitPicker
      (.objectGetPath "\\Events\\Default Work Unit")).1.ret.map
        (fun js => (GetStringField js.path, GetStringField js.name)) =
      [("\\Events\\Default Work Unit", "Default Work Unit")] ∧
    (∀ fuel, (FindAndCreateItems unknownAncestorWorld fuel playHitPicker 8).isNone = true) ∧
    (ApplyFilter unknownAncestorWorld 4 { populatedPicker with FilterText := "a" }).isNone =
      true := by
  refine ⟨by decide, by decide, by decide, by decide, ?_, by decide⟩
  intro fuel
  cases fuel with
  | zero => rfl
  | succ k => rfl

/-! ### The delete command with a missing root slot -/

/-- C29, evaluated at the failing input.  The repopulation that the remote fails at the second
category leaves one root item, the Events folder (address 0), whose expansion task adds the
event "Play" (address 1).  With the event selected, a selection that is not empty and holds
no item of a structural type, `HandleDeleteWwiseItemCommandCanExecute` reads the root slot of
the second category, which does not exist: the test has no result. -/
theorem delete_test_reads_missing_root_slot :
    (runMirror partialProjectWorld 4 [.repopulate, .expansionTask 0] {}).map
      (fun s => (s.RootItems, (s.deref 0).Children, (s.deref 1).ItemType)) =
      some ([0], [1], .Event) ∧
    partialPicker.RootItems = [0] ∧
    (partialPicker.deref 1).ItemType = .Event ∧
    HandleDeleteWwiseItemCommandCanExecute partialPicker [1] = none := by
  decide

end SwarmAlien
